import Mathlib

/-!
# Avaris: trade-signal pipeline and transaction classifier

A shallow embedding of `src/index.js`:

* `fetchBalances`, `confirmTransactionReliable` and the live
  `app.post('/tradingview-webhook')` handler (lines 181-316);
* the live `app.get('/api/solana/transactions')` classifier (lines 1264-1425).

Conventions of the embedding.

* JavaScript numbers are IEEE 754 binary64 numbers.  A finite one is modelled
  by the rational it denotes: `toDouble q` is the binary64 number nearest to
  `q` (ties to even, subnormal range included), and an arithmetic operator
  returns `toDouble` of its exact result (`jsAdd`, `jsSub`, `jsMul`, `jsDiv`).
  A number that arrives in JSON is given by the value of its text and is
  taken through `toDouble` where the code computes with it.  `NaN` arises
  from a missing array element only and is an explicit case; magnitudes of
  `2^1024` and more (`Infinity`) are outside the model: 64-bit lamport and
  token amounts stay far below.
* Every outbound call is answered by a `World` (the ledger node, the quote
  service and the swap-build service); a call that throws is an
  `Except.error`.  The handler returns its HTTP response together with the
  trace of outbound calls it made, in order.
* Mints are base58 account addresses; none is an integer-like property name
  or a name inherited from `Object.prototype`, so the JavaScript object
  `tokenChanges` is an association list in insertion order.
-/

namespace Avaris

/-! ## Constants (index.js 169-170, 1320-1321) -/

def USDC_MINT : String := "EPjFWdd5AufqSSqeM2qN1xzybapC8G4wEGGkZwyTDt1v"

def SOL_MINT : String := "So11111111111111111111111111111111111111112"

/-! ## JavaScript numbers: IEEE 754 binary64 -/

/-- Rounding of a rational to the nearest integer, ties to the even integer. -/
def roundHalfEven (x : ℚ) : ℤ :=
  if x - ⌊x⌋ < 1 / 2 then ⌊x⌋
  else if 1 / 2 < x - ⌊x⌋ then ⌊x⌋ + 1
  else if ⌊x⌋ % 2 = 0 then ⌊x⌋
  else ⌊x⌋ + 1

/-- The exponent of the unit in the last place of the binary64 numbers next to
`q`: 52 below the binary exponent of `q`, and -1074 in the subnormal range. -/
def ulpExponent (q : ℚ) : ℤ := max (Int.log 2 |q| - 52) (-1074)

/-- The binary64 number nearest to `q`, ties to even: the value of a number
read from JSON and of the result of an arithmetic operation whose exact result
is `q`. -/
def toDouble (q : ℚ) : ℚ := (roundHalfEven (q / 2 ^ ulpExponent q) : ℚ) * 2 ^ ulpExponent q

/-- The JavaScript sum `a + b` of two numbers. -/
def jsAdd (a b : ℚ) : ℚ := toDouble (a + b)

/-- The JavaScript difference `a - b` of two numbers. -/
def jsSub (a b : ℚ) : ℚ := toDouble (a - b)

/-- The JavaScript product `a * b` of two numbers. -/
def jsMul (a b : ℚ) : ℚ := toDouble (a * b)

/-- The JavaScript quotient `a / b` of two numbers, `b` not zero. -/
def jsDiv (a b : ℚ) : ℚ := toDouble (a / b)

/-! ## Outbound calls and the world answering them -/

/-- An error thrown by an outbound call: `error.message` and, for an HTTP
error raised by axios, `error.response.data`. -/
structure JsError where
  message : String
  response : Option String := none
deriving DecidableEq, Repr

/-- The outbound calls the trading handler can make, as recorded in its trace. -/
inductive Call where
  /-- The call `connection.getBalance(publicKey)`. -/
  | getBalance
  /-- The call `connection.getParsedTokenAccountsByOwner(publicKey, ...)` for the USDC mint. -/
  | getParsedTokenAccountsByOwner
  /-- The quote request `axios.get` with `inputMint`, `outputMint`, `amount`, `slippageBps`. -/
  | quote (inputMint outputMint : String) (amount : Int) (slippageBps : Nat)
  /-- The swap-build request `axios.post` carrying the quote response. -/
  | swap (quoteResponse : String)
  /-- The signing operation `transaction.sign([keypair])`. -/
  | sign (transaction : String)
  /-- The broadcast `connection.sendRawTransaction` with `maxRetries: 2`, `skipPreflight: true`. -/
  | sendRawTransaction (bytes : String)
  /-- The status query `connection.getSignatureStatus(signature)`. -/
  | getSignatureStatus (signature : String)
  /-- The full lookup `connection.getConfirmedTransaction(signature)`. -/
  | getConfirmedTransaction (signature : String)
deriving DecidableEq, Repr

/-- The value of `statusResponse.value` when it is not null. -/
structure SignatureStatus where
  confirmationStatus : Option String
  err : Option String
deriving DecidableEq, Repr

/-- The `meta` object of a confirmed transaction; `err = none` is JavaScript `null`. -/
structure ConfirmedMeta where
  err : Option String
deriving DecidableEq, Repr

/-- The value returned by `getConfirmedTransaction` when it is not null. -/
structure ConfirmedTransaction where
  meta : Option ConfirmedMeta
deriving DecidableEq, Repr

/-- Everything outside the process.  The two poll queries are indexed by the
attempt number (from 0) in which they are issued: each attempt issues each
query at most once, so this covers every sequence of replies. -/
structure World where
  /-- The lamports returned by `connection.getBalance`, an integer-valued
  binary64 number. -/
  getBalance : Except JsError Nat
  /-- The `uiAmount` of each USDC token account of the owner: `none` is `null`,
  `some x` the number whose JSON text has the value `x`. -/
  getParsedTokenAccountsByOwner : Except JsError (List (Option ℚ))
  quote : String → String → Int → Except JsError String
  swap : String → Except JsError String
  /-- Decoding: `Buffer.from(swapTransaction, "base64")` and `VersionedTransaction.deserialize`. -/
  deserialize : String → Except JsError String
  /-- Signing: `transaction.sign([keypair])` followed by `transaction.serialize()`. -/
  sign : String → Except JsError String
  sendRawTransaction : String → Except JsError String
  getSignatureStatus : Nat → Except JsError (Option SignatureStatus)
  getConfirmedTransaction : Nat → Except JsError (Option ConfirmedTransaction)

/-! ## Balance Oracle: `fetchBalances` (index.js 181-196) -/

/-- The balances read, as the values `lamports / 10^9` and `uiAmount`; the
JavaScript numbers holding them are their nearest binary64 numbers, taken by
`toDouble` where the handler computes with them. -/
structure Balances where
  sol : ℚ
  usdc : ℚ
deriving DecidableEq, Repr

/-- The expression `tokenAccounts.value[0]?.account.data.parsed.info.tokenAmount.uiAmount || 0`. -/
def firstUiAmountOrZero (accounts : List (Option ℚ)) : ℚ :=
  match accounts with
  | [] => 0
  | none :: _ => 0
  | some x :: _ => x

def fetchBalances (w : World) : Except JsError Balances × List Call :=
  match w.getBalance with
  | .error e => (.error e, [.getBalance])
  | .ok solBalanceLamports =>
    let solBalance : ℚ := (solBalanceLamports : ℚ) / 10 ^ 9
    match w.getParsedTokenAccountsByOwner with
    | .error e => (.error e, [.getBalance, .getParsedTokenAccountsByOwner])
    | .ok tokenAccounts =>
      let usdcBalance := firstUiAmountOrZero tokenAccounts
      (.ok { sol := solBalance, usdc := usdcBalance },
        [.getBalance, .getParsedTokenAccountsByOwner])

/-! ## Confirmation Monitor: `confirmTransactionReliable` (index.js 199-230) -/

def maxAttempts : Nat := 10

/-- The test `status && status.confirmationStatus === "finalized"`. -/
def statusFinalized (status : Option SignatureStatus) : Bool :=
  match status with
  | none => false
  | some s => s.confirmationStatus == some "finalized"

/-- The test `confirmation && confirmation.meta && confirmation.meta.err === null`. -/
def lookupConfirmed (confirmation : Option ConfirmedTransaction) : Bool :=
  match confirmation with
  | none => false
  | some c =>
    match c.meta with
    | none => false
    | some m => m.err == none

/-- The `while (attempts < maxAttempts)` loop, started with `attempts` attempts
already used and `trace` the queries issued so far.  A query that throws is
caught by the `try`/`catch` inside the loop body; every path that does not
return runs `attempts++`. -/
def confirmLoop (w : World) (signature : String) (attempts : Nat) (trace : List Call) :
    Bool × List Call :=
  if attempts < maxAttempts then
    match w.getSignatureStatus attempts with
    | .error _ =>
      confirmLoop w signature (attempts + 1) (trace ++ [.getSignatureStatus signature])
    | .ok status =>
      if statusFinalized status then
        (true, trace ++ [.getSignatureStatus signature])
      else
        match w.getConfirmedTransaction attempts with
        | .error _ =>
          confirmLoop w signature (attempts + 1)
            (trace ++ [.getSignatureStatus signature, .getConfirmedTransaction signature])
        | .ok confirmation =>
          if lookupConfirmed confirmation then
            (true, trace ++ [.getSignatureStatus signature, .getConfirmedTransaction signature])
          else
            confirmLoop w signature (attempts + 1)
              (trace ++ [.getSignatureStatus signature, .getConfirmedTransaction signature])
  else
    (false, trace)
termination_by maxAttempts - attempts
decreasing_by all_goals omega

def confirmTransactionReliable (w : World) (signature : String) : Bool × List Call :=
  confirmLoop w signature 0 []

/-! ## Trading handler: `app.post('/tradingview-webhook')` (index.js 232-316) -/

/-- The value of `req.body.indicator`: absent (`undefined`), `null`, a string,
or any other JSON value, of which only the truthiness and the text it has in
a template literal matter. -/
inductive Indicator where
  | absent
  | null
  | str (s : String)
  | other (truthy : Bool) (text : String)
deriving DecidableEq, Repr

/-- JavaScript truthiness of the indicator, as tested by `!indicator`. -/
def Indicator.truthy : Indicator → Bool
  | .absent => false
  | .null => false
  | .str s => s != ""
  | .other t _ => t

/-- The text of the indicator inside a template literal. -/
def Indicator.text : Indicator → String
  | .absent => "undefined"
  | .null => "null"
  | .str s => s
  | .other _ t => t

/-- The JSON body of a response: the fields the handler can set. -/
structure Body where
  error : Option String := none
  message : Option String := none
  signature : Option String := none
  details : Option String := none
deriving DecidableEq, Repr

structure Response where
  status : Nat
  body : Body
deriving DecidableEq, Repr

/-- The trade built from the signal: `fromToken`, `toToken`, `amount`. -/
structure Trade where
  fromToken : String
  toToken : String
  amount : Int
deriving DecidableEq, Repr

/-- The reserve `solToKeep = 0.01` of the bearish branch, a binary64 number. -/
def solToKeep : ℚ := toDouble (1 / 100)

/-- Line 250: `Math.floor(balances.usdc * 10 ** 6)`. -/
def bullishAmount (usdc : ℚ) : ℤ := ⌊jsMul (toDouble usdc) (10 ^ 6)⌋

/-- Line 255: `Math.floor((balances.sol - solToKeep) * 10 ** 9)`. -/
def bearishAmount (sol : ℚ) : ℤ := ⌊jsMul (jsSub (toDouble sol) solToKeep) (10 ^ 9)⌋

/-- Lines 245-261: the trade for a truthy indicator and the balances just read,
or the 400 response that rejects the request. -/
def buildTrade (indicator : Indicator) (balances : Balances) : Except Response Trade :=
  if indicator = .str "bullish" then
    .ok { fromToken := USDC_MINT, toToken := SOL_MINT,
          amount := bullishAmount balances.usdc }
  else if indicator = .str "bearish" then
    let amount : Int := bearishAmount balances.sol
    if amount ≤ 0 then
      .error { status := 400,
               body := { error := some "Not enough SOL to trade after reserving for fees." } }
    else
      .ok { fromToken := SOL_MINT, toToken := USDC_MINT, amount := amount }
  else
    .error { status := 400, body := { error := some ("Unknown indicator '" ++ indicator.text ++ "'") } }

/-- The `catch (error)` block of the handler (lines 309-315). -/
def caught (e : JsError) : Response :=
  { status := 500,
    body := { error := some e.message,
              details := some (e.response.getD "No additional error details.") } }

/-- Lines 265-307: quote, swap build, signing, broadcast and confirmation of a
trade, with `trace` the calls made so far. -/
def executeTrade (w : World) (trade : Trade) (trace : List Call) : Response × List Call :=
  let trace := trace ++ [.quote trade.fromToken trade.toToken trade.amount 50]
  match w.quote trade.fromToken trade.toToken trade.amount with
  | .error e => (caught e, trace)
  | .ok quoteResponse =>
    let trace := trace ++ [.swap quoteResponse]
    match w.swap quoteResponse with
    | .error e => (caught e, trace)
    | .ok swapTransaction =>
      match w.deserialize swapTransaction with
      | .error e => (caught e, trace)
      | .ok transaction =>
        let trace := trace ++ [.sign transaction]
        match w.sign transaction with
        | .error e => (caught e, trace)
        | .ok bytes =>
          let trace := trace ++ [.sendRawTransaction bytes]
          match w.sendRawTransaction bytes with
          | .error e => (caught e, trace)
          | .ok signature =>
            let confirmation := confirmTransactionReliable w signature
            if !confirmation.1 then
              ({ status := 500,
                 body := { error := some "Transaction confirmation failed",
                           signature := some signature } },
                trace ++ confirmation.2)
            else
              ({ status := 200,
                 body := { message := some "Transaction successful",
                           signature := some signature } },
                trace ++ confirmation.2)

/-- The handler: the response sent and the outbound calls made, in order. -/
def handler (w : World) (indicator : Indicator) : Response × List Call :=
  if !indicator.truthy then
    ({ status := 400, body := { error := some "'indicator' is required in the request." } }, [])
  else
    match fetchBalances w with
    | (.error e, trace) => (caught e, trace)
    | (.ok balances, trace) =>
      match buildTrade indicator balances with
      | .error response => (response, trace)
      | .ok trade => executeTrade w trade trace

/-! ## Transaction classifier: `app.get('/api/solana/transactions')` (index.js 1310-1406) -/

/-- One entry of `meta.preTokenBalances` / `meta.postTokenBalances`.  The
classifier reads `mint` and `uiTokenAmount?.uiAmount` only; `uiAmount = none`
stands for a missing `uiTokenAmount` or a `null` amount, `some x` for the
number whose JSON text has the value `x`. -/
structure TokenBalance where
  accountIndex : Nat
  mint : String
  owner : String
  uiAmount : Option ℚ
deriving DecidableEq, Repr

/-- The fields of `transactionDetails.meta` the classifier reads; the native
balances and the fee are the integer-valued numbers received. -/
structure TxMeta where
  preTokenBalances : List TokenBalance
  postTokenBalances : List TokenBalance
  preBalances : List Nat
  postBalances : List Nat
  fee : Nat
deriving DecidableEq, Repr

/-- A value of the object `tokenChanges`. -/
structure Change where
  pre : ℚ
  post : ℚ
deriving DecidableEq, Repr

/-- The object `tokenChanges`: its own properties in insertion order. -/
abbrev TokenChanges := List (String × Change)

/-- The assignment `tokenChanges[mint] = value`: an existing property keeps its
place, a new one is added last. -/
def setChange (tokenChanges : TokenChanges) (mint : String) (value : Change) : TokenChanges :=
  match tokenChanges with
  | [] => [(mint, value)]
  | (k, v) :: rest =>
    if k = mint then (k, value) :: rest else (k, v) :: setChange rest mint value

/-- The statement `if (tokenChanges[mint]) { tokenChanges[mint].post = post }`. -/
def setPost (tokenChanges : TokenChanges) (mint : String) (post : ℚ) : TokenChanges :=
  match tokenChanges with
  | [] => []
  | (k, v) :: rest =>
    if k = mint then (k, { v with post := post }) :: rest else (k, v) :: setPost rest mint post

/-- The expression `uiTokenAmount?.uiAmount || 0`, a binary64 number. -/
def uiAmountOrZero (b : TokenBalance) : ℚ := toDouble (b.uiAmount.getD 0)

/-- Lines 1326-1334: both `forEach` loops. -/
def trackTokenChanges (preTokenBalances postTokenBalances : List TokenBalance) : TokenChanges :=
  let afterPre := preTokenBalances.foldl
    (fun tc b => setChange tc b.mint { pre := uiAmountOrZero b, post := 0 }) []
  postTokenBalances.foldl (fun tc b => setPost tc b.mint (uiAmountOrZero b)) afterPre

/-- An element of `spentAssets` / `receivedAssets`. -/
structure Asset where
  mint : String
  amount : ℚ
deriving DecidableEq, Repr

/-- Lines 1337-1348: the `for (const mint in tokenChanges)` loop, started with
the lists built so far; the result is `(spentAssets, receivedAssets)`. -/
def splitAssets (tokenChanges : TokenChanges) (spentAssets receivedAssets : List Asset) :
    List Asset × List Asset :=
  match tokenChanges with
  | [] => (spentAssets, receivedAssets)
  | (mint, c) :: rest =>
    let change := jsSub c.post c.pre
    if change < 0 then
      splitAssets rest (spentAssets ++ [{ mint := mint, amount := |change| }]) receivedAssets
    else if change > 0 then
      splitAssets rest spentAssets (receivedAssets ++ [{ mint := mint, amount := change }])
    else
      splitAssets rest spentAssets receivedAssets

/-- The result of `spentAssets.find(asset => asset.mint === mint)`, as a truth value. -/
def hasMint (assets : List Asset) (mint : String) : Bool :=
  assets.any (fun asset => asset.mint = mint)

/-- Lines 1353-1357: `isFeeTransaction`.  A missing `preBalances[0]` or
`postBalances[0]` makes `solChange` `NaN`, and the comparison false. -/
def isFeeTransaction (m : TxMeta) (spentAssets receivedAssets : List Asset) : Bool :=
  match m.postBalances.head?, m.preBalances.head? with
  | some post0, some pre0 =>
    let solChange : ℚ := jsDiv (jsSub (post0 : ℚ) (pre0 : ℚ)) (10 ^ 9)
    let feeInSOL : ℚ := jsDiv (m.fee : ℚ) (10 ^ 9)
    decide (|jsAdd solChange feeInSOL| < toDouble (1 / 100000)) &&
      spentAssets.length == 0 && receivedAssets.length == 0
  | _, _ => false

/-- The fields of the processed transaction that the classifier computes. -/
structure Classified where
  transactionType : String
  spentAssets : List Asset
  receivedAssets : List Asset
deriving DecidableEq, Repr

/-- Lines 1317-1392: the classifier, as a function of `meta`. -/
def classify (m : TxMeta) : Classified :=
  let tokenChanges := trackTokenChanges m.preTokenBalances m.postTokenBalances
  let assets := splitAssets tokenChanges [] []
  let spentAssets := assets.1
  let receivedAssets := assets.2
  let isFee := isFeeTransaction m spentAssets receivedAssets
  let transactionType := "Transfer"
  let transactionType := if isFee then "Fee Payment" else transactionType
  let transactionType :=
    if spentAssets.length > 0 && receivedAssets.length > 0 then
      if hasMint spentAssets USDC_MINT && hasMint receivedAssets SOL_MINT then
        "Sell SOL"
      else if hasMint spentAssets SOL_MINT && hasMint receivedAssets USDC_MINT then
        "Buy SOL"
      else
        "Swap"
    else transactionType
  let transactionType :=
    if spentAssets.length == 1 && receivedAssets.length == 0 && !isFee then
      "Transfer"
    else transactionType
  { transactionType := transactionType,
    spentAssets := spentAssets,
    receivedAssets := receivedAssets }

/-! ## Reading a trace -/

def Call.isQuote : Call → Bool
  | .quote _ _ _ _ => true
  | _ => false

def Call.isSwap : Call → Bool
  | .swap _ => true
  | _ => false

def Call.isSign : Call → Bool
  | .sign _ => true
  | _ => false

def Call.isSend : Call → Bool
  | .sendRawTransaction _ => true
  | _ => false

def Call.isStatusQuery : Call → Bool
  | .getSignatureStatus _ => true
  | _ => false

def Call.isLookup : Call → Bool
  | .getConfirmedTransaction _ => true
  | _ => false

/-- A call of the confirmation monitor: a status query or a full lookup. -/
def Call.isPoll (c : Call) : Bool := c.isStatusQuery || c.isLookup

/-! ## Sample worlds and records used to instantiate the theorems -/

/-- A world holding 0.05 SOL and 3.5 USDC in which every service call succeeds
and the node never reports the transaction: every status is `null`, every
lookup returns `null`. -/
def quietWorld : World where
  getBalance := .ok 50000000
  getParsedTokenAccountsByOwner := .ok [some (7 / 2)]
  quote := fun _ _ _ => .ok "quote"
  swap := fun _ => .ok "swapTransaction"
  deserialize := fun t => .ok t
  sign := fun t => .ok t
  sendRawTransaction := fun _ => .ok "signature"
  getSignatureStatus := fun _ => .ok none
  getConfirmedTransaction := fun _ => .ok none

/-- The world `quietWorld` with a node whose `getBalance` call fails. -/
def unreachableNodeWorld : World :=
  { quietWorld with getBalance := .error { message := "failed to get balance" } }

/-! ## Reading `tokenChanges` -/

/-- The property read `tokenChanges[mint]`; `none` is `undefined`. -/
def getChange (tokenChanges : TokenChanges) (mint : String) : Option Change :=
  match tokenChanges with
  | [] => none
  | (k, v) :: rest => if k = mint then some v else getChange rest mint

/-- The amount (`uiTokenAmount?.uiAmount || 0`) of the last entry of `balances`
whose mint is `mint`, if there is one.  It is used to state what the two
`forEach` loops leave in `tokenChanges`. -/
def lastAmount (balances : List TokenBalance) (mint : String) : Option ℚ :=
  match balances with
  | [] => none
  | b :: rest =>
    match lastAmount rest mint with
    | some amount => some amount
    | none => if b.mint = mint then some (uiAmountOrZero b) else none

/-! ## Sample transaction records -/

/-- A record of the owner spending 100 USDC and receiving 0.5 wrapped SOL; the
native balance drops by exactly the fee. -/
def usdcToSolSwap : TxMeta where
  preTokenBalances := [⟨1, USDC_MINT, "owner", some 100⟩, ⟨2, SOL_MINT, "owner", some 0⟩]
  postTokenBalances := [⟨1, USDC_MINT, "owner", some 0⟩, ⟨2, SOL_MINT, "owner", some (1 / 2)⟩]
  preBalances := [1000000000]
  postBalances := [999995000]
  fee := 5000

/-- A record of the owner spending 0.5 wrapped SOL and receiving 95 USDC. -/
def solToUsdcSwap : TxMeta where
  preTokenBalances := [⟨1, SOL_MINT, "owner", some (1 / 2)⟩, ⟨2, USDC_MINT, "owner", some 0⟩]
  postTokenBalances := [⟨1, SOL_MINT, "owner", some 0⟩, ⟨2, USDC_MINT, "owner", some 95⟩]
  preBalances := [1000000000]
  postBalances := [999995000]
  fee := 5000

/-- A record with no token balances: pre-native 1.00000000 SOL, post-native
0.99999500 SOL, fee 0.000005 SOL. -/
def feeOnlyPayment : TxMeta where
  preTokenBalances := []
  postTokenBalances := []
  preBalances := [1000000000]
  postBalances := [999995000]
  fee := 5000

/-- A record in which the SOL mint occurs in the post token balances only, with
the amount 0.5. -/
def postOnlyReceipt : TxMeta where
  preTokenBalances := []
  postTokenBalances := [⟨1, SOL_MINT, "owner", some (1 / 2)⟩]
  preBalances := [1000000000]
  postBalances := [999995000]
  fee := 5000

/-! ## One iteration of the confirmation loop -/

/-- The `try` block of one loop iteration (index.js 205-219) at attempt number
`attempts`: whether it executes `return true`, and the queries it issues. -/
def pollBody (w : World) (signature : String) (attempts : Nat) : Bool × List Call :=
  match w.getSignatureStatus attempts with
  | .error _ => (false, [.getSignatureStatus signature])
  | .ok status =>
    if statusFinalized status then
      (true, [.getSignatureStatus signature])
    else
      match w.getConfirmedTransaction attempts with
      | .error _ =>
        (false, [.getSignatureStatus signature, .getConfirmedTransaction signature])
      | .ok confirmation =>
        (lookupConfirmed confirmation,
          [.getSignatureStatus signature, .getConfirmedTransaction signature])

/-! ## Further sample worlds -/

/-- A world whose owner holds 0.05 SOL and no USDC token account, and whose
quote service refuses a request for an amount that is not positive. -/
def emptyWalletWorld : World :=
  { quietWorld with
    getParsedTokenAccountsByOwner := .ok []
    quote := fun _ _ amount =>
      if amount ≤ 0 then .error { message := "Request failed with status code 400" }
      else .ok "quote" }

/-- The world `quietWorld` with a node that reports the status "confirmed" on
the first two polls and "finalized" from the third poll on. -/
def finalizedAtThirdPollWorld : World :=
  { quietWorld with
    getSignatureStatus := fun i =>
      if i < 2 then .ok (some { confirmationStatus := some "confirmed", err := none })
      else .ok (some { confirmationStatus := some "finalized", err := none }) }

/-- The world `quietWorld` with a node whose status is never "finalized" and
whose full lookup returns the transaction with `meta.err` equal to `null`. -/
def lookupConfirmsWorld : World :=
  { quietWorld with
    getSignatureStatus := fun _ =>
      .ok (some { confirmationStatus := some "confirmed", err := none })
    getConfirmedTransaction := fun _ => .ok (some { meta := some { err := none } }) }

/-- The world `quietWorld` with a node that throws on every status query and
every lookup. -/
def throwingNodeWorld : World :=
  { quietWorld with
    getSignatureStatus := fun _ => .error { message := "fetch failed" }
    getConfirmedTransaction := fun _ => .error { message := "fetch failed" } }

/-- The world `quietWorld` with a node that reports the transaction finalized
with an execution error, in the status and in the full lookup. -/
def finalizedFailureWorld : World :=
  { quietWorld with
    getSignatureStatus := fun _ =>
      .ok (some { confirmationStatus := some "finalized", err := some "InstructionError" })
    getConfirmedTransaction := fun _ =>
      .ok (some { meta := some { err := some "InstructionError" } }) }

/-! ## Further sample transaction records -/

/-- The mint of a token that is neither USDC nor wrapped SOL. -/
def OTHER_MINT : String := "DezXAZ8z7PnrnRJjz3wXBoRgixCa6xjnB7YaB1pPB263"

/-- A record of the owner spending 100 USDC and receiving 1000 units of another
token. -/
def usdcToOtherSwap : TxMeta where
  preTokenBalances := [⟨1, USDC_MINT, "owner", some 100⟩, ⟨2, OTHER_MINT, "owner", some 0⟩]
  postTokenBalances := [⟨1, USDC_MINT, "owner", some 0⟩, ⟨2, OTHER_MINT, "owner", some 1000⟩]
  preBalances := [1000000000]
  postBalances := [999995000]
  fee := 5000

/-- A record in which the owner's USDC account, holding 100 USDC, is in the pre
token balances and no entry for the mint is in the post token balances. -/
def closedAccountRecord : TxMeta where
  preTokenBalances := [⟨1, USDC_MINT, "owner", some 100⟩]
  postTokenBalances := []
  preBalances := [1000000000]
  postBalances := [999995000]
  fee := 5000

/-- A record with no token balances in which the native balance drops by 0.5
SOL and the fee. -/
def nativeTransferRecord : TxMeta where
  preTokenBalances := []
  postTokenBalances := []
  preBalances := [1000000000, 0]
  postBalances := [499995000, 500000000]
  fee := 5000

/-- A record whose USDC account holds 100 USDC before and has a `null`
`uiAmount` after. -/
def nullPostAmountRecord : TxMeta where
  preTokenBalances := [⟨1, USDC_MINT, "owner", some 100⟩]
  postTokenBalances := [⟨1, USDC_MINT, "owner", none⟩]
  preBalances := [1000000000]
  postBalances := [999995000]
  fee := 5000

/-- A record with the owner's USDC account only, unchanged at 100 USDC. -/
def ownerOnlyRecord : TxMeta where
  preTokenBalances := [⟨1, USDC_MINT, "owner", some 100⟩]
  postTokenBalances := [⟨1, USDC_MINT, "owner", some 100⟩]
  preBalances := [1000000000]
  postBalances := [999995000]
  fee := 5000

/-- The record `ownerOnlyRecord` with the USDC account of another owner added,
going from 500 to 600 USDC. -/
def ownerAndPoolRecord : TxMeta where
  preTokenBalances := [⟨1, USDC_MINT, "owner", some 100⟩, ⟨2, USDC_MINT, "pool", some 500⟩]
  postTokenBalances := [⟨1, USDC_MINT, "owner", some 100⟩, ⟨2, USDC_MINT, "pool", some 600⟩]
  preBalances := [1000000000]
  postBalances := [999995000]
  fee := 5000

/-- The record `usdcToSolSwap` with other owners and account indices on its
token entries and a second native account. -/
def relabelledSwap : TxMeta where
  preTokenBalances := [⟨3, USDC_MINT, "pool", some 100⟩, ⟨4, SOL_MINT, "other", some 0⟩]
  postTokenBalances := [⟨3, USDC_MINT, "pool", some 0⟩, ⟨4, SOL_MINT, "other", some (1 / 2)⟩]
  preBalances := [1000000000, 7]
  postBalances := [999995000, 9]
  fee := 5000

/-! ## Sample worlds and records whose amounts are rounded -/

/-- The world `quietWorld` with a USDC balance of 8.2 USDC (8,200,000 base units). -/
def decimalUsdcWorld : World :=
  { quietWorld with getParsedTokenAccountsByOwner := .ok [some (82 / 10)] }

/-- The world `quietWorld` with a native balance of 10,000,001 lamports, one
lamport above the reserve. -/
def reservePlusOneWorld : World :=
  { quietWorld with getBalance := .ok 10000001 }

/-- The world `quietWorld` with a native balance of `2^53` lamports. -/
def largeBalanceWorld : World :=
  { quietWorld with getBalance := .ok 9007199254740992 }

/-- A record with no token balances whose native balance drops by 15,000
lamports with a fee of 5,000 lamports: `post - pre + fee` is -10,000 lamports. -/
def thresholdFeeRecord : TxMeta where
  preTokenBalances := []
  postTokenBalances := []
  preBalances := [1000000000]
  postBalances := [999985000]
  fee := 5000

/-- A record whose USDC account goes from 0.4 USDC to 0.1 USDC. -/
def decimalAmountsRecord : TxMeta where
  preTokenBalances := [⟨1, USDC_MINT, "owner", some (4 / 10)⟩]
  postTokenBalances := [⟨1, USDC_MINT, "owner", some (1 / 10)⟩]
  preBalances := [1000000000]
  postBalances := [999995000]
  fee := 5000

/-! ## History endpoint: `app.get('/api/solana/transactions')` (index.js 1264-1425) -/

/-- The value returned by `connection.getTransaction` when it is not null: the
fields the route reads. -/
structure TransactionDetails where
  blockTime : Option ℕ
  meta : Option TxMeta
deriving DecidableEq, Repr

/-- The object returned by the callback of `signatures.map` (lines 1395-1406). -/
structure ProcessedTransaction where
  signature : String
  blockTime : Option ℕ
  fee : Option ℕ
  transactionType : String
  spentAssets : List Asset
  receivedAssets : List Asset
  preBalances : List ℕ
  postBalances : List ℕ
  preTokenBalances : List TokenBalance
  postTokenBalances : List TokenBalance
deriving DecidableEq, Repr

/-- The expression `x || null` on a number or `null`: 0 becomes `null`. -/
def orNull (x : Option ℕ) : Option ℕ :=
  match x with
  | some 0 => none
  | other => other

/-- The query of the request: `address` (`none` when absent) and `limit`
(`none` when absent, otherwise the value of `Number(limit)`, `none` for `NaN`). -/
structure HistoryQuery where
  address : Option String
  limit : Option (Option ℚ)

/-- The node as seen by the history route.  `getTransaction` is indexed by the
position of the signature in the list, so that the reply to each of the
concurrent lookups is arbitrary. -/
structure HistoryWorld where
  /-- The constructor `new PublicKey(address)`, which throws on a malformed address. -/
  publicKey : String → Except JsError String
  /-- The signatures (`signatureInfo.signature`) for the address; `none` is `null`. -/
  getSignaturesForAddress : String → ℚ → Except JsError (Option (List String))
  getTransaction : ℕ → String → Except JsError (Option TransactionDetails)

/-- The response of the history route. -/
structure HistoryResponse where
  status : ℕ
  transactions : Option (List ProcessedTransaction) := none
  error : Option String := none
  message : Option String := none
deriving DecidableEq, Repr

/-- Lines 1297-1410: the callback of `signatures.map` on one signature, given
the outcome of its `getTransaction` call; `none` is the `null` it returns when
the lookup throws, returns nothing or returns no `meta`. -/
def processTransaction (signature : String)
    (reply : Except JsError (Option TransactionDetails)) : Option ProcessedTransaction :=
  match reply with
  | .error _ => none
  | .ok none => none
  | .ok (some transactionDetails) =>
    match transactionDetails.meta with
    | none => none
    | some m =>
      let classified := classify m
      some { signature := signature,
             blockTime := orNull transactionDetails.blockTime,
             fee := orNull (some m.fee),
             transactionType := classified.transactionType,
             spentAssets := classified.spentAssets,
             receivedAssets := classified.receivedAssets,
             preBalances := m.preBalances,
             postBalances := m.postBalances,
             preTokenBalances := m.preTokenBalances,
             postTokenBalances := m.postTokenBalances }

/-- The value of `Number(limit)` with the default `limit = 30`. -/
def transactionLimit (q : HistoryQuery) : Option ℚ :=
  match q.limit with
  | none => some 30
  | some n => n

/-- Lines 1295-1414: `Promise.all(signatures.map(...))` followed by
`transactions.filter(tx => tx !== null)`. -/
def processSignatures (w : HistoryWorld) (signatures : List String) :
    List ProcessedTransaction :=
  let transactions := signatures.enum.map
    (fun p => processTransaction p.2 (w.getTransaction p.1 p.2))
  transactions.filterMap id

/-- The history route. -/
def history (w : HistoryWorld) (q : HistoryQuery) : HistoryResponse :=
  match q.address with
  | none => { status := 400, error := some "Address parameter is required" }
  | some address =>
    if address = "" then
      { status := 400, error := some "Address parameter is required" }
    else
      match transactionLimit q with
      | none =>
        { status := 400, error := some "Invalid limit parameter. Must be a number." }
      | some limit =>
        match w.publicKey address with
        | .error e =>
          { status := 500, error := some "Error fetching Solana transactions",
            message := some e.message }
        | .ok key =>
          match w.getSignaturesForAddress key limit with
          | .error e =>
            { status := 500, error := some "Error fetching Solana transactions",
              message := some e.message }
          | .ok none => { status := 200, transactions := some [] }
          | .ok (some signatures) =>
            if signatures.length = 0 then
              { status := 200, transactions := some [] }
            else
              { status := 200, transactions := some (processSignatures w signatures) }

/-- A node with three signatures: the lookup of the first returns a swap, that
of the second throws, that of the third returns a transaction without `meta`. -/
def sampleHistoryWorld : HistoryWorld where
  publicKey := fun address => .ok address
  getSignaturesForAddress := fun _ _ => .ok (some ["sigA", "sigB", "sigC"])
  getTransaction := fun i _ =>
    if i = 0 then .ok (some { blockTime := some 1700000000, meta := some usdcToSolSwap })
    else if i = 1 then .error { message := "fetch failed" }
    else .ok (some { blockTime := none, meta := none })

/-- A query for an address with the default limit. -/
def sampleHistoryQuery : HistoryQuery where
  address := some "9xQeWvG816bUx9EPjHmaT23yvVM2ZWbrrpZb9PusVFin"
  limit := none

/-! # Theorems -/

/-! ## Lemmas on binary64 rounding -/

theorem roundHalfEven_eq_of_abs_sub_lt (x : ℚ) (n : ℤ) (h : |x - n| < 1 / 2) :
    roundHalfEven x = n := by
  rw [abs_lt] at h
  unfold roundHalfEven
  by_cases hx : (n : ℚ) ≤ x
  · have hf : ⌊x⌋ = n := Int.floor_eq_iff.2 ⟨hx, by linarith⟩
    rw [hf]
    have : x - (n : ℚ) < 1 / 2 := by linarith
    rw [if_pos this]
  · have hx2 : x < (n : ℚ) := lt_of_not_le hx
    have hf : ⌊x⌋ = n - 1 := Int.floor_eq_iff.2 ⟨by push_cast; linarith, by push_cast; linarith⟩
    rw [hf]
    have h1 : ¬ (x - ((n - 1 : ℤ) : ℚ) < 1 / 2) := by push_cast; linarith
    have h2 : (1 : ℚ) / 2 < x - ((n - 1 : ℤ) : ℚ) := by push_cast; linarith
    simp only [h1, h2, if_false, if_true]
    omega

theorem roundHalfEven_intCast (n : ℤ) : roundHalfEven (n : ℚ) = n :=
  roundHalfEven_eq_of_abs_sub_lt _ n (by simp)

theorem abs_roundHalfEven_sub_le (x : ℚ) : |(roundHalfEven x : ℚ) - x| ≤ 1 / 2 := by
  have h1 := Int.floor_le x
  have h2 := Int.lt_floor_add_one x
  unfold roundHalfEven
  rw [abs_le]
  split_ifs with a b c
  · constructor <;> linarith
  · push_cast
    constructor <;> linarith
  · constructor <;> linarith
  · push_cast
    constructor <;> linarith

theorem roundHalfEven_neg (x : ℚ) : roundHalfEven (-x) = -roundHalfEven x := by
  have h1 := Int.floor_le x
  have h2 := Int.lt_floor_add_one x
  by_cases hint : x = (⌊x⌋ : ℚ)
  · rw [hint, ← Int.cast_neg, roundHalfEven_intCast, roundHalfEven_intCast]
  · have hlt : (⌊x⌋ : ℚ) < x := lt_of_le_of_ne h1 (fun e => hint e.symm)
    have hf : ⌊-x⌋ = -⌊x⌋ - 1 :=
      Int.floor_eq_iff.2 ⟨by push_cast; linarith, by push_cast; linarith⟩
    unfold roundHalfEven
    rw [hf]
    push_cast
    by_cases a : x - (⌊x⌋ : ℚ) < 1 / 2
    · have n1 : ¬ (-x - (-(⌊x⌋ : ℚ) - 1) < 1 / 2) := by linarith
      have n2 : (1 : ℚ) / 2 < -x - (-(⌊x⌋ : ℚ) - 1) := by linarith
      simp only [a, n1, n2, if_true, if_false]
      omega
    · by_cases b : (1 : ℚ) / 2 < x - (⌊x⌋ : ℚ)
      · have n1 : -x - (-(⌊x⌋ : ℚ) - 1) < 1 / 2 := by linarith
        simp only [a, b, n1, if_true, if_false]
        omega
      · have n1 : ¬ (-x - (-(⌊x⌋ : ℚ) - 1) < 1 / 2) := by linarith
        have n2 : ¬ ((1 : ℚ) / 2 < -x - (-(⌊x⌋ : ℚ) - 1)) := by linarith
        simp only [a, b, n1, n2, if_false]
        by_cases c : ⌊x⌋ % 2 = 0
        · have c2 : ¬ ((-⌊x⌋ - 1) % 2 = 0) := by omega
          simp only [c, c2, if_true, if_false]
          omega
        · have c2 : (-⌊x⌋ - 1) % 2 = 0 := by omega
          simp only [c, c2, if_true, if_false]
          omega

theorem roundHalfEven_nonneg (x : ℚ) (h : 0 ≤ x) : 0 ≤ roundHalfEven x := by
  have hf : 0 ≤ ⌊x⌋ := Int.floor_nonneg.2 h
  unfold roundHalfEven
  split_ifs <;> omega

theorem ulpExponent_neg (q : ℚ) : ulpExponent (-q) = ulpExponent q := by
  simp [ulpExponent]

theorem ulpExponent_ge (q : ℚ) : -1074 ≤ ulpExponent q := le_max_right _ _

@[simp] theorem toDouble_zero : toDouble 0 = 0 := by
  simp [toDouble, roundHalfEven]

@[simp] theorem toDouble_neg (q : ℚ) : toDouble (-q) = -toDouble q := by
  simp [toDouble, ulpExponent_neg, neg_div, roundHalfEven_neg]

theorem toDouble_nonneg (q : ℚ) (h : 0 ≤ q) : 0 ≤ toDouble q := by
  unfold toDouble
  have h2 : (0 : ℚ) < 2 ^ ulpExponent q := by positivity
  have h3 : 0 ≤ roundHalfEven (q / 2 ^ ulpExponent q) :=
    roundHalfEven_nonneg _ (div_nonneg h h2.le)
  have h4 : (0 : ℚ) ≤ (roundHalfEven (q / 2 ^ ulpExponent q) : ℚ) := by exact_mod_cast h3
  positivity

/-- The rounding error: half a unit in the last place, that is at most
`|q| / 2^53` in the normal range and `2^(-1075)` in the subnormal range. -/
theorem abs_toDouble_sub_le (q : ℚ) :
    |toDouble q - q| ≤ |q| / 2 ^ 53 + 2 ^ (-1075 : ℤ) := by
  by_cases hq : q = 0
  · subst hq
    simp only [toDouble_zero, sub_zero, abs_zero, zero_div, zero_add]
    positivity
  have hpos : (0 : ℚ) < 2 ^ ulpExponent q := by positivity
  have herr := abs_roundHalfEven_sub_le (q / 2 ^ ulpExponent q)
  have e1 : toDouble q - q =
      ((roundHalfEven (q / 2 ^ ulpExponent q) : ℚ) - q / 2 ^ ulpExponent q) *
        2 ^ ulpExponent q := by
    unfold toDouble
    field_simp
  have h1 : |toDouble q - q| ≤ 1 / 2 * 2 ^ ulpExponent q := by
    rw [e1, abs_mul, abs_of_pos hpos]
    exact mul_le_mul_of_nonneg_right herr hpos.le
  have h2 : (1 : ℚ) / 2 * 2 ^ ulpExponent q ≤ |q| / 2 ^ 53 + 2 ^ (-1075 : ℤ) := by
    have hq0 : (0 : ℚ) ≤ |q| / 2 ^ 53 := by positivity
    have hs0 : (0 : ℚ) ≤ 2 ^ (-1075 : ℤ) := by positivity
    unfold ulpExponent
    rcases le_total (Int.log 2 |q| - 52) (-1074) with hle | hle
    · rw [max_eq_right hle]
      have : (1 : ℚ) / 2 * 2 ^ (-1074 : ℤ) = 2 ^ (-1075 : ℤ) := by
        rw [show (-1074 : ℤ) = -1075 + 1 from rfl, zpow_add_one₀ (by norm_num)]
        ring
      rw [this]
      linarith
    · rw [max_eq_left hle]
      have habs : (0 : ℚ) < |q| := abs_pos.2 hq
      have hlog := Int.zpow_log_le_self (b := 2) (by norm_num) habs
      rw [Nat.cast_ofNat] at hlog
      have : (1 : ℚ) / 2 * 2 ^ (Int.log 2 |q| - 52) = 2 ^ Int.log 2 |q| / 2 ^ 53 := by
        rw [show Int.log 2 |q| - 52 = Int.log 2 |q| + (-53) + 1 by ring,
          zpow_add_one₀ (by norm_num), zpow_add₀ (by norm_num)]
        rw [show ((2 : ℚ) ^ (-53 : ℤ)) = 1 / 2 ^ 53 by norm_num [zpow_neg]]
        ring
      rw [this]
      have : (2 : ℚ) ^ Int.log 2 |q| / 2 ^ 53 ≤ |q| / 2 ^ 53 :=
        div_le_div_of_nonneg_right hlog (by positivity)
      linarith
  exact h1.trans h2

theorem log_two_eq (q : ℚ) (k : ℤ) (hlo : (2 : ℚ) ^ k ≤ |q|) (hhi : |q| < 2 ^ (k + 1)) :
    Int.log 2 |q| = k := by
  have hpos : (0 : ℚ) < |q| := lt_of_lt_of_le (by positivity) hlo
  have h1 : k ≤ Int.log 2 |q| :=
    (Int.zpow_le_iff_le_log (b := 2) (by norm_num) hpos).1 (by rw [Nat.cast_ofNat]; exact hlo)
  have h2 : Int.log 2 |q| < k + 1 :=
    (Int.lt_zpow_iff_log_lt (b := 2) (by norm_num) hpos).1 (by rw [Nat.cast_ofNat]; exact hhi)
  omega

/-- Evaluation of `toDouble` in the normal range: with `2^k ≤ |q| < 2^(k+1)`,
the result is the multiple `n * 2^(k-52)` nearest to `q`. -/
theorem toDouble_eval (q : ℚ) (k n : ℤ) (hk : -1022 ≤ k) (hlo : (2 : ℚ) ^ k ≤ |q|)
    (hhi : |q| < 2 ^ (k + 1)) (hn : |q / 2 ^ (k - 52) - n| < 1 / 2) :
    toDouble q = n * 2 ^ (k - 52) := by
  have he : ulpExponent q = k - 52 := by
    unfold ulpExponent
    rw [log_two_eq q k hlo hhi]
    exact max_eq_left (by omega)
  unfold toDouble
  rw [he, roundHalfEven_eq_of_abs_sub_lt _ n hn]

theorem zpow_two_intCast (d : ℤ) (hd : 0 ≤ d) : ((2 : ℚ) ^ d) = ((2 ^ d.toNat : ℤ) : ℚ) := by
  have : d = (d.toNat : ℤ) := (Int.toNat_of_nonneg hd).symm
  conv_lhs => rw [this]
  push_cast
  rw [zpow_natCast]

/-- A number `m * 2^e` with `|m| ≤ 2^53` and `e ≥ -1074` is a binary64 number. -/
theorem toDouble_of_repr (m e : ℤ) (hm : |m| ≤ 2 ^ 53) (he : -1074 ≤ e) :
    toDouble ((m : ℚ) * 2 ^ e) = (m : ℚ) * 2 ^ e := by
  by_cases hm0 : m = 0
  · subst hm0
    simp
  have hmpos : (0 : ℚ) < |(m : ℚ)| := abs_pos.2 (by exact_mod_cast hm0)
  have h2e : (0 : ℚ) < 2 ^ e := by positivity
  have habs : |(m : ℚ) * 2 ^ e| = |(m : ℚ)| * 2 ^ e := by
    rw [abs_mul, abs_of_pos h2e]
  have hzpos : (0 : ℚ) < |(m : ℚ) * 2 ^ e| := by
    rw [habs]
    positivity
  have hmq : |(m : ℚ)| ≤ 2 ^ 53 := by
    have : ((|m| : ℤ) : ℚ) ≤ ((2 ^ 53 : ℤ) : ℚ) := by exact_mod_cast hm
    simpa using this
  -- it is enough that the quotient by the unit in the last place is an integer
  suffices h : ∃ j : ℤ, ((m : ℚ) * 2 ^ e) / 2 ^ ulpExponent ((m : ℚ) * 2 ^ e) = (j : ℚ) by
    obtain ⟨j, hj⟩ := h
    unfold toDouble
    rw [hj, roundHalfEven_intCast, ← hj]
    field_simp
  rcases lt_or_eq_of_le hmq with hlt | heq
  · -- below 2^53: the unit in the last place is at most 2^e
    have hzlt : |(m : ℚ) * 2 ^ e| < 2 ^ (e + 53) := by
      rw [habs, zpow_add₀ (by norm_num : (2 : ℚ) ≠ 0), mul_comm ((2 : ℚ) ^ e)]
      have : ((2 : ℚ) ^ (53 : ℤ)) = 2 ^ 53 := by norm_num
      rw [this]
      exact mul_lt_mul_of_pos_right hlt h2e
    have hlog : Int.log 2 |(m : ℚ) * 2 ^ e| < e + 53 :=
      (Int.lt_zpow_iff_log_lt (b := 2) (by norm_num) hzpos).1
        (by rw [Nat.cast_ofNat]; exact hzlt)
    have hu : ulpExponent ((m : ℚ) * 2 ^ e) ≤ e := by
      unfold ulpExponent
      exact max_le (by omega) he
    refine ⟨m * 2 ^ (e - ulpExponent ((m : ℚ) * 2 ^ e)).toNat, ?_⟩
    have hd : 0 ≤ e - ulpExponent ((m : ℚ) * 2 ^ e) := by omega
    rw [mul_div_assoc, ← zpow_sub₀ (by norm_num : (2 : ℚ) ≠ 0), zpow_two_intCast _ hd]
    push_cast
    rfl
  · -- exactly 2^53: the unit in the last place is 2^(e+1)
    have hz : |(m : ℚ) * 2 ^ e| = 2 ^ (e + 53) := by
      rw [habs, heq, zpow_add₀ (by norm_num : (2 : ℚ) ≠ 0), mul_comm ((2 : ℚ) ^ e)]
      norm_num
    have hlog : Int.log 2 |(m : ℚ) * 2 ^ e| = e + 53 := by
      rw [hz]
      have := Int.log_zpow (R := ℚ) (b := 2) (by norm_num) (e + 53)
      rwa [Nat.cast_ofNat] at this
    have hu : ulpExponent ((m : ℚ) * 2 ^ e) = e + 1 := by
      unfold ulpExponent
      rw [hlog, show e + 53 - 52 = e + 1 by ring]
      exact max_eq_left (by omega)
    have hm2 : m = 2 ^ 53 ∨ m = -2 ^ 53 := by
      have h1 : |m| = 2 ^ 53 := by
        have : ((|m| : ℤ) : ℚ) = ((2 ^ 53 : ℤ) : ℚ) := by
          push_cast
          exact heq
        exact_mod_cast this
      rcases abs_eq (by norm_num : (0 : ℤ) ≤ 2 ^ 53) |>.1 h1 with h | h
      · exact Or.inl h
      · exact Or.inr h
    rw [hu, zpow_add_one₀ (by norm_num : (2 : ℚ) ≠ 0)]
    rcases hm2 with h | h
    · refine ⟨2 ^ 52, ?_⟩
      rw [h]
      push_cast
      field_simp
      ring
    · refine ⟨-2 ^ 52, ?_⟩
      rw [h]
      push_cast
      field_simp
      ring

/-- The rounded quotient is at most `2^53` in absolute value. -/
theorem abs_roundHalfEven_quotient_le (q : ℚ) :
    |roundHalfEven (q / 2 ^ ulpExponent q)| ≤ 2 ^ 53 := by
  have h2e : (0 : ℚ) < 2 ^ ulpExponent q := by positivity
  have hx : |q / 2 ^ ulpExponent q| < 2 ^ 53 := by
    rw [abs_div, abs_of_pos h2e, div_lt_iff₀ h2e]
    have hlt := Int.lt_zpow_succ_log_self (b := 2) (by norm_num) |q|
    rw [Nat.cast_ofNat] at hlt
    have hle : (2 : ℚ) ^ (Int.log 2 |q| + 1) ≤ 2 ^ 53 * 2 ^ ulpExponent q := by
      have h53 : (2 : ℚ) ^ 53 = 2 ^ (53 : ℤ) := by norm_num
      rw [h53, ← zpow_add₀ (by norm_num : (2 : ℚ) ≠ 0)]
      apply zpow_le_zpow_right₀ (by norm_num)
      have : Int.log 2 |q| - 52 ≤ ulpExponent q := le_max_left _ _
      omega
    exact lt_of_lt_of_le hlt hle
  have herr := abs_roundHalfEven_sub_le (q / 2 ^ ulpExponent q)
  have h3 : |(roundHalfEven (q / 2 ^ ulpExponent q) : ℚ)| < 2 ^ 53 + 1 := by
    have := abs_sub_abs_le_abs_sub (roundHalfEven (q / 2 ^ ulpExponent q) : ℚ)
      (q / 2 ^ ulpExponent q)
    linarith
  have h5 : |roundHalfEven (q / 2 ^ ulpExponent q)| < 2 ^ 53 + 1 := by exact_mod_cast h3
  omega

/-- Rounding a binary64 number again leaves it unchanged. -/
theorem toDouble_idem (q : ℚ) : toDouble (toDouble q) = toDouble q := by
  have h : toDouble q =
      (roundHalfEven (q / 2 ^ ulpExponent q) : ℚ) * 2 ^ ulpExponent q := rfl
  rw [h]
  exact toDouble_of_repr _ _ (abs_roundHalfEven_quotient_le q) (ulpExponent_ge q)

/-- Integers up to `2^53` in absolute value are binary64 numbers. -/
theorem toDouble_intCast (n : ℤ) (h : |n| ≤ 2 ^ 53) : toDouble (n : ℚ) = n := by
  have := toDouble_of_repr n 0 h (by norm_num)
  simpa using this

/-- The rounding error with a plain bound for the subnormal term. -/
theorem abs_toDouble_sub_le_pow (q : ℚ) : |toDouble q - q| ≤ |q| / 2 ^ 53 + 1 / 2 ^ 100 := by
  have h := abs_toDouble_sub_le q
  have h2 : (2 : ℚ) ^ (-1075 : ℤ) ≤ 1 / 2 ^ 100 := by
    have : (2 : ℚ) ^ (-1075 : ℤ) ≤ 2 ^ (-100 : ℤ) :=
      zpow_le_zpow_right₀ (by norm_num) (by norm_num)
    have e : (2 : ℚ) ^ (-100 : ℤ) = 1 / 2 ^ 100 := by norm_num [zpow_neg]
    rwa [e] at this
  linarith

/-- The rounding error of a number of absolute value at most `M`. -/
theorem abs_toDouble_sub_le_of_le (q M : ℚ) (h : |q| ≤ M) :
    |toDouble q - q| ≤ M / 2 ^ 53 + 1 / 2 ^ 100 := by
  have h1 := abs_toDouble_sub_le_pow q
  have h2 : |q| / 2 ^ 53 ≤ M / 2 ^ 53 := div_le_div_of_nonneg_right h (by positivity)
  linarith

theorem toDouble_nonpos (q : ℚ) (h : q ≤ 0) : toDouble q ≤ 0 := by
  have h1 := toDouble_nonneg (-q) (by linarith)
  rw [toDouble_neg] at h1
  linarith

/-- A number within one half of the integer `T` has floor `T` or `T - 1`. -/
theorem floor_of_abs_sub_lt (p : ℚ) (T : ℤ) (h : |p - T| < 1 / 2) :
    ⌊p⌋ = T ∨ ⌊p⌋ = T - 1 := by
  rw [abs_lt] at h
  by_cases hp : (T : ℚ) ≤ p
  · exact Or.inl (Int.floor_eq_iff.2 ⟨hp, by linarith⟩)
  · exact Or.inr (Int.floor_eq_iff.2 ⟨by push_cast; linarith, by push_cast; linarith⟩)

/-- Rounding at a tie: the even neighbour. -/
theorem roundHalfEven_tie (n : ℤ) :
    roundHalfEven ((n : ℚ) + 1 / 2) = if n % 2 = 0 then n else n + 1 := by
  have hf : ⌊(n : ℚ) + 1 / 2⌋ = n := Int.floor_eq_iff.2 ⟨by linarith, by linarith⟩
  unfold roundHalfEven
  rw [hf]
  have h1 : ¬ ((n : ℚ) + 1 / 2 - (n : ℚ) < 1 / 2) := by
    rw [add_sub_cancel_left]
    exact lt_irrefl _
  have h2 : ¬ ((1 : ℚ) / 2 < (n : ℚ) + 1 / 2 - (n : ℚ)) := by
    rw [add_sub_cancel_left]
    exact lt_irrefl _
  rw [if_neg h1, if_neg h2]

/-- Evaluation of `toDouble` at a tie in the normal range. -/
theorem toDouble_eval_tie (q : ℚ) (k n : ℤ) (hk : -1022 ≤ k) (hlo : (2 : ℚ) ^ k ≤ |q|)
    (hhi : |q| < 2 ^ (k + 1)) (hn : q / 2 ^ (k - 52) = (n : ℚ) + 1 / 2) :
    toDouble q = ((if n % 2 = 0 then n else n + 1 : ℤ) : ℚ) * 2 ^ (k - 52) := by
  have he : ulpExponent q = k - 52 := by
    unfold ulpExponent
    rw [log_two_eq q k hlo hhi]
    exact max_eq_left (by omega)
  unfold toDouble
  rw [he, hn, roundHalfEven_tie]

/-- Every binary64 number is an integer multiple of `2^(-1074)`. -/
theorem toDouble_eq_intCast_mul (q : ℚ) : ∃ j : ℤ, toDouble q = (j : ℚ) * 2 ^ (-1074 : ℤ) := by
  have hu := ulpExponent_ge q
  refine ⟨roundHalfEven (q / 2 ^ ulpExponent q) * 2 ^ (ulpExponent q + 1074).toNat, ?_⟩
  have h : ulpExponent q = ((ulpExponent q + 1074).toNat : ℤ) + (-1074) := by
    rw [Int.toNat_of_nonneg (by omega)]
    ring
  have h2 : (2 : ℚ) ^ ulpExponent q =
      2 ^ (ulpExponent q + 1074).toNat * 2 ^ (-1074 : ℤ) := by
    conv_lhs => rw [h]
    rw [zpow_add₀ (by norm_num : (2 : ℚ) ≠ 0), zpow_natCast]
  unfold toDouble
  rw [h2]
  push_cast
  ring

/-- A number of absolute value at least `2^(-1074)` is not rounded to zero. -/
theorem toDouble_ne_zero (q : ℚ) (h : (2 : ℚ) ^ (-1074 : ℤ) ≤ |q|) : toDouble q ≠ 0 := by
  have hpos : (0 : ℚ) < 2 ^ ulpExponent q := by positivity
  have hq : (0 : ℚ) < |q| := lt_of_lt_of_le (by positivity) h
  have hu : (2 : ℚ) ^ ulpExponent q ≤ |q| := by
    unfold ulpExponent
    rcases le_total (Int.log 2 |q| - 52) (-1074) with hle | hle
    · rw [max_eq_right hle]
      exact h
    · rw [max_eq_left hle]
      have hlog := Int.zpow_log_le_self (b := 2) (by norm_num) hq
      rw [Nat.cast_ofNat] at hlog
      exact le_trans (zpow_le_zpow_right₀ (by norm_num) (by omega)) hlog
  have hx : 1 ≤ |q / 2 ^ ulpExponent q| := by
    rw [abs_div, abs_of_pos hpos, le_div_iff₀ hpos, one_mul]
    exact hu
  have herr := abs_roundHalfEven_sub_le (q / 2 ^ ulpExponent q)
  intro h0
  unfold toDouble at h0
  have hr : (roundHalfEven (q / 2 ^ ulpExponent q) : ℚ) = 0 := by
    rcases mul_eq_zero.1 h0 with h | h
    · exact h
    · exact absurd h hpos.ne'
  rw [hr, zero_sub, abs_neg] at herr
  linarith

/-- The difference of two distinct binary64 numbers is not rounded to zero. -/
theorem toDouble_sub_ne_zero (x y : ℚ) (hx : toDouble x = x) (hy : toDouble y = y)
    (h : x ≠ y) : toDouble (x - y) ≠ 0 := by
  obtain ⟨i, hi⟩ := toDouble_eq_intCast_mul x
  obtain ⟨j, hj⟩ := toDouble_eq_intCast_mul y
  rw [hx] at hi
  rw [hy] at hj
  have hne : i ≠ j := by
    intro e
    apply h
    rw [hi, hj, e]
  have h1 : (1 : ℚ) ≤ |((i - j : ℤ) : ℚ)| := by
    have : 1 ≤ |i - j| := Int.one_le_abs (sub_ne_zero.2 hne)
    exact_mod_cast this
  have hp : (0 : ℚ) < 2 ^ (-1074 : ℤ) := by positivity
  apply toDouble_ne_zero
  have e : x - y = ((i - j : ℤ) : ℚ) * 2 ^ (-1074 : ℤ) := by
    rw [hi, hj]
    push_cast
    ring
  rw [e, abs_mul, abs_of_pos hp]
  calc (2 : ℚ) ^ (-1074 : ℤ) = 1 * 2 ^ (-1074 : ℤ) := (one_mul _).symm
    _ ≤ |((i - j : ℤ) : ℚ)| * 2 ^ (-1074 : ℤ) := mul_le_mul_of_nonneg_right h1 hp.le

/-- The JavaScript difference of two numbers is negative exactly when the first
is the smaller one. -/
theorem jsSub_neg_iff (x y : ℚ) (hx : toDouble x = x) (hy : toDouble y = y) :
    jsSub x y < 0 ↔ x < y := by
  unfold jsSub
  constructor
  · intro h
    by_contra hn
    have := toDouble_nonneg (x - y) (by linarith [not_lt.1 hn])
    linarith
  · intro h
    have h1 := toDouble_nonpos (x - y) (by linarith)
    have h2 := toDouble_sub_ne_zero x y hx hy h.ne
    exact lt_of_le_of_ne h1 h2

/-- The JavaScript difference of two numbers is positive exactly when the first
is the larger one. -/
theorem jsSub_pos_iff (x y : ℚ) (hx : toDouble x = x) (hy : toDouble y = y) :
    0 < jsSub x y ↔ y < x := by
  unfold jsSub
  constructor
  · intro h
    by_contra hn
    have := toDouble_nonpos (x - y) (by linarith [not_lt.1 hn])
    linarith
  · intro h
    have h1 := toDouble_nonneg (x - y) (by linarith)
    have h2 := toDouble_sub_ne_zero x y hx hy h.ne'
    exact lt_of_le_of_ne h1 (fun e => h2 e.symm)

/-- Subtracting a number from zero negates it. -/
theorem jsSub_zero_left (x : ℚ) (hx : toDouble x = x) : jsSub 0 x = -x := by
  rw [jsSub, zero_sub, toDouble_neg, hx]

/-- Subtracting zero leaves a number unchanged. -/
theorem jsSub_zero_right (x : ℚ) (hx : toDouble x = x) : jsSub x 0 = x := by
  rw [jsSub, sub_zero, hx]

/-- Natural numbers up to `2^53` are binary64 numbers. -/
theorem toDouble_natCast (n : ℕ) (h : n ≤ 2 ^ 53) : toDouble (n : ℚ) = n := by
  have h1 : |(n : ℤ)| ≤ 2 ^ 53 := by
    rw [abs_of_nonneg (by positivity)]
    exact_mod_cast h
  have := toDouble_intCast (n : ℤ) h1
  simpa using this

/-! ## The binary64 numbers of the constants and of the sample amounts -/

theorem toDouble_one_hundred : toDouble 100 = 100 := by
  simpa using toDouble_natCast 100 (by norm_num)

theorem toDouble_ninety_five : toDouble 95 = 95 := by
  simpa using toDouble_natCast 95 (by norm_num)

theorem toDouble_one_thousand : toDouble 1000 = 1000 := by
  simpa using toDouble_natCast 1000 (by norm_num)

theorem toDouble_five_hundred : toDouble 500 = 500 := by
  simpa using toDouble_natCast 500 (by norm_num)

theorem toDouble_six_hundred : toDouble 600 = 600 := by
  simpa using toDouble_natCast 600 (by norm_num)

theorem toDouble_one_half : toDouble (1 / 2) = 1 / 2 := by
  simpa using toDouble_of_repr 1 (-1) (by norm_num) (by norm_num)

/-- The reserve 0.01 as a binary64 number. -/
theorem solToKeep_eq : solToKeep = 5764607523034235 / 2 ^ 59 := by
  unfold solToKeep
  rw [toDouble_eval (1 / 100) (-7) 5764607523034235 (by norm_num) (by norm_num [abs_of_pos])
    (by norm_num [abs_of_pos]) (by norm_num [abs_lt])]
  norm_num

/-- The threshold 0.00001 of the fee test as a binary64 number. -/
theorem feeThreshold_eq : toDouble (1 / 100000) = 5902958103587057 / 2 ^ 69 := by
  rw [toDouble_eval (1 / 100000) (-17) 5902958103587057 (by norm_num)
    (by norm_num [abs_of_pos]) (by norm_num [abs_of_pos]) (by norm_num [abs_lt])]
  norm_num

/-! ## Lemmas on the confirmation loop -/

/-- The loop only appends status queries and lookups to the trace. -/
theorem confirmLoop_trace (w : World) (signature : String) :
    ∀ (k attempts : Nat) (trace : List Call), maxAttempts - attempts ≤ k →
      ∃ extra, (confirmLoop w signature attempts trace).2 = trace ++ extra ∧
        ∀ c ∈ extra, c.isPoll = true := by
  intro k
  induction k with
  | zero =>
    intro attempts trace h
    have hn : ¬ attempts < maxAttempts := by omega
    rw [confirmLoop]
    simp [hn]
  | succ k ih =>
    intro attempts trace h
    rw [confirmLoop]
    by_cases hlt : attempts < maxAttempts
    · simp only [hlt, if_true]
      have hk : maxAttempts - (attempts + 1) ≤ k := by omega
      cases hs : w.getSignatureStatus attempts with
      | error e =>
        obtain ⟨extra, he, hall⟩ := ih (attempts + 1) (trace ++ [.getSignatureStatus signature]) hk
        refine ⟨[.getSignatureStatus signature] ++ extra, ?_, ?_⟩
        · simp [he]
        · intro c hc
          simp only [List.mem_append, List.mem_singleton] at hc
          rcases hc with rfl | hc
          · rfl
          · exact hall c hc
      | ok status =>
        by_cases hf : statusFinalized status = true
        · simp only [hf, if_true]
          exact ⟨[.getSignatureStatus signature], rfl, by simp [Call.isPoll, Call.isStatusQuery]⟩
        · simp only [hf]
          have key : ∀ c ∈ [Call.getSignatureStatus signature,
              Call.getConfirmedTransaction signature], c.isPoll = true := by
            simp [Call.isPoll, Call.isStatusQuery, Call.isLookup]
          cases hl : w.getConfirmedTransaction attempts with
          | error e =>
            obtain ⟨extra, he, hall⟩ := ih (attempts + 1)
              (trace ++ [.getSignatureStatus signature, .getConfirmedTransaction signature]) hk
            refine ⟨[.getSignatureStatus signature, .getConfirmedTransaction signature] ++ extra,
              ?_, ?_⟩
            · simp [he]
            · intro c hc
              rcases List.mem_append.1 hc with hc | hc
              · exact key c hc
              · exact hall c hc
          | ok confirmation =>
            by_cases hc : lookupConfirmed confirmation = true
            · simp only [hc, if_true]
              exact ⟨_, rfl, key⟩
            · simp only [hc]
              obtain ⟨extra, he, hall⟩ := ih (attempts + 1)
                (trace ++ [.getSignatureStatus signature, .getConfirmedTransaction signature]) hk
              refine ⟨[.getSignatureStatus signature, .getConfirmedTransaction signature] ++ extra,
                ?_, ?_⟩
              · simp [he]
              · intro c hc
                rcases List.mem_append.1 hc with hc | hc
                · exact key c hc
                · exact hall c hc
    · simp [hlt]

theorem isQuote_false_of_isPoll (c : Call) (h : c.isPoll = true) : c.isQuote = false := by
  cases c <;> simp_all [Call.isPoll, Call.isStatusQuery, Call.isLookup, Call.isQuote]

/-- The trace of `confirmTransactionReliable` consists of polls only. -/
theorem confirmTransactionReliable_trace (w : World) (signature : String) :
    ∀ c ∈ (confirmTransactionReliable w signature).2, c.isPoll = true := by
  obtain ⟨extra, he, hall⟩ := confirmLoop_trace w signature maxAttempts 0 [] (by omega)
  intro c hc
  rw [confirmTransactionReliable, he] at hc
  exact hall c (by simpa using hc)

/-- The pipeline issues its quote request first, and no other quote request. -/
theorem executeTrade_trace (w : World) (trade : Trade) (trace : List Call) :
    ∃ extra, (executeTrade w trade trace).2 =
        trace ++ [.quote trade.fromToken trade.toToken trade.amount 50] ++ extra ∧
      ∀ c ∈ extra, c.isQuote = false := by
  unfold executeTrade
  dsimp only
  cases w.quote trade.fromToken trade.toToken trade.amount with
  | error e => exact ⟨[], by simp, by simp⟩
  | ok quoteResponse =>
    dsimp only
    cases w.swap quoteResponse with
    | error e => exact ⟨[.swap quoteResponse], by simp, by simp [Call.isQuote]⟩
    | ok swapTransaction =>
      dsimp only
      cases w.deserialize swapTransaction with
      | error e => exact ⟨[.swap quoteResponse], by simp, by simp [Call.isQuote]⟩
      | ok transaction =>
        dsimp only
        cases w.sign transaction with
        | error e =>
          exact ⟨[.swap quoteResponse, .sign transaction], by simp, by simp [Call.isQuote]⟩
        | ok bytes =>
          dsimp only
          cases hsend : w.sendRawTransaction bytes with
          | error e =>
            exact ⟨[.swap quoteResponse, .sign transaction, .sendRawTransaction bytes],
              by simp, by simp [Call.isQuote]⟩
          | ok signature =>
            refine ⟨[.swap quoteResponse, .sign transaction, .sendRawTransaction bytes] ++
              (confirmTransactionReliable w signature).2, ?_, ?_⟩
            · by_cases hc : (confirmTransactionReliable w signature).1 = true <;> simp [hc]
            · intro c hc
              rcases List.mem_append.1 hc with hc | hc
              · simp only [List.mem_cons, List.mem_singleton, List.not_mem_nil, or_false] at hc
                rcases hc with rfl | rfl | rfl <;> rfl
              · exact isQuote_false_of_isPoll c (confirmTransactionReliable_trace w signature c hc)

/-- A successful balance read made both node calls. -/
theorem fetchBalances_ok (w : World) (b : Balances) (h : (fetchBalances w).1 = .ok b) :
    fetchBalances w = (.ok b, [.getBalance, .getParsedTokenAccountsByOwner]) := by
  unfold fetchBalances at h ⊢
  cases hb : w.getBalance with
  | error e => simp [hb] at h
  | ok lamports =>
    cases ht : w.getParsedTokenAccountsByOwner with
    | error e => simp [hb, ht] at h
    | ok accounts =>
      simp only [hb, ht] at h ⊢
      rw [h]

/-- The balance read issues balance calls only, whatever its outcome. -/
theorem fetchBalances_trace (w : World) :
    ∀ c ∈ (fetchBalances w).2, c = .getBalance ∨ c = .getParsedTokenAccountsByOwner := by
  unfold fetchBalances
  cases w.getBalance with
  | error e => simp
  | ok lamports =>
    cases w.getParsedTokenAccountsByOwner with
    | error e => simp
    | ok accounts => simp

/-- With no poll reporting finality, the loop runs out its budget: one status
query per remaining attempt, and the result `false`. -/
theorem confirmLoop_never (w : World) (signature : String)
    (hs : ∀ i s, w.getSignatureStatus i = .ok (some s) → s.confirmationStatus ≠ some "finalized")
    (hl : ∀ i tx m, w.getConfirmedTransaction i = .ok (some tx) → tx.meta = some m →
      m.err ≠ none) :
    ∀ (k attempts : Nat) (trace : List Call), attempts + k = maxAttempts →
      (confirmLoop w signature attempts trace).1 = false ∧
      (confirmLoop w signature attempts trace).2.countP Call.isStatusQuery =
        trace.countP Call.isStatusQuery + k := by
  have hsf : ∀ i st, w.getSignatureStatus i = .ok st → statusFinalized st = false := by
    intro i st h
    cases st with
    | none => rfl
    | some s => simpa [statusFinalized] using hs i s h
  have hlf : ∀ i c, w.getConfirmedTransaction i = .ok c → lookupConfirmed c = false := by
    intro i c h
    cases c with
    | none => rfl
    | some tx =>
      cases hm : tx.meta with
      | none => simp [lookupConfirmed, hm]
      | some m => simpa [lookupConfirmed, hm] using hl i tx m h hm
  intro k
  induction k with
  | zero =>
    intro attempts trace h
    have hn : ¬ attempts < maxAttempts := by omega
    rw [confirmLoop]
    simp [hn]
  | succ k ih =>
    intro attempts trace h
    have hlt : attempts < maxAttempts := by omega
    rw [confirmLoop]
    simp only [hlt, if_true]
    cases hst : w.getSignatureStatus attempts with
    | error e =>
      obtain ⟨h1, h2⟩ := ih (attempts + 1) (trace ++ [.getSignatureStatus signature]) (by omega)
      refine ⟨h1, ?_⟩
      simp only [h2, List.countP_append, List.countP_cons, List.countP_nil, Call.isStatusQuery]
      simp; omega
    | ok status =>
      simp only [hsf attempts status hst]
      cases hlk : w.getConfirmedTransaction attempts with
      | error e =>
        obtain ⟨h1, h2⟩ := ih (attempts + 1)
          (trace ++ [.getSignatureStatus signature, .getConfirmedTransaction signature]) (by omega)
        refine ⟨by simpa using h1, ?_⟩
        simp only [Bool.false_eq_true, if_false, h2, List.countP_append, List.countP_cons,
          List.countP_nil, Call.isStatusQuery]
        simp; omega
      | ok confirmation =>
        simp only [hlf attempts confirmation hlk]
        obtain ⟨h1, h2⟩ := ih (attempts + 1)
          (trace ++ [.getSignatureStatus signature, .getConfirmedTransaction signature]) (by omega)
        refine ⟨by simpa using h1, ?_⟩
        simp only [Bool.false_eq_true, if_false, h2, List.countP_append, List.countP_cons,
          List.countP_nil, Call.isStatusQuery]
        simp; omega

/-! ## Signal interpreter: the amounts of lines 250 and 255 -/

/-- The binary64 product of line 250 is within one half of the exact product
`a * 10^6`, for exact products below `2^50`. -/
theorem abs_bullish_product_sub_lt (a : ℚ) (h0 : 0 ≤ a) (h : a * 10 ^ 6 < 2 ^ 50) :
    |jsMul (toDouble a) (10 ^ 6) - a * 10 ^ 6| < 1 / 2 := by
  have ha : |a| ≤ 1125899907 := by
    rw [abs_of_nonneg h0]
    norm_num at h
    linarith
  have h1 := abs_toDouble_sub_le_of_le a 1125899907 ha
  unfold jsMul
  generalize toDouble a = x at h1 ⊢
  rw [abs_le] at ha h1
  have hx : |x * 10 ^ 6| ≤ 1125899908 * 10 ^ 6 := by
    rw [abs_le]
    norm_num at h1 ⊢
    constructor <;> linarith
  have h2 := abs_toDouble_sub_le_of_le (x * 10 ^ 6) (1125899908 * 10 ^ 6) hx
  generalize toDouble (x * 10 ^ 6) = y at h2 ⊢
  rw [abs_le] at h2
  rw [abs_lt]
  norm_num at h1 h2 ⊢
  constructor <;> linarith

/-- The amount of the bullish branch is not negative. -/
theorem bullishAmount_nonneg (a : ℚ) (h0 : 0 ≤ a) : 0 ≤ bullishAmount a :=
  Int.floor_nonneg.2
    (toDouble_nonneg _ (mul_nonneg (toDouble_nonneg a h0) (by positivity)))

/-- Two numbers less than one half apart have floors at most 1 apart. -/
theorem abs_floor_sub_floor_le (y x : ℚ) (h : |y - x| < 1 / 2) : |⌊y⌋ - ⌊x⌋| ≤ 1 := by
  rw [abs_lt] at h
  obtain ⟨h1, h2⟩ := h
  have hx1 := Int.floor_le x
  have hx2 := Int.lt_floor_add_one x
  have hy1 := Int.floor_le y
  have hy2 := Int.lt_floor_add_one y
  have hlo : ⌊x⌋ - 1 < ⌊y⌋ + 1 := by
    have : ((⌊x⌋ - 1 : ℤ) : ℚ) < ((⌊y⌋ + 1 : ℤ) : ℚ) := by
      push_cast
      linarith
    exact_mod_cast this
  have hhi : ⌊y⌋ < ⌊x⌋ + 2 := by
    have : ((⌊y⌋ : ℤ) : ℚ) < ((⌊x⌋ + 2 : ℤ) : ℚ) := by
      push_cast
      linarith
    exact_mod_cast this
  rw [abs_le]
  constructor <;> omega

/-- The amount of the bullish branch is within 1 of `⌊a * 10^6⌋`. -/
theorem abs_bullishAmount_sub_floor_le (a : ℚ) (h0 : 0 ≤ a) (h : a * 10 ^ 6 < 2 ^ 50) :
    |bullishAmount a - ⌊a * 10 ^ 6⌋| ≤ 1 :=
  abs_floor_sub_floor_le _ _ (abs_bullish_product_sub_lt a h0 h)

/-- For a balance of `units` base units the amount is `units` or `units - 1`. -/
theorem bullishAmount_base_units (units : ℕ) (h : units < 2 ^ 50) :
    bullishAmount ((units : ℚ) / 10 ^ 6) = units ∨
      bullishAmount ((units : ℚ) / 10 ^ 6) = (units : ℤ) - 1 := by
  have hu : (units : ℚ) < 2 ^ 50 := by exact_mod_cast h
  have e : (units : ℚ) / 10 ^ 6 * 10 ^ 6 = units := by
    field_simp
  have hy := abs_bullish_product_sub_lt ((units : ℚ) / 10 ^ 6) (by positivity)
    (by rw [e]; exact hu)
  rw [e] at hy
  exact floor_of_abs_sub_lt _ (units : ℤ) (by simpa using hy)

/-- The binary64 product of line 255 is within one half of
`lamports - 10,000,000`, for balances below `2^50` lamports. -/
theorem abs_bearish_product_sub_lt (lamports : ℕ) (h : lamports < 2 ^ 50) :
    |jsMul (jsSub (toDouble ((lamports : ℚ) / 10 ^ 9)) solToKeep) (10 ^ 9) -
        ((lamports : ℚ) - 10000000)| < 1 / 2 := by
  have hL : (lamports : ℚ) < 2 ^ 50 := by exact_mod_cast h
  obtain ⟨σ, hσdef⟩ : ∃ σ : ℚ, σ = (lamports : ℚ) / 10 ^ 9 := ⟨_, rfl⟩
  have hLσ : (lamports : ℚ) = σ * 10 ^ 9 := by
    rw [hσdef]
    field_simp
  have hσ0 : 0 ≤ σ := by
    rw [hσdef]
    positivity
  have hσ1 : σ ≤ 1125900 := by
    rw [hσdef, div_le_iff₀ (by norm_num)]
    norm_num at hL ⊢
    linarith
  have hσ : |σ| ≤ 1125900 := by
    rw [abs_of_nonneg hσ0]
    exact hσ1
  have h1 := abs_toDouble_sub_le_of_le σ 1125900 hσ
  unfold jsMul jsSub
  rw [solToKeep_eq, ← hσdef, hLσ]
  generalize toDouble σ = s at h1 ⊢
  rw [abs_le] at h1
  have hs : |s - 5764607523034235 / 2 ^ 59| ≤ 1125901 := by
    rw [abs_le]
    norm_num at h1 ⊢
    constructor <;> linarith
  have h2 := abs_toDouble_sub_le_of_le _ _ hs
  generalize toDouble (s - 5764607523034235 / 2 ^ 59) = d at h2 ⊢
  rw [abs_le] at hs h2
  have hd : |d * 10 ^ 9| ≤ 1125902 * 10 ^ 9 := by
    rw [abs_le]
    norm_num at hs h2 ⊢
    constructor <;> linarith
  have h3 := abs_toDouble_sub_le_of_le _ _ hd
  generalize toDouble (d * 10 ^ 9) = p at h3 ⊢
  rw [abs_le] at h3
  rw [abs_lt]
  norm_num at h1 h2 h3 ⊢
  constructor <;> linarith

/-- For a balance below `2^50` lamports the amount of the bearish branch is
`lamports - 10,000,000` or one less. -/
theorem bearishAmount_lamports (lamports : ℕ) (h : lamports < 2 ^ 50) :
    bearishAmount ((lamports : ℚ) / 10 ^ 9) = (lamports : ℤ) - 10000000 ∨
      bearishAmount ((lamports : ℚ) / 10 ^ 9) = (lamports : ℤ) - 10000000 - 1 := by
  have hp := abs_bearish_product_sub_lt lamports h
  exact floor_of_abs_sub_lt _ ((lamports : ℤ) - 10000000) (by push_cast; exact hp)

/-! ### Sample amounts -/

/-- 8.2 USDC: `Math.floor(8.2 * 10 ** 6)` is 8199999. -/
theorem bullishAmount_decimal : bullishAmount (82 / 10) = 8199999 := by
  have h1 : toDouble (82 / 10) = 4616189618054758 / 2 ^ 49 := by
    rw [toDouble_eval _ 3 4616189618054758 (by norm_num) (by norm_num [abs_of_pos])
      (by norm_num [abs_of_pos]) (by norm_num [abs_lt])]
    norm_num
  have h2 : toDouble (4616189618054758 / 2 ^ 49 * 10 ^ 6) = 8804682956799999 / 2 ^ 30 := by
    rw [toDouble_eval _ 22 8804682956799999 (by norm_num) (by norm_num [abs_of_pos])
      (by norm_num [abs_of_pos]) (by norm_num [abs_lt])]
    norm_num
  unfold bullishAmount jsMul
  rw [h1, h2, Int.floor_eq_iff]
  norm_num

/-- No USDC: the amount is 0. -/
theorem bullishAmount_zero : bullishAmount 0 = 0 := by
  simp [bullishAmount, jsMul]

/-- 10,000,001 lamports: `Math.floor((0.010000001 - 0.01) * 10 ** 9)` is 0. -/
theorem bearishAmount_reserve_plus_one :
    bearishAmount (((10000001 : ℕ) : ℚ) / 10 ^ 9) = 0 := by
  have h1 : toDouble (((10000001 : ℕ) : ℚ) / 10 ^ 9) = 5764608099494987 / 2 ^ 59 := by
    rw [toDouble_eval _ (-7) 5764608099494987 (by norm_num) (by norm_num [abs_of_pos])
      (by norm_num [abs_of_pos]) (by norm_num [abs_lt])]
    norm_num
  have h2 : toDouble (5764608099494987 / 2 ^ 59 - 5764607523034235 / 2 ^ 59) =
      4835703275913216 / 2 ^ 82 := by
    rw [toDouble_eval _ (-30) 4835703275913216 (by norm_num) (by norm_num [abs_of_pos])
      (by norm_num [abs_of_pos]) (by norm_num [abs_lt])]
    norm_num
  have h3 : toDouble (4835703275913216 / 2 ^ 82 * 10 ^ 9) = 9007199250000000 / 2 ^ 53 := by
    rw [toDouble_eval _ (-1) 9007199250000000 (by norm_num) (by norm_num [abs_of_pos])
      (by norm_num [abs_of_pos]) (by norm_num [abs_lt])]
    norm_num
  unfold bearishAmount jsMul jsSub
  rw [h1, solToKeep_eq, h2, h3, Int.floor_eq_iff]
  norm_num

/-- 1,000,000,002 lamports: the amount is 990,000,001. -/
theorem bearishAmount_one_sol :
    bearishAmount (((1000000002 : ℕ) : ℚ) / 10 ^ 9) = 990000001 := by
  have h1 : toDouble (((1000000002 : ℕ) : ℚ) / 10 ^ 9) = 4503599636377695 / 2 ^ 52 := by
    rw [toDouble_eval _ 0 4503599636377695 (by norm_num) (by norm_num [abs_of_pos])
      (by norm_num [abs_of_pos]) (by norm_num [abs_lt])]
    norm_num
  have h2 : toDouble (4503599636377695 / 2 ^ 52 - 5764607523034235 / 2 ^ 59) =
      8917127280207980 / 2 ^ 53 := by
    rw [toDouble_eval _ (-1) 8917127280207980 (by norm_num) (by norm_num [abs_of_pos])
      (by norm_num [abs_of_pos]) (by norm_num [abs_lt])]
    norm_num
  have h3 : toDouble (8917127280207980 / 2 ^ 53 * 10 ^ 9) = 8304721936777215 / 2 ^ 23 := by
    rw [toDouble_eval _ 29 8304721936777215 (by norm_num) (by norm_num [abs_of_pos])
      (by norm_num [abs_of_pos]) (by norm_num [abs_lt])]
    norm_num
  unfold bearishAmount jsMul jsSub
  rw [h1, solToKeep_eq, h2, h3, Int.floor_eq_iff]
  norm_num

/-- `2^53` lamports: the amount is `2^53 - 10,000,000 + 1`. -/
theorem bearishAmount_large :
    bearishAmount (((9007199254740992 : ℕ) : ℚ) / 10 ^ 9) = 9007199244740993 := by
  have h1 : toDouble (((9007199254740992 : ℕ) : ℚ) / 10 ^ 9) = 4835703278458517 / 2 ^ 29 := by
    rw [toDouble_eval _ 23 4835703278458517 (by norm_num) (by norm_num [abs_of_pos])
      (by norm_num [abs_of_pos]) (by norm_num [abs_lt])]
    norm_num
  have h2 : toDouble (4835703278458517 / 2 ^ 29 - 5764607523034235 / 2 ^ 59) =
      4835703273089808 / 2 ^ 29 := by
    rw [toDouble_eval _ 23 4835703273089808 (by norm_num) (by norm_num [abs_of_pos])
      (by norm_num [abs_of_pos]) (by norm_num [abs_lt])]
    norm_num
  have h3 : toDouble (4835703273089808 / 2 ^ 29 * 10 ^ 9) = 9007199244740993 := by
    rw [toDouble_eval _ 52 9007199244740993 (by norm_num) (by norm_num [abs_of_pos])
      (by norm_num [abs_of_pos]) (by norm_num [abs_lt])]
    norm_num
  unfold bearishAmount jsMul jsSub
  rw [h1, solToKeep_eq, h2, h3, Int.floor_eq_iff]
  norm_num

/-- 50,000,000 lamports: the amount is 40,000,000. -/
theorem bearishAmount_quiet :
    bearishAmount (((50000000 : ℕ) : ℚ) / 10 ^ 9) = 40000000 := by
  have h1 : toDouble (((50000000 : ℕ) : ℚ) / 10 ^ 9) = 7205759403792794 / 2 ^ 57 := by
    rw [toDouble_eval _ (-5) 7205759403792794 (by norm_num) (by norm_num [abs_of_pos])
      (by norm_num [abs_of_pos]) (by norm_num [abs_lt])]
    norm_num
  have h2 : toDouble (7205759403792794 / 2 ^ 57 - 5764607523034235 / 2 ^ 59) =
      5764607523034235 / 2 ^ 57 := by
    rw [toDouble_eval _ (-5) 5764607523034235 (by norm_num) (by norm_num [abs_of_pos])
      (by norm_num [abs_of_pos]) (by norm_num [abs_lt])]
    norm_num
  have h3 : toDouble (5764607523034235 / 2 ^ 57 * 10 ^ 9) = 40000000 := by
    rw [toDouble_eval _ 25 5368709120000000 (by norm_num) (by norm_num [abs_of_pos])
      (by norm_num [abs_of_pos]) (by norm_num [abs_lt])]
    norm_num
  unfold bearishAmount jsMul jsSub
  rw [h1, solToKeep_eq, h2, h3, Int.floor_eq_iff]
  norm_num

/-! ## Signal interpreter and handler -/

/-- For the indicator "bullish" the trade is built from the USDC balance just
read, and the one quote request of the handler carries it. -/
theorem handler_bullish (w : World) (balances : Balances)
    (hbal : (fetchBalances w).1 = .ok balances) :
    buildTrade (.str "bullish") balances =
        .ok { fromToken := USDC_MINT, toToken := SOL_MINT,
              amount := bullishAmount balances.usdc } ∧
    (handler w (.str "bullish")).2.filter Call.isQuote =
        [.quote USDC_MINT SOL_MINT (bullishAmount balances.usdc) 50] := by
  have hb : buildTrade (.str "bullish") balances =
      .ok { fromToken := USDC_MINT, toToken := SOL_MINT,
            amount := bullishAmount balances.usdc } := by
    simp [buildTrade]
  refine ⟨hb, ?_⟩
  have hf := fetchBalances_ok w _ hbal
  obtain ⟨extra, he, hall⟩ := executeTrade_trace w
    { fromToken := USDC_MINT, toToken := SOL_MINT, amount := bullishAmount balances.usdc }
    [.getBalance, .getParsedTokenAccountsByOwner]
  have hx : extra.filter Call.isQuote = [] := by
    rw [List.filter_eq_nil_iff]
    intro c hc
    simp [hall c hc]
  have ht : (Indicator.str "bullish").truthy = true := by decide
  have hh : handler w (.str "bullish") = executeTrade w
      { fromToken := USDC_MINT, toToken := SOL_MINT, amount := bullishAmount balances.usdc }
      [.getBalance, .getParsedTokenAccountsByOwner] := by
    simp only [handler, ht, hf, hb]
    rfl
  rw [hh, he]
  simp [List.filter_append, hx, Call.isQuote]

/-- For the indicator "bearish": a positive amount is quoted, in the one quote
request of the handler; any other amount is answered with 400 right after the
balance read. -/
theorem handler_bearish (w : World) (balances : Balances)
    (hbal : (fetchBalances w).1 = .ok balances) :
    (0 < bearishAmount balances.sol →
      buildTrade (.str "bearish") balances =
        .ok { fromToken := SOL_MINT, toToken := USDC_MINT,
              amount := bearishAmount balances.sol } ∧
      (handler w (.str "bearish")).2.filter Call.isQuote =
        [.quote SOL_MINT USDC_MINT (bearishAmount balances.sol) 50]) ∧
    (bearishAmount balances.sol ≤ 0 →
      buildTrade (.str "bearish") balances =
        .error { status := 400,
                 body := { error := some "Not enough SOL to trade after reserving for fees." } } ∧
      (handler w (.str "bearish")).1.status = 400 ∧
      (handler w (.str "bearish")).2 = [.getBalance, .getParsedTokenAccountsByOwner]) := by
  have hf := fetchBalances_ok w _ hbal
  have ht : (Indicator.str "bearish").truthy = true := by decide
  have hne : Indicator.str "bearish" ≠ Indicator.str "bullish" := by decide
  constructor
  · intro hpos
    have hnp : ¬ bearishAmount balances.sol ≤ 0 := not_le.2 hpos
    have hb : buildTrade (.str "bearish") balances =
        .ok { fromToken := SOL_MINT, toToken := USDC_MINT,
              amount := bearishAmount balances.sol } := by
      simp only [buildTrade, hne, if_false, if_true, hnp]
    refine ⟨hb, ?_⟩
    obtain ⟨extra, he, hall⟩ := executeTrade_trace w
      { fromToken := SOL_MINT, toToken := USDC_MINT, amount := bearishAmount balances.sol }
      [.getBalance, .getParsedTokenAccountsByOwner]
    have hx : extra.filter Call.isQuote = [] := by
      rw [List.filter_eq_nil_iff]
      intro c hc
      simp [hall c hc]
    have hh : handler w (.str "bearish") = executeTrade w
        { fromToken := SOL_MINT, toToken := USDC_MINT, amount := bearishAmount balances.sol }
        [.getBalance, .getParsedTokenAccountsByOwner] := by
      simp only [handler, ht, hf, hb]
      rfl
    rw [hh, he]
    simp [List.filter_append, hx, Call.isQuote]
  · intro hnp
    have hb : buildTrade (.str "bearish") balances =
        .error { status := 400,
                 body := { error := some "Not enough SOL to trade after reserving for fees." } } := by
      simp only [buildTrade, hne, if_false, if_true, hnp]
    refine ⟨hb, ?_⟩
    simp only [handler, ht, hf, hb]
    exact ⟨rfl, rfl⟩

/-- C1, as stated, fails: with a balance of 8.2 USDC the exact value of
`⌊8.2 * 10^6⌋` is 8,200,000, and the trade built and quoted has the amount
8,199,999. -/
theorem bullish_amount_is_not_exact_floor :
    (fetchBalances decimalUsdcWorld).1 =
        .ok { sol := ((50000000 : ℕ) : ℚ) / 10 ^ 9, usdc := 82 / 10 } ∧
    ⌊(82 / 10 : ℚ) * 10 ^ 6⌋ = 8200000 ∧
    buildTrade (.str "bullish") { sol := ((50000000 : ℕ) : ℚ) / 10 ^ 9, usdc := 82 / 10 } =
        .ok { fromToken := USDC_MINT, toToken := SOL_MINT, amount := 8199999 } ∧
    (handler decimalUsdcWorld (.str "bullish")).2.filter Call.isQuote =
        [.quote USDC_MINT SOL_MINT 8199999 50] := by
  have h := handler_bullish decimalUsdcWorld
    { sol := ((50000000 : ℕ) : ℚ) / 10 ^ 9, usdc := 82 / 10 } rfl
  rw [bullishAmount_decimal] at h
  refine ⟨rfl, ?_, h.1, h.2⟩
  rw [Int.floor_eq_iff]
  norm_num

/-- C1, amended. For every balance snapshot with USDC amount `a ≥ 0`, the
indicator "bullish" builds the trade USDC → SOL whose amount is the floor of
the binary64 product `a * 10^6`: it is not negative; for `a * 10^6 < 2^50` it
is within 1 of `⌊a * 10^6⌋`, and for a balance of `units` base units
(`a = units / 10^6`) it is `units` or `units - 1`; the one quote request of the
handler carries exactly that trade. -/
theorem bullish_trades_floor_of_double_product (w : World) (s a : ℚ)
    (hbal : (fetchBalances w).1 = .ok { sol := s, usdc := a }) (ha : 0 ≤ a) :
    buildTrade (.str "bullish") { sol := s, usdc := a } =
        .ok { fromToken := USDC_MINT, toToken := SOL_MINT, amount := bullishAmount a } ∧
    bullishAmount a = ⌊toDouble (toDouble a * 10 ^ 6)⌋ ∧
    0 ≤ bullishAmount a ∧
    (a * 10 ^ 6 < 2 ^ 50 → |bullishAmount a - ⌊a * 10 ^ 6⌋| ≤ 1) ∧
    (∀ units : ℕ, a = (units : ℚ) / 10 ^ 6 → units < 2 ^ 50 →
      bullishAmount a = units ∨ bullishAmount a = (units : ℤ) - 1) ∧
    (handler w (.str "bullish")).2.filter Call.isQuote =
        [.quote USDC_MINT SOL_MINT (bullishAmount a) 50] := by
  have h := handler_bullish w { sol := s, usdc := a } hbal
  refine ⟨h.1, rfl, bullishAmount_nonneg a ha, abs_bullishAmount_sub_floor_le a ha, ?_, h.2⟩
  intro units hu hlt
  rw [hu]
  exact bullishAmount_base_units units hlt

/-- C1, amended, at `decimalUsdcWorld`: a balance of 8.2 USDC. -/
theorem bullish_trades_floor_of_double_product_witness :
    buildTrade (.str "bullish") { sol := ((50000000 : ℕ) : ℚ) / 10 ^ 9, usdc := 82 / 10 } =
        .ok { fromToken := USDC_MINT, toToken := SOL_MINT, amount := bullishAmount (82 / 10) } ∧
    bullishAmount (82 / 10) = ⌊toDouble (toDouble (82 / 10) * 10 ^ 6)⌋ ∧
    0 ≤ bullishAmount (82 / 10) ∧
    ((82 / 10 : ℚ) * 10 ^ 6 < 2 ^ 50 → |bullishAmount (82 / 10) - ⌊(82 / 10 : ℚ) * 10 ^ 6⌋| ≤ 1) ∧
    (∀ units : ℕ, (82 / 10 : ℚ) = (units : ℚ) / 10 ^ 6 → units < 2 ^ 50 →
      bullishAmount (82 / 10) = units ∨ bullishAmount (82 / 10) = (units : ℤ) - 1) ∧
    (handler decimalUsdcWorld (.str "bullish")).2.filter Call.isQuote =
        [.quote USDC_MINT SOL_MINT (bullishAmount (82 / 10)) 50] :=
  bullish_trades_floor_of_double_product decimalUsdcWorld (((50000000 : ℕ) : ℚ) / 10 ^ 9)
    (82 / 10) rfl (by norm_num)

/-- C2, as stated, fails: with 10,000,001 lamports the balance exceeds the
reserve and the exact value of `⌊(s - 0.01) * 10^9⌋` is 1, yet the amount
computed is 0 and the request is answered with 400 without a quote request;
with 1,000,000,002 lamports the amount is 990,000,001, not 990,000,002. -/
theorem one_lamport_above_reserve_is_rejected :
    (fetchBalances reservePlusOneWorld).1 =
        .ok { sol := ((10000001 : ℕ) : ℚ) / 10 ^ 9, usdc := 7 / 2 } ∧
    ((10000001 : ℕ) : ℚ) / 10 ^ 9 > 1 / 100 ∧
    ⌊(((10000001 : ℕ) : ℚ) / 10 ^ 9 - 1 / 100) * 10 ^ 9⌋ = 1 ∧
    bearishAmount (((10000001 : ℕ) : ℚ) / 10 ^ 9) = 0 ∧
    (handler reservePlusOneWorld (.str "bearish")).1.status = 400 ∧
    (handler reservePlusOneWorld (.str "bearish")).2 =
        [.getBalance, .getParsedTokenAccountsByOwner] ∧
    bearishAmount (((1000000002 : ℕ) : ℚ) / 10 ^ 9) = 990000001 ∧
    ⌊(((1000000002 : ℕ) : ℚ) / 10 ^ 9 - 1 / 100) * 10 ^ 9⌋ = 990000002 := by
  have h := (handler_bearish reservePlusOneWorld
    { sol := ((10000001 : ℕ) : ℚ) / 10 ^ 9, usdc := 7 / 2 } rfl).2
    (by rw [bearishAmount_reserve_plus_one])
  refine ⟨rfl, by norm_num, ?_, bearishAmount_reserve_plus_one, h.2.1, h.2.2,
    bearishAmount_one_sol, ?_⟩
  · rw [Int.floor_eq_iff]
    norm_num
  · rw [Int.floor_eq_iff]
    norm_num

/-- C2, amended. For every native balance of `lamports < 2^50` lamports read by
the balance oracle, the amount of the indicator "bearish" is the floor of the
binary64 value of `(s - 0.01) * 10^9`, that is `lamports - 10,000,000` or one
less; from 10,000,002 lamports on the trade SOL → USDC is built with that
amount and sent in the one quote request; up to 10,000,001 lamports the
response is 400 and no call follows the balance read. -/
theorem bearish_trades_floor_of_double_product (w : World) (lamports : ℕ)
    (accounts : List (Option ℚ)) (hget : w.getBalance = .ok lamports)
    (htok : w.getParsedTokenAccountsByOwner = .ok accounts) (hsmall : lamports < 2 ^ 50) :
    (fetchBalances w).1 =
        .ok { sol := (lamports : ℚ) / 10 ^ 9, usdc := firstUiAmountOrZero accounts } ∧
    bearishAmount ((lamports : ℚ) / 10 ^ 9) =
        ⌊toDouble (toDouble (toDouble ((lamports : ℚ) / 10 ^ 9) - toDouble (1 / 100)) * 10 ^ 9)⌋ ∧
    (bearishAmount ((lamports : ℚ) / 10 ^ 9) = (lamports : ℤ) - 10000000 ∨
      bearishAmount ((lamports : ℚ) / 10 ^ 9) = (lamports : ℤ) - 10000000 - 1) ∧
    (10000002 ≤ lamports →
      buildTrade (.str "bearish")
          { sol := (lamports : ℚ) / 10 ^ 9, usdc := firstUiAmountOrZero accounts } =
        .ok { fromToken := SOL_MINT, toToken := USDC_MINT,
              amount := bearishAmount ((lamports : ℚ) / 10 ^ 9) } ∧
      (handler w (.str "bearish")).2.filter Call.isQuote =
        [.quote SOL_MINT USDC_MINT (bearishAmount ((lamports : ℚ) / 10 ^ 9)) 50]) ∧
    (lamports ≤ 10000001 →
      (handler w (.str "bearish")).1.status = 400 ∧
      (handler w (.str "bearish")).2 = [.getBalance, .getParsedTokenAccountsByOwner]) := by
  have hf : (fetchBalances w).1 =
      .ok { sol := (lamports : ℚ) / 10 ^ 9, usdc := firstUiAmountOrZero accounts } := by
    simp [fetchBalances, hget, htok]
  have hamt := bearishAmount_lamports lamports hsmall
  have h := handler_bearish w _ hf
  refine ⟨hf, rfl, hamt, ?_, ?_⟩
  · intro hl
    exact h.1 (by dsimp only; omega)
  · intro hl
    have hle : bearishAmount ((lamports : ℚ) / 10 ^ 9) ≤ 0 := by
      by_cases h1 : lamports = 10000001
      · rw [h1, bearishAmount_reserve_plus_one]
      · omega
    exact (h.2 hle).2

/-- C2, amended, at `quietWorld`: 50,000,000 lamports (0.05 SOL). -/
theorem bearish_trades_floor_of_double_product_witness :
    (fetchBalances quietWorld).1 =
        .ok { sol := ((50000000 : ℕ) : ℚ) / 10 ^ 9, usdc := firstUiAmountOrZero [some (7 / 2)] } ∧
    bearishAmount (((50000000 : ℕ) : ℚ) / 10 ^ 9) =
        ⌊toDouble (toDouble (toDouble (((50000000 : ℕ) : ℚ) / 10 ^ 9) - toDouble (1 / 100)) *
          10 ^ 9)⌋ ∧
    (bearishAmount (((50000000 : ℕ) : ℚ) / 10 ^ 9) = ((50000000 : ℕ) : ℤ) - 10000000 ∨
      bearishAmount (((50000000 : ℕ) : ℚ) / 10 ^ 9) = ((50000000 : ℕ) : ℤ) - 10000000 - 1) ∧
    (10000002 ≤ 50000000 →
      buildTrade (.str "bearish")
          { sol := ((50000000 : ℕ) : ℚ) / 10 ^ 9, usdc := firstUiAmountOrZero [some (7 / 2)] } =
        .ok { fromToken := SOL_MINT, toToken := USDC_MINT,
              amount := bearishAmount (((50000000 : ℕ) : ℚ) / 10 ^ 9) } ∧
      (handler quietWorld (.str "bearish")).2.filter Call.isQuote =
        [.quote SOL_MINT USDC_MINT (bearishAmount (((50000000 : ℕ) : ℚ) / 10 ^ 9)) 50]) ∧
    (50000000 ≤ 10000001 →
      (handler quietWorld (.str "bearish")).1.status = 400 ∧
      (handler quietWorld (.str "bearish")).2 = [.getBalance, .getParsedTokenAccountsByOwner]) :=
  bearish_trades_floor_of_double_product quietWorld 50000000 [some (7 / 2)] rfl rfl
    (by norm_num)

/-- An indicator that is neither "bullish" nor "bearish" is rejected by `buildTrade`. -/
theorem buildTrade_unknown (indicator : Indicator) (balances : Balances)
    (h1 : indicator ≠ .str "bullish") (h2 : indicator ≠ .str "bearish") :
    buildTrade indicator balances =
      .error { status := 400,
               body := { error := some ("Unknown indicator '" ++ indicator.text ++ "'") } } := by
  simp [buildTrade, h1, h2]

/-- C9. For every request whose indicator is present but neither "bullish" nor
"bearish", and every behaviour of the node and the services, the handler makes
no quote request, no swap-build request, no signing and no broadcast: its
calls are those of the balance read. -/
theorem unknown_indicator_makes_no_downstream_call (w : World) (indicator : Indicator)
    (hp : indicator.truthy = true) (h1 : indicator ≠ .str "bullish")
    (h2 : indicator ≠ .str "bearish") :
    (handler w indicator).2 = (fetchBalances w).2 ∧
    ∀ c ∈ (handler w indicator).2,
      c.isQuote = false ∧ c.isSwap = false ∧ c.isSign = false ∧ c.isSend = false := by
  have ht : (handler w indicator).2 = (fetchBalances w).2 := by
    unfold handler
    simp only [hp, Bool.not_true, Bool.false_eq_true, if_false]
    rcases hfb : fetchBalances w with ⟨r, t⟩
    cases r with
    | error e => rfl
    | ok balances =>
      simp only [buildTrade_unknown indicator balances h1 h2]
  refine ⟨ht, ?_⟩
  intro c hc
  rw [ht] at hc
  rcases fetchBalances_trace w c hc with rfl | rfl <;> exact ⟨rfl, rfl, rfl, rfl⟩

/-- C9 at `quietWorld` with the indicator "neutral". -/
theorem unknown_indicator_makes_no_downstream_call_witness :
    (handler quietWorld (.str "neutral")).2 = (fetchBalances quietWorld).2 ∧
    ∀ c ∈ (handler quietWorld (.str "neutral")).2,
      c.isQuote = false ∧ c.isSwap = false ∧ c.isSign = false ∧ c.isSend = false :=
  unknown_indicator_makes_no_downstream_call quietWorld (.str "neutral")
    (by decide) (by decide) (by decide)

/-- C10, as stated, fails: with the indicator "neutral" and a node whose
balance call fails, the response status is 500, not 400. -/
theorem unknown_indicator_with_failed_balance_read_is_500 :
    (Indicator.str "neutral").truthy = true ∧
    Indicator.str "neutral" ≠ .str "bullish" ∧
    Indicator.str "neutral" ≠ .str "bearish" ∧
    (handler unreachableNodeWorld (.str "neutral")).1.status = 500 ∧
    (handler unreachableNodeWorld (.str "neutral")).1.status ≠ 400 := by
  refine ⟨by decide, by decide, by decide, ?_, ?_⟩ <;>
    simp [handler, Indicator.truthy, fetchBalances, unreachableNodeWorld, caught]

/-- C10, amended. For every request whose indicator is present but neither
"bullish" nor "bearish": when the balance read succeeds the response status is
400; when the balance read fails with error `e` the response is the 500 of the
`catch` block carrying `e.message`. -/
theorem unknown_indicator_status (w : World) (indicator : Indicator)
    (hp : indicator.truthy = true) (h1 : indicator ≠ .str "bullish")
    (h2 : indicator ≠ .str "bearish") :
    (∀ b, (fetchBalances w).1 = .ok b → (handler w indicator).1.status = 400) ∧
    (∀ e, (fetchBalances w).1 = .error e →
      (handler w indicator).1.status = 500 ∧
      (handler w indicator).1.body.error = some e.message) := by
  unfold handler
  simp only [hp, Bool.not_true, Bool.false_eq_true, if_false]
  rcases hfb : fetchBalances w with ⟨r, t⟩
  cases r with
  | error e =>
    refine ⟨fun b hb => by simp at hb, fun e2 he => ?_⟩
    simp only [Except.error.injEq] at he
    subst he
    exact ⟨rfl, rfl⟩
  | ok balances =>
    refine ⟨fun b _ => ?_, fun e he => by simp at he⟩
    simp only [buildTrade_unknown indicator balances h1 h2]

/-- C10, amended, at `quietWorld` with the indicator "neutral". -/
theorem unknown_indicator_status_witness :
    (∀ b, (fetchBalances quietWorld).1 = .ok b →
      (handler quietWorld (.str "neutral")).1.status = 400) ∧
    (∀ e, (fetchBalances quietWorld).1 = .error e →
      (handler quietWorld (.str "neutral")).1.status = 500 ∧
      (handler quietWorld (.str "neutral")).1.body.error = some e.message) :=
  unknown_indicator_status quietWorld (.str "neutral")
    (by decide) (by decide) (by decide)

/-! ## Confirmation monitor -/

/-- C3. For every node behaviour in which no poll reports finality (no status
is "finalized", no lookup returns a transaction whose `meta.err` is `null`),
`confirmTransactionReliable` returns `false` having issued exactly 10 status
queries. -/
theorem never_final_times_out_after_ten_attempts (w : World) (signature : String)
    (hs : ∀ i s, w.getSignatureStatus i = .ok (some s) →
      s.confirmationStatus ≠ some "finalized")
    (hl : ∀ i tx m, w.getConfirmedTransaction i = .ok (some tx) → tx.meta = some m →
      m.err ≠ none) :
    (confirmTransactionReliable w signature).1 = false ∧
    (confirmTransactionReliable w signature).2.countP Call.isStatusQuery = 10 := by
  have h := confirmLoop_never w signature hs hl 10 0 [] rfl
  simpa [confirmTransactionReliable] using h

/-- C3 at `quietWorld`, whose node answers `null` to every query. -/
theorem never_final_times_out_after_ten_attempts_witness :
    (confirmTransactionReliable quietWorld "signature").1 = false ∧
    (confirmTransactionReliable quietWorld "signature").2.countP Call.isStatusQuery = 10 :=
  never_final_times_out_after_ten_attempts quietWorld "signature"
    (fun i s h => by simp [quietWorld] at h)
    (fun i tx m h => by simp [quietWorld] at h)

/-! ## Lemmas on the classifier -/

theorem getChange_setChange (tc : TokenChanges) (k : String) (v : Change) (x : String) :
    getChange (setChange tc k v) x = if k = x then some v else getChange tc x := by
  induction tc with
  | nil => simp [setChange, getChange]
  | cons p rest ih =>
    obtain ⟨k1, v1⟩ := p
    by_cases h : k1 = k
    · subst h
      by_cases hx : k1 = x <;> simp [setChange, getChange, hx]
    · by_cases hx : k1 = x
      · subst hx
        have : ¬ k = k1 := fun e => h e.symm
        simp [setChange, getChange, h, this]
      · simp [setChange, getChange, h, hx, ih]

theorem getChange_setPost (tc : TokenChanges) (k : String) (p : ℚ) (x : String) :
    getChange (setPost tc k p) x =
      if k = x then (getChange tc x).map (fun v => { v with post := p }) else getChange tc x := by
  induction tc with
  | nil => simp [setPost, getChange]
  | cons q rest ih =>
    obtain ⟨k1, v1⟩ := q
    by_cases h : k1 = k
    · subst h
      by_cases hx : k1 = x <;> simp [setPost, getChange, hx]
    · by_cases hx : k1 = x
      · subst hx
        have : ¬ k = k1 := fun e => h e.symm
        simp [setPost, getChange, h, this]
      · simp [setPost, getChange, h, hx, ih]

theorem keys_setPost (tc : TokenChanges) (k : String) (p : ℚ) :
    (setPost tc k p).map Prod.fst = tc.map Prod.fst := by
  induction tc with
  | nil => rfl
  | cons q rest ih =>
    obtain ⟨k1, v1⟩ := q
    by_cases h : k1 = k <;> simp [setPost, h, ih]

theorem mem_keys_setChange (tc : TokenChanges) (k : String) (v : Change) (x : String) :
    x ∈ (setChange tc k v).map Prod.fst ↔ x = k ∨ x ∈ tc.map Prod.fst := by
  induction tc with
  | nil => simp [setChange]
  | cons q rest ih =>
    obtain ⟨k1, v1⟩ := q
    by_cases h : k1 = k
    · subst h
      simp [setChange]
    · simp only [setChange, h, if_false, List.map_cons, List.mem_cons, ih]
      tauto

theorem nodup_keys_setChange (tc : TokenChanges) (k : String) (v : Change)
    (h : (tc.map Prod.fst).Nodup) : ((setChange tc k v).map Prod.fst).Nodup := by
  induction tc with
  | nil => simp [setChange]
  | cons q rest ih =>
    obtain ⟨k1, v1⟩ := q
    simp only [List.map_cons, List.nodup_cons] at h
    by_cases hk : k1 = k
    · subst hk
      simpa [setChange] using h
    · simp only [setChange, hk, if_false, List.map_cons, List.nodup_cons]
      refine ⟨?_, ih h.2⟩
      rw [mem_keys_setChange]
      rintro (e | e)
      · exact hk e
      · exact h.1 e

theorem mem_iff_getChange (tc : TokenChanges) (h : (tc.map Prod.fst).Nodup) (x : String)
    (c : Change) : (x, c) ∈ tc ↔ getChange tc x = some c := by
  induction tc with
  | nil => simp [getChange]
  | cons q rest ih =>
    obtain ⟨k1, v1⟩ := q
    simp only [List.map_cons, List.nodup_cons] at h
    by_cases hk : k1 = x
    · subst hk
      simp only [List.mem_cons, Prod.mk.injEq, true_and, getChange, if_true, Option.some.injEq]
      constructor
      · rintro (e | e)
        · exact e.symm
        · exact absurd (List.mem_map_of_mem Prod.fst e) h.1
      · intro e
        exact Or.inl e.symm
    · have : ¬ x = k1 := fun e => hk e.symm
      simp [getChange, hk, this, ih h.2]

theorem getChange_foldl_pre (pre : List TokenBalance) :
    ∀ (tc : TokenChanges) (x : String),
      getChange (pre.foldl
          (fun tc b => setChange tc b.mint { pre := uiAmountOrZero b, post := 0 }) tc) x =
        match lastAmount pre x with
        | some p => some { pre := p, post := 0 }
        | none => getChange tc x := by
  induction pre with
  | nil => intro tc x; simp [lastAmount]
  | cons b rest ih =>
    intro tc x
    rw [List.foldl_cons, ih, lastAmount, getChange_setChange]
    cases lastAmount rest x with
    | some p => rfl
    | none => by_cases h : b.mint = x <;> simp [h]

theorem getChange_foldl_post (post : List TokenBalance) :
    ∀ (tc : TokenChanges) (x : String),
      getChange (post.foldl (fun tc b => setPost tc b.mint (uiAmountOrZero b)) tc) x =
        match lastAmount post x with
        | some q => (getChange tc x).map (fun v => { v with post := q })
        | none => getChange tc x := by
  induction post with
  | nil => intro tc x; simp [lastAmount]
  | cons b rest ih =>
    intro tc x
    rw [List.foldl_cons, ih, lastAmount, getChange_setPost]
    cases lastAmount rest x with
    | some q =>
      by_cases h : b.mint = x
      · simp only [h, if_true, Option.map_map]
        rfl
      · simp [h]
    | none => by_cases h : b.mint = x <;> simp [h]

theorem nodup_keys_foldl_pre (pre : List TokenBalance) :
    ∀ (tc : TokenChanges), (tc.map Prod.fst).Nodup →
      ((pre.foldl
          (fun tc b => setChange tc b.mint { pre := uiAmountOrZero b, post := 0 }) tc).map
        Prod.fst).Nodup := by
  induction pre with
  | nil => intro tc h; exact h
  | cons b rest ih =>
    intro tc h
    rw [List.foldl_cons]
    exact ih _ (nodup_keys_setChange tc _ _ h)

theorem keys_foldl_post (post : List TokenBalance) :
    ∀ (tc : TokenChanges),
      (post.foldl (fun tc b => setPost tc b.mint (uiAmountOrZero b)) tc).map Prod.fst =
        tc.map Prod.fst := by
  induction post with
  | nil => intro tc; rfl
  | cons b rest ih =>
    intro tc
    rw [List.foldl_cons, ih, keys_setPost]

/-- The property names of `tokenChanges` are pairwise distinct. -/
theorem nodup_keys_trackTokenChanges (pre post : List TokenBalance) :
    ((trackTokenChanges pre post).map Prod.fst).Nodup := by
  unfold trackTokenChanges
  rw [keys_foldl_post]
  exact nodup_keys_foldl_pre pre [] (by simp)

/-- The value of `tokenChanges[x]` after both loops: present exactly when `x` is
the mint of a pre entry, with the amount of the last pre entry as `pre` and that
of the last post entry (or 0) as `post`. -/
theorem getChange_trackTokenChanges (pre post : List TokenBalance) (x : String) :
    getChange (trackTokenChanges pre post) x =
      match lastAmount pre x with
      | some p => some { pre := p, post := (lastAmount post x).getD 0 }
      | none => none := by
  unfold trackTokenChanges
  rw [getChange_foldl_post, getChange_foldl_pre]
  cases lastAmount pre x with
  | some p => cases lastAmount post x <;> simp [getChange]
  | none => cases lastAmount post x <;> simp [getChange]

theorem mem_splitAssets_spent (tc : TokenChanges) :
    ∀ (s r : List Asset) (a : Asset),
      a ∈ (splitAssets tc s r).1 ↔
        a ∈ s ∨ ∃ c, (a.mint, c) ∈ tc ∧ jsSub c.post c.pre < 0 ∧ a.amount = |jsSub c.post c.pre| := by
  induction tc with
  | nil => intro s r a; simp [splitAssets]
  | cons e rest ih =>
    intro s r a
    obtain ⟨k, c⟩ := e
    unfold splitAssets
    by_cases h1 : jsSub c.post c.pre < 0
    · simp only [h1, if_true, ih, List.mem_append, List.mem_singleton, List.mem_cons,
        Prod.mk.injEq, List.not_mem_nil, or_false]
      constructor
      · rintro ((h | h) | ⟨c2, h, h2⟩)
        · exact Or.inl h
        · subst h
          exact Or.inr ⟨c, Or.inl ⟨rfl, rfl⟩, h1, rfl⟩
        · exact Or.inr ⟨c2, Or.inr h, h2⟩
      · rintro (h | ⟨c2, (⟨hk, hc⟩ | h), h2, h3⟩)
        · exact Or.inl (Or.inl h)
        · subst hc
          refine Or.inl (Or.inr ?_)
          cases a
          simp_all
        · exact Or.inr ⟨c2, h, h2, h3⟩
    · by_cases h2 : jsSub c.post c.pre > 0
      · simp only [h1, if_false, h2, if_true, ih, List.mem_cons, Prod.mk.injEq]
        constructor
        · rintro (h | ⟨c2, h, h3⟩)
          · exact Or.inl h
          · exact Or.inr ⟨c2, Or.inr h, h3⟩
        · rintro (h | ⟨c2, (⟨hk, hc⟩ | h), h3, h4⟩)
          · exact Or.inl h
          · subst hc
            exact absurd h3 h1
          · exact Or.inr ⟨c2, h, h3, h4⟩
      · simp only [h1, if_false, h2, ih, List.mem_cons, Prod.mk.injEq]
        constructor
        · rintro (h | ⟨c2, h, h3⟩)
          · exact Or.inl h
          · exact Or.inr ⟨c2, Or.inr h, h3⟩
        · rintro (h | ⟨c2, (⟨hk, hc⟩ | h), h3, h4⟩)
          · exact Or.inl h
          · subst hc
            exact absurd h3 h1
          · exact Or.inr ⟨c2, h, h3, h4⟩

theorem mem_splitAssets_received (tc : TokenChanges) :
    ∀ (s r : List Asset) (a : Asset),
      a ∈ (splitAssets tc s r).2 ↔
        a ∈ r ∨ ∃ c, (a.mint, c) ∈ tc ∧ jsSub c.post c.pre > 0 ∧ a.amount = jsSub c.post c.pre := by
  induction tc with
  | nil => intro s r a; simp [splitAssets]
  | cons e rest ih =>
    intro s r a
    obtain ⟨k, c⟩ := e
    unfold splitAssets
    by_cases h1 : jsSub c.post c.pre < 0
    · have h2 : ¬ jsSub c.post c.pre > 0 := not_lt.2 h1.le
      simp only [h1, if_true, ih, List.mem_cons, Prod.mk.injEq]
      constructor
      · rintro (h | ⟨c2, h, h3⟩)
        · exact Or.inl h
        · exact Or.inr ⟨c2, Or.inr h, h3⟩
      · rintro (h | ⟨c2, (⟨hk, hc⟩ | h), h3, h4⟩)
        · exact Or.inl h
        · subst hc
          exact absurd h3 h2
        · exact Or.inr ⟨c2, h, h3, h4⟩
    · by_cases h2 : jsSub c.post c.pre > 0
      · simp only [h1, if_false, h2, if_true, ih, List.mem_append, List.mem_singleton,
          List.mem_cons, Prod.mk.injEq, List.not_mem_nil, or_false]
        constructor
        · rintro ((h | h) | ⟨c2, h, h3⟩)
          · exact Or.inl h
          · subst h
            exact Or.inr ⟨c, Or.inl ⟨rfl, rfl⟩, h2, rfl⟩
          · exact Or.inr ⟨c2, Or.inr h, h3⟩
        · rintro (h | ⟨c2, (⟨hk, hc⟩ | h), h3, h4⟩)
          · exact Or.inl (Or.inl h)
          · subst hc
            refine Or.inl (Or.inr ?_)
            cases a
            simp_all
          · exact Or.inr ⟨c2, h, h3, h4⟩
      · simp only [h1, if_false, h2, ih, List.mem_cons, Prod.mk.injEq]
        constructor
        · rintro (h | ⟨c2, h, h3⟩)
          · exact Or.inl h
          · exact Or.inr ⟨c2, Or.inr h, h3⟩
        · rintro (h | ⟨c2, (⟨hk, hc⟩ | h), h3, h4⟩)
          · exact Or.inl h
          · subst hc
            exact absurd h3 h2
          · exact Or.inr ⟨c2, h, h3, h4⟩

theorem classify_spentAssets (m : TxMeta) :
    (classify m).spentAssets =
      (splitAssets (trackTokenChanges m.preTokenBalances m.postTokenBalances) [] []).1 := rfl

theorem classify_receivedAssets (m : TxMeta) :
    (classify m).receivedAssets =
      (splitAssets (trackTokenChanges m.preTokenBalances m.postTokenBalances) [] []).2 := rfl

/-- The fee test fails as soon as one of the two asset lists is not empty. -/
theorem isFeeTransaction_false_of_ne_nil (m : TxMeta) (s r : List Asset)
    (h : s ≠ [] ∨ r ≠ []) : isFeeTransaction m s r = false := by
  unfold isFeeTransaction
  cases m.postBalances.head? <;> cases m.preBalances.head? <;> try rfl
  rcases h with h | h
  · cases s with
    | nil => exact absurd rfl h
    | cons a s => simp
  · cases r with
    | nil => exact absurd rfl h
    | cons a r => simp

/-- The transaction type in terms of the two asset lists and the fee test. -/
theorem classify_transactionType (m : TxMeta) :
    (classify m).transactionType =
      if (classify m).spentAssets ≠ [] ∧ (classify m).receivedAssets ≠ [] then
        if hasMint (classify m).spentAssets USDC_MINT = true ∧
            hasMint (classify m).receivedAssets SOL_MINT = true then "Sell SOL"
        else if hasMint (classify m).spentAssets SOL_MINT = true ∧
            hasMint (classify m).receivedAssets USDC_MINT = true then "Buy SOL"
        else "Swap"
      else if isFeeTransaction m (classify m).spentAssets (classify m).receivedAssets = true then
        "Fee Payment"
      else "Transfer" := by
  rw [classify_spentAssets, classify_receivedAssets]
  unfold classify
  dsimp only
  generalize splitAssets (trackTokenChanges m.preTokenBalances m.postTokenBalances) [] [] = p
  obtain ⟨s, r⟩ := p
  dsimp only
  cases s with
  | nil =>
    cases hf : isFeeTransaction m [] r <;> simp
  | cons a s =>
    cases r with
    | nil =>
      cases hf : isFeeTransaction m (a :: s) [] <;> cases s <;> simp
    | cons b r =>
      have hnf : isFeeTransaction m (a :: s) (b :: r) = false :=
        isFeeTransaction_false_of_ne_nil m _ _ (Or.inl (by simp))
      simp only [hnf]
      by_cases h1 : hasMint (a :: s) USDC_MINT = true ∧ hasMint (b :: r) SOL_MINT = true
      · simp [h1]
      · by_cases h2 : hasMint (a :: s) SOL_MINT = true ∧ hasMint (b :: r) USDC_MINT = true
        · simp [h1, h2]
        · simp [h1, h2]

theorem hasMint_iff (assets : List Asset) (mint : String) :
    hasMint assets mint = true ↔ ∃ a ∈ assets, a.mint = mint := by
  simp [hasMint, List.any_eq_true]

/-- A classification is determined by its three fields. -/
theorem classified_eq (c : Classified) (t : String) (s r : List Asset)
    (ht : c.transactionType = t) (hs : c.spentAssets = s) (hr : c.receivedAssets = r) :
    c = { transactionType := t, spentAssets := s, receivedAssets := r } := by
  cases c
  simp_all

/-- No mint is both spent and received. -/
theorem spent_received_disjoint (m : TxMeta) (a b : Asset)
    (ha : a ∈ (classify m).spentAssets) (hb : b ∈ (classify m).receivedAssets) :
    a.mint ≠ b.mint := by
  rw [classify_spentAssets, mem_splitAssets_spent] at ha
  rw [classify_receivedAssets, mem_splitAssets_received] at hb
  rcases ha with ha | ⟨c, hc, hneg, -⟩
  · simp at ha
  rcases hb with hb | ⟨d, hd, hpos, -⟩
  · simp at hb
  intro e
  have hn := nodup_keys_trackTokenChanges m.preTokenBalances m.postTokenBalances
  rw [mem_iff_getChange _ hn] at hc hd
  rw [e, hd] at hc
  simp only [Option.some.injEq] at hc
  subst hc
  exact absurd hneg (not_lt.2 hpos.le)

/-- Membership in `spentAssets` in terms of the last pre and post entries. -/
theorem mem_spentAssets_iff (m : TxMeta) (a : Asset) :
    a ∈ (classify m).spentAssets ↔
      ∃ p, lastAmount m.preTokenBalances a.mint = some p ∧
        jsSub ((lastAmount m.postTokenBalances a.mint).getD 0) p < 0 ∧
        a.amount = |jsSub ((lastAmount m.postTokenBalances a.mint).getD 0) p| := by
  have hn := nodup_keys_trackTokenChanges m.preTokenBalances m.postTokenBalances
  rw [classify_spentAssets, mem_splitAssets_spent]
  simp only [List.not_mem_nil, false_or, mem_iff_getChange _ hn, getChange_trackTokenChanges]
  cases lastAmount m.preTokenBalances a.mint with
  | none => simp
  | some p => simp

/-- Membership in `receivedAssets` in terms of the last pre and post entries. -/
theorem mem_receivedAssets_iff (m : TxMeta) (a : Asset) :
    a ∈ (classify m).receivedAssets ↔
      ∃ p, lastAmount m.preTokenBalances a.mint = some p ∧
        jsSub ((lastAmount m.postTokenBalances a.mint).getD 0) p > 0 ∧
        a.amount = jsSub ((lastAmount m.postTokenBalances a.mint).getD 0) p := by
  have hn := nodup_keys_trackTokenChanges m.preTokenBalances m.postTokenBalances
  rw [classify_receivedAssets, mem_splitAssets_received]
  simp only [List.not_mem_nil, false_or, mem_iff_getChange _ hn, getChange_trackTokenChanges]
  cases lastAmount m.preTokenBalances a.mint with
  | none => simp
  | some p => simp

/-- The mints pushed by the loop, in order, are mints of `tokenChanges` in order. -/
theorem splitAssets_mints_sublist (tc : TokenChanges) :
    ∀ (s r : List Asset),
      (∃ l, ((splitAssets tc s r).1.map Asset.mint = s.map Asset.mint ++ l) ∧
        l.Sublist (tc.map Prod.fst)) ∧
      (∃ l, ((splitAssets tc s r).2.map Asset.mint = r.map Asset.mint ++ l) ∧
        l.Sublist (tc.map Prod.fst)) := by
  induction tc with
  | nil =>
    intro s r
    exact ⟨⟨[], by simp [splitAssets], List.Sublist.refl _⟩,
      ⟨[], by simp [splitAssets], List.Sublist.refl _⟩⟩
  | cons e rest ih =>
    intro s r
    obtain ⟨k, c⟩ := e
    unfold splitAssets
    by_cases h1 : jsSub c.post c.pre < 0
    · simp only [h1, if_true, List.map_cons]
      obtain ⟨⟨l1, e1, s1⟩, ⟨l2, e2, s2⟩⟩ :=
        ih (s ++ [{ mint := k, amount := |jsSub c.post c.pre| }]) r
      refine ⟨⟨k :: l1, ?_, s1.cons₂ k⟩, ⟨l2, e2, s2.cons k⟩⟩
      rw [e1]
      simp
    · by_cases h2 : jsSub c.post c.pre > 0
      · simp only [h1, if_false, h2, if_true, List.map_cons]
        obtain ⟨⟨l1, e1, s1⟩, ⟨l2, e2, s2⟩⟩ :=
          ih s (r ++ [{ mint := k, amount := jsSub c.post c.pre }])
        refine ⟨⟨l1, e1, s1.cons k⟩, ⟨k :: l2, ?_, s2.cons₂ k⟩⟩
        rw [e2]
        simp
      · simp only [h1, if_false, h2, List.map_cons]
        obtain ⟨⟨l1, e1, s1⟩, ⟨l2, e2, s2⟩⟩ := ih s r
        exact ⟨⟨l1, e1, s1.cons k⟩, ⟨l2, e2, s2.cons k⟩⟩

/-- No mint occurs twice in `spentAssets`, nor twice in `receivedAssets`. -/
theorem nodup_mints (m : TxMeta) :
    ((classify m).spentAssets.map Asset.mint).Nodup ∧
    ((classify m).receivedAssets.map Asset.mint).Nodup := by
  have hn := nodup_keys_trackTokenChanges m.preTokenBalances m.postTokenBalances
  obtain ⟨⟨l1, e1, s1⟩, ⟨l2, e2, s2⟩⟩ :=
    splitAssets_mints_sublist (trackTokenChanges m.preTokenBalances m.postTokenBalances) [] []
  rw [classify_spentAssets, classify_receivedAssets, e1, e2]
  exact ⟨by simpa using s1.nodup hn, by simpa using s2.nodup hn⟩

theorem lastAmount_eq_none_iff (balances : List TokenBalance) (mint : String) :
    lastAmount balances mint = none ↔ ∀ b ∈ balances, b.mint ≠ mint := by
  induction balances with
  | nil => simp [lastAmount]
  | cons b rest ih =>
    rw [lastAmount]
    cases h : lastAmount rest mint with
    | some p =>
      simp only [false_iff, reduceCtorEq]
      intro hall
      have := ih.2 (fun b' hb' => hall b' (List.mem_cons_of_mem _ hb'))
      rw [h] at this
      cases this
    | none =>
      have hr := ih.1 h
      by_cases hb : b.mint = mint
      · simp [hb]
      · simp only [hb, if_false, true_iff]
        intro b' hb'
        rcases List.mem_cons.1 hb' with rfl | h'
        · exact hb
        · exact hr b' h'

/-- The amount recorded for a mint is the amount of one of its entries. -/
theorem lastAmount_eq_some (balances : List TokenBalance) (mint : String) (p : ℚ)
    (h : lastAmount balances mint = some p) :
    ∃ b ∈ balances, b.mint = mint ∧ p = uiAmountOrZero b := by
  induction balances with
  | nil => simp [lastAmount] at h
  | cons b rest ih =>
    rw [lastAmount] at h
    cases hr : lastAmount rest mint with
    | some q =>
      rw [hr] at h
      simp only [Option.some.injEq] at h
      obtain ⟨b', hb', hm, hq⟩ := ih (by rw [hr, h])
      exact ⟨b', List.mem_cons_of_mem _ hb', hm, hq⟩
    | none =>
      rw [hr] at h
      by_cases hb : b.mint = mint
      · simp only [hb, if_true, Option.some.injEq] at h
        exact ⟨b, List.mem_cons_self _ _, hb, h.symm⟩
      · simp [hb] at h

/-- The amounts recorded in `tokenChanges` are binary64 numbers. -/
theorem toDouble_lastAmount (balances : List TokenBalance) (mint : String) (p : ℚ)
    (h : lastAmount balances mint = some p) : toDouble p = p := by
  obtain ⟨b, -, -, hp⟩ := lastAmount_eq_some balances mint p h
  rw [hp, uiAmountOrZero, toDouble_idem]

theorem toDouble_lastAmount_getD (balances : List TokenBalance) (mint : String) :
    toDouble ((lastAmount balances mint).getD 0) = (lastAmount balances mint).getD 0 := by
  cases h : lastAmount balances mint with
  | none => simp
  | some p => simpa using toDouble_lastAmount balances mint p h

/-- The amount recorded for a mint is that of its last entry, `null` read as 0. -/
theorem lastAmount_append_cons (front back : List TokenBalance) (b : TokenBalance)
    (mint : String) (hb : b.mint = mint) (hback : ∀ c ∈ back, c.mint ≠ mint) :
    lastAmount (front ++ b :: back) mint = some (uiAmountOrZero b) := by
  induction front with
  | nil =>
    rw [List.nil_append, lastAmount, (lastAmount_eq_none_iff back mint).2 hback]
    simp [hb]
  | cons f rest ih =>
    rw [List.cons_append, lastAmount, ih]

/-! ## Lemmas on the fee test -/

/-- The sum compared with 0.00001 in the fee test is within 0.51 lamports of
`(post - pre + fee) / 10^9`, for balances and fees below `2^50` lamports. -/
theorem abs_feeSum_sub_le (post0 pre0 fee : ℕ) (hpost : post0 < 2 ^ 50) (hpre : pre0 < 2 ^ 50)
    (hfee : fee < 2 ^ 50) :
    |jsAdd (jsDiv (jsSub (post0 : ℚ) (pre0 : ℚ)) (10 ^ 9)) (jsDiv (fee : ℚ) (10 ^ 9)) -
        ((post0 : ℚ) - pre0 + fee) / 10 ^ 9| ≤ 51 / (100 * 10 ^ 9) := by
  have h250 : (2 : ℚ) ^ 50 = 1125899906842624 := by norm_num
  have hP : (post0 : ℚ) < 2 ^ 50 := by exact_mod_cast hpost
  have hQ : (pre0 : ℚ) < 2 ^ 50 := by exact_mod_cast hpre
  have hF : (fee : ℚ) < 2 ^ 50 := by exact_mod_cast hfee
  rw [h250] at hP hQ hF
  have hP0 : (0 : ℚ) ≤ post0 := by positivity
  have hQ0 : (0 : ℚ) ≤ pre0 := by positivity
  have hF0 : (0 : ℚ) ≤ fee := by positivity
  have ha : toDouble ((post0 : ℚ) - pre0) = (post0 : ℚ) - pre0 := by
    have h := toDouble_intCast ((post0 : ℤ) - pre0) (by
      rw [abs_le]
      constructor <;> omega)
    push_cast at h
    exact h
  unfold jsAdd jsDiv jsSub
  rw [ha]
  have h1 : |((post0 : ℚ) - pre0) / 10 ^ 9| ≤ 1125900 := by
    rw [abs_le]
    constructor
    · rw [le_div_iff₀ (by norm_num)]
      linarith
    · rw [div_le_iff₀ (by norm_num)]
      linarith
  have e1 := abs_toDouble_sub_le_of_le _ _ h1
  generalize toDouble (((post0 : ℚ) - pre0) / 10 ^ 9) = s at e1 ⊢
  have h2 : |(fee : ℚ) / 10 ^ 9| ≤ 1125900 := by
    rw [abs_le]
    constructor
    · rw [le_div_iff₀ (by norm_num)]
      linarith
    · rw [div_le_iff₀ (by norm_num)]
      linarith
  have e2 := abs_toDouble_sub_le_of_le _ _ h2
  generalize toDouble ((fee : ℚ) / 10 ^ 9) = g at e2 ⊢
  rw [abs_le] at h1 h2 e1 e2
  have h3 : |s + g| ≤ 2251801 := by
    rw [abs_le]
    norm_num at e1 e2 ⊢
    constructor <;> linarith
  have e3 := abs_toDouble_sub_le_of_le _ _ h3
  generalize toDouble (s + g) = t at e3 ⊢
  rw [abs_le] at e3 ⊢
  have hsplit : ((post0 : ℚ) - pre0 + fee) / 10 ^ 9 =
      ((post0 : ℚ) - pre0) / 10 ^ 9 + (fee : ℚ) / 10 ^ 9 := by ring
  rw [hsplit]
  norm_num at e1 e2 e3 ⊢
  constructor <;> linarith

/-- Below 10,000 lamports the comparison of the fee test holds. -/
theorem feeTest_of_abs_lt (post0 pre0 fee : ℕ) (hpost : post0 < 2 ^ 50) (hpre : pre0 < 2 ^ 50)
    (hfee : fee < 2 ^ 50) (h : |(post0 : ℤ) - (pre0 : ℤ) + (fee : ℤ)| < 10000) :
    |jsAdd (jsDiv (jsSub (post0 : ℚ) (pre0 : ℚ)) (10 ^ 9)) (jsDiv (fee : ℚ) (10 ^ 9))| <
      toDouble (1 / 100000) := by
  have herr := abs_feeSum_sub_le post0 pre0 fee hpost hpre hfee
  have hD : |((post0 : ℚ) - pre0 + fee)| ≤ 9999 := by
    have h1 : |(post0 : ℤ) - (pre0 : ℤ) + (fee : ℤ)| ≤ 9999 := by omega
    have h2 : (((|(post0 : ℤ) - (pre0 : ℤ) + (fee : ℤ)| : ℤ)) : ℚ) ≤ ((9999 : ℤ) : ℚ) := by
      exact_mod_cast h1
    push_cast at h2
    exact h2
  rw [feeThreshold_eq]
  generalize jsAdd (jsDiv (jsSub (post0 : ℚ) (pre0 : ℚ)) (10 ^ 9)) (jsDiv (fee : ℚ) (10 ^ 9)) = t
    at herr ⊢
  generalize ((post0 : ℚ) - pre0 + fee) = D at herr hD
  rw [abs_le] at herr hD
  obtain ⟨herr1, herr2⟩ := herr
  obtain ⟨hD1, hD2⟩ := hD
  rw [abs_lt]
  norm_num at herr1 herr2 ⊢
  constructor <;> linarith

/-- Above 10,000 lamports the comparison of the fee test fails. -/
theorem not_feeTest_of_abs_gt (post0 pre0 fee : ℕ) (hpost : post0 < 2 ^ 50)
    (hpre : pre0 < 2 ^ 50) (hfee : fee < 2 ^ 50)
    (h : 10000 < |(post0 : ℤ) - (pre0 : ℤ) + (fee : ℤ)|) :
    ¬ |jsAdd (jsDiv (jsSub (post0 : ℚ) (pre0 : ℚ)) (10 ^ 9)) (jsDiv (fee : ℚ) (10 ^ 9))| <
      toDouble (1 / 100000) := by
  have herr := abs_feeSum_sub_le post0 pre0 fee hpost hpre hfee
  have hD : 10001 ≤ |((post0 : ℚ) - pre0 + fee)| := by
    have h1 : 10001 ≤ |(post0 : ℤ) - (pre0 : ℤ) + (fee : ℤ)| := by omega
    have h2 : ((10001 : ℤ) : ℚ) ≤ (((|(post0 : ℤ) - (pre0 : ℤ) + (fee : ℤ)| : ℤ)) : ℚ) := by
      exact_mod_cast h1
    push_cast at h2
    exact h2
  rw [feeThreshold_eq]
  generalize jsAdd (jsDiv (jsSub (post0 : ℚ) (pre0 : ℚ)) (10 ^ 9)) (jsDiv (fee : ℚ) (10 ^ 9)) = t
    at herr ⊢
  generalize ((post0 : ℚ) - pre0 + fee) = D at herr hD
  rw [abs_le] at herr
  obtain ⟨herr1, herr2⟩ := herr
  rw [le_abs] at hD
  intro hlt
  rw [abs_lt] at hlt
  obtain ⟨hlt1, hlt2⟩ := hlt
  norm_num at herr1 herr2 hlt1 hlt2
  rcases hD with hD | hD <;> linarith

/-- The fee test in terms of its comparison and the two lists. -/
theorem isFeeTransaction_iff (m : TxMeta) (s r : List Asset) :
    isFeeTransaction m s r = true ↔
      (∃ post0 pre0 : ℕ, m.postBalances.head? = some post0 ∧ m.preBalances.head? = some pre0 ∧
        |jsAdd (jsDiv (jsSub (post0 : ℚ) (pre0 : ℚ)) (10 ^ 9)) (jsDiv (m.fee : ℚ) (10 ^ 9))| <
          toDouble (1 / 100000)) ∧ s = [] ∧ r = [] := by
  unfold isFeeTransaction
  cases hpost : m.postBalances.head? with
  | none => simp
  | some post0 =>
    cases hpre : m.preBalances.head? with
    | none => simp
    | some pre0 =>
      simp only [Bool.and_eq_true, decide_eq_true_eq, beq_iff_eq, List.length_eq_zero,
        Option.some.injEq, exists_and_left, exists_eq_left', and_assoc]

/-- The fee test in lamports, away from the threshold: for native balances of
account 0 and a fee below `2^50` lamports, the test holds when
`|post - pre + fee| < 10,000` and both lists are empty, and when it holds then
`|post - pre + fee| ≤ 10,000` and both lists are empty. -/
theorem isFeeTransaction_lamports (m : TxMeta) (s r : List Asset)
    (hpost : ∀ post0, m.postBalances.head? = some post0 → post0 < 2 ^ 50)
    (hpre : ∀ pre0, m.preBalances.head? = some pre0 → pre0 < 2 ^ 50)
    (hfee : m.fee < 2 ^ 50) :
    (isFeeTransaction m s r = true →
      (∃ post0 pre0 : ℕ, m.postBalances.head? = some post0 ∧ m.preBalances.head? = some pre0 ∧
        |(post0 : ℤ) - (pre0 : ℤ) + (m.fee : ℤ)| ≤ 10000) ∧ s = [] ∧ r = []) ∧
    ((∃ post0 pre0 : ℕ, m.postBalances.head? = some post0 ∧ m.preBalances.head? = some pre0 ∧
        |(post0 : ℤ) - (pre0 : ℤ) + (m.fee : ℤ)| < 10000) ∧ s = [] ∧ r = [] →
      isFeeTransaction m s r = true) := by
  rw [isFeeTransaction_iff]
  constructor
  · rintro ⟨⟨post0, pre0, h1, h2, h3⟩, hs, hr⟩
    refine ⟨⟨post0, pre0, h1, h2, ?_⟩, hs, hr⟩
    by_contra hn
    exact not_feeTest_of_abs_gt post0 pre0 m.fee (hpost post0 h1) (hpre pre0 h2) hfee
      (not_le.1 hn) h3
  · rintro ⟨⟨post0, pre0, h1, h2, h3⟩, hs, hr⟩
    exact ⟨⟨post0, pre0, h1, h2,
      feeTest_of_abs_lt post0 pre0 m.fee (hpost post0 h1) (hpre pre0 h2) hfee h3⟩, hs, hr⟩

/-- The type is "Fee Payment" exactly when the fee test holds. -/
theorem transactionType_eq_fee_iff (m : TxMeta) :
    (classify m).transactionType = "Fee Payment" ↔
      isFeeTransaction m (classify m).spentAssets (classify m).receivedAssets = true := by
  rw [classify_transactionType]
  by_cases h : (classify m).spentAssets ≠ [] ∧ (classify m).receivedAssets ≠ []
  · have hnf := isFeeTransaction_false_of_ne_nil m (classify m).spentAssets
      (classify m).receivedAssets (Or.inl h.1)
    simp only [h, and_self, if_true, hnf, Bool.false_eq_true, iff_false]
    split_ifs <;> decide
  · simp only [h, if_false]
    by_cases hf : isFeeTransaction m (classify m).spentAssets (classify m).receivedAssets = true
    · simp [hf]
    · simp [hf]

/-! ## The classifier on the sample records -/

/-- The fee test of a record whose native balances of account 0 and fee are
given and below `2^50` lamports. -/
theorem isFeeTransaction_of_heads (m : TxMeta) (s r : List Asset) (post0 pre0 : ℕ)
    (hpost : m.postBalances.head? = some post0) (hpre : m.preBalances.head? = some pre0)
    (hb1 : post0 < 2 ^ 50) (hb2 : pre0 < 2 ^ 50) (hfee : m.fee < 2 ^ 50) :
    (|(post0 : ℤ) - (pre0 : ℤ) + (m.fee : ℤ)| < 10000 → s = [] → r = [] →
      isFeeTransaction m s r = true) ∧
    (10000 < |(post0 : ℤ) - (pre0 : ℤ) + (m.fee : ℤ)| → isFeeTransaction m s r = false) := by
  have h := isFeeTransaction_lamports m s r
    (fun x hx => by
      rw [hpost] at hx
      cases hx
      exact hb1)
    (fun x hx => by
      rw [hpre] at hx
      cases hx
      exact hb2) hfee
  constructor
  · intro hlt hs hr
    exact h.2 ⟨⟨post0, pre0, hpost, hpre, hlt⟩, hs, hr⟩
  · intro hgt
    by_contra hn
    rw [Bool.not_eq_false] at hn
    obtain ⟨⟨p, q, h1, h2, h3⟩, -, -⟩ := h.1 hn
    rw [hpost] at h1
    rw [hpre] at h2
    cases h1
    cases h2
    omega

theorem classify_usdcToSolSwap :
    classify usdcToSolSwap =
      { transactionType := "Sell SOL",
        spentAssets := [{ mint := USDC_MINT, amount := 100 }],
        receivedAssets := [{ mint := SOL_MINT, amount := 1 / 2 }] } := by
  have hsplit : splitAssets
      (trackTokenChanges usdcToSolSwap.preTokenBalances usdcToSolSwap.postTokenBalances) [] [] =
      ([{ mint := USDC_MINT, amount := 100 }], [{ mint := SOL_MINT, amount := 1 / 2 }]) := by
    norm_num [usdcToSolSwap, trackTokenChanges, splitAssets, setChange, setPost, uiAmountOrZero,
      jsSub, toDouble_one_hundred, toDouble_one_half, USDC_MINT, SOL_MINT]
  have hs : (classify usdcToSolSwap).spentAssets = [{ mint := USDC_MINT, amount := 100 }] := by
    rw [classify_spentAssets, hsplit]
  have hr : (classify usdcToSolSwap).receivedAssets =
      [{ mint := SOL_MINT, amount := 1 / 2 }] := by
    rw [classify_receivedAssets, hsplit]
  refine classified_eq _ _ _ _ ?_ hs hr
  rw [classify_transactionType, hs, hr]
  simp [hasMint]

theorem classify_solToUsdcSwap :
    classify solToUsdcSwap =
      { transactionType := "Buy SOL",
        spentAssets := [{ mint := SOL_MINT, amount := 1 / 2 }],
        receivedAssets := [{ mint := USDC_MINT, amount := 95 }] } := by
  have hsplit : splitAssets
      (trackTokenChanges solToUsdcSwap.preTokenBalances solToUsdcSwap.postTokenBalances) [] [] =
      ([{ mint := SOL_MINT, amount := 1 / 2 }], [{ mint := USDC_MINT, amount := 95 }]) := by
    norm_num [solToUsdcSwap, trackTokenChanges, splitAssets, setChange, setPost, uiAmountOrZero,
      jsSub, toDouble_ninety_five, toDouble_one_half, USDC_MINT, SOL_MINT]
  have hs : (classify solToUsdcSwap).spentAssets = [{ mint := SOL_MINT, amount := 1 / 2 }] := by
    rw [classify_spentAssets, hsplit]
  have hr : (classify solToUsdcSwap).receivedAssets =
      [{ mint := USDC_MINT, amount := 95 }] := by
    rw [classify_receivedAssets, hsplit]
  refine classified_eq _ _ _ _ ?_ hs hr
  rw [classify_transactionType, hs, hr]
  simp [hasMint, USDC_MINT, SOL_MINT]

theorem classify_usdcToOtherSwap :
    classify usdcToOtherSwap =
      { transactionType := "Swap",
        spentAssets := [{ mint := USDC_MINT, amount := 100 }],
        receivedAssets := [{ mint := OTHER_MINT, amount := 1000 }] } := by
  have hsplit : splitAssets
      (trackTokenChanges usdcToOtherSwap.preTokenBalances usdcToOtherSwap.postTokenBalances)
      [] [] =
      ([{ mint := USDC_MINT, amount := 100 }], [{ mint := OTHER_MINT, amount := 1000 }]) := by
    norm_num [usdcToOtherSwap, trackTokenChanges, splitAssets, setChange, setPost,
      uiAmountOrZero, jsSub, toDouble_one_hundred, toDouble_one_thousand, USDC_MINT, OTHER_MINT]
  have hs : (classify usdcToOtherSwap).spentAssets = [{ mint := USDC_MINT, amount := 100 }] := by
    rw [classify_spentAssets, hsplit]
  have hr : (classify usdcToOtherSwap).receivedAssets =
      [{ mint := OTHER_MINT, amount := 1000 }] := by
    rw [classify_receivedAssets, hsplit]
  refine classified_eq _ _ _ _ ?_ hs hr
  rw [classify_transactionType, hs, hr]
  simp [hasMint, USDC_MINT, SOL_MINT, OTHER_MINT]

theorem classify_feeOnlyPayment :
    classify feeOnlyPayment =
      { transactionType := "Fee Payment", spentAssets := [], receivedAssets := [] } := by
  have hs : (classify feeOnlyPayment).spentAssets = [] := rfl
  have hr : (classify feeOnlyPayment).receivedAssets = [] := rfl
  have hfee : isFeeTransaction feeOnlyPayment [] [] = true :=
    (isFeeTransaction_of_heads feeOnlyPayment [] [] 999995000 1000000000 rfl rfl
      (by norm_num) (by norm_num) (by norm_num [feeOnlyPayment])).1
      (by norm_num [feeOnlyPayment]) rfl rfl
  refine classified_eq _ _ _ _ ?_ hs hr
  rw [classify_transactionType, hs, hr, hfee]
  simp

theorem classify_postOnlyReceipt :
    classify postOnlyReceipt =
      { transactionType := "Fee Payment", spentAssets := [], receivedAssets := [] } := by
  have hs : (classify postOnlyReceipt).spentAssets = [] := rfl
  have hr : (classify postOnlyReceipt).receivedAssets = [] := rfl
  have hfee : isFeeTransaction postOnlyReceipt [] [] = true :=
    (isFeeTransaction_of_heads postOnlyReceipt [] [] 999995000 1000000000 rfl rfl
      (by norm_num) (by norm_num) (by norm_num [postOnlyReceipt])).1
      (by norm_num [postOnlyReceipt]) rfl rfl
  refine classified_eq _ _ _ _ ?_ hs hr
  rw [classify_transactionType, hs, hr, hfee]
  simp

theorem classify_closedAccountRecord :
    classify closedAccountRecord =
      { transactionType := "Transfer",
        spentAssets := [{ mint := USDC_MINT, amount := 100 }],
        receivedAssets := [] } := by
  have hsplit : splitAssets
      (trackTokenChanges closedAccountRecord.preTokenBalances
        closedAccountRecord.postTokenBalances) [] [] =
      ([{ mint := USDC_MINT, amount := 100 }], []) := by
    norm_num [closedAccountRecord, trackTokenChanges, splitAssets, setChange, setPost,
      uiAmountOrZero, jsSub, toDouble_one_hundred, USDC_MINT]
  have hs : (classify closedAccountRecord).spentAssets =
      [{ mint := USDC_MINT, amount := 100 }] := by
    rw [classify_spentAssets, hsplit]
  have hr : (classify closedAccountRecord).receivedAssets = [] := by
    rw [classify_receivedAssets, hsplit]
  have hfee : isFeeTransaction closedAccountRecord [{ mint := USDC_MINT, amount := 100 }] [] =
      false :=
    isFeeTransaction_false_of_ne_nil _ _ _ (Or.inl (by simp))
  refine classified_eq _ _ _ _ ?_ hs hr
  rw [classify_transactionType, hs, hr, hfee]
  simp

theorem classify_nativeTransferRecord :
    classify nativeTransferRecord =
      { transactionType := "Transfer", spentAssets := [], receivedAssets := [] } := by
  have hs : (classify nativeTransferRecord).spentAssets = [] := rfl
  have hr : (classify nativeTransferRecord).receivedAssets = [] := rfl
  have hfee : isFeeTransaction nativeTransferRecord [] [] = false :=
    (isFeeTransaction_of_heads nativeTransferRecord [] [] 499995000 1000000000 rfl rfl
      (by norm_num) (by norm_num) (by norm_num [nativeTransferRecord])).2
      (by norm_num [nativeTransferRecord])
  refine classified_eq _ _ _ _ ?_ hs hr
  rw [classify_transactionType, hs, hr, hfee]
  simp

theorem classify_ownerOnlyRecord :
    classify ownerOnlyRecord =
      { transactionType := "Fee Payment", spentAssets := [], receivedAssets := [] } := by
  have hsplit : splitAssets
      (trackTokenChanges ownerOnlyRecord.preTokenBalances ownerOnlyRecord.postTokenBalances)
      [] [] = ([], []) := by
    norm_num [ownerOnlyRecord, trackTokenChanges, splitAssets, setChange, setPost,
      uiAmountOrZero, jsSub, toDouble_one_hundred]
  have hs : (classify ownerOnlyRecord).spentAssets = [] := by
    rw [classify_spentAssets, hsplit]
  have hr : (classify ownerOnlyRecord).receivedAssets = [] := by
    rw [classify_receivedAssets, hsplit]
  have hfee : isFeeTransaction ownerOnlyRecord [] [] = true :=
    (isFeeTransaction_of_heads ownerOnlyRecord [] [] 999995000 1000000000 rfl rfl
      (by norm_num) (by norm_num) (by norm_num [ownerOnlyRecord])).1
      (by norm_num [ownerOnlyRecord]) rfl rfl
  refine classified_eq _ _ _ _ ?_ hs hr
  rw [classify_transactionType, hs, hr, hfee]
  simp

theorem classify_ownerAndPoolRecord :
    classify ownerAndPoolRecord =
      { transactionType := "Transfer", spentAssets := [],
        receivedAssets := [{ mint := USDC_MINT, amount := 100 }] } := by
  have hsplit : splitAssets
      (trackTokenChanges ownerAndPoolRecord.preTokenBalances
        ownerAndPoolRecord.postTokenBalances) [] [] =
      ([], [{ mint := USDC_MINT, amount := 100 }]) := by
    norm_num [ownerAndPoolRecord, trackTokenChanges, splitAssets, setChange, setPost,
      uiAmountOrZero, jsSub, toDouble_one_hundred, toDouble_five_hundred, toDouble_six_hundred]
  have hs : (classify ownerAndPoolRecord).spentAssets = [] := by
    rw [classify_spentAssets, hsplit]
  have hr : (classify ownerAndPoolRecord).receivedAssets =
      [{ mint := USDC_MINT, amount := 100 }] := by
    rw [classify_receivedAssets, hsplit]
  have hfee : isFeeTransaction ownerAndPoolRecord [] [{ mint := USDC_MINT, amount := 100 }] =
      false :=
    isFeeTransaction_false_of_ne_nil _ _ _ (Or.inr (by simp))
  refine classified_eq _ _ _ _ ?_ hs hr
  rw [classify_transactionType, hs, hr, hfee]
  simp

/-- The fee test on `thresholdFeeRecord`: the sum `solChange + feeInSOL` is
rounded to `-5902958103587056 / 2^69`, below the threshold
`5902958103587057 / 2^69` in absolute value. -/
theorem isFeeTransaction_thresholdFeeRecord :
    isFeeTransaction thresholdFeeRecord [] [] = true := by
  have h0 : toDouble (-15000) = -15000 := by
    have h := toDouble_intCast (-15000) (by norm_num)
    norm_num at h ⊢
    exact h
  have e : ((999985000 : ℕ) : ℚ) - ((1000000000 : ℕ) : ℚ) = -15000 := by norm_num
  have h1 : toDouble ((-15000 : ℚ) / 10 ^ 9) = -(8854437155380585 / 2 ^ 69) := by
    rw [toDouble_eval _ (-17) (-8854437155380585) (by norm_num) (by norm_num [abs_of_neg])
      (by norm_num [abs_of_neg]) (by norm_num [abs_lt])]
    norm_num
  have h2 : toDouble ((5000 : ℚ) / 10 ^ 9) = 5902958103587057 / 2 ^ 70 := by
    rw [toDouble_eval _ (-18) 5902958103587057 (by norm_num) (by norm_num [abs_of_pos])
      (by norm_num [abs_of_pos]) (by norm_num [abs_lt])]
    norm_num
  have h3 : toDouble (-(8854437155380585 / 2 ^ 69) + 5902958103587057 / 2 ^ 70) =
      -(5902958103587056 / 2 ^ 69) := by
    rw [toDouble_eval_tie _ (-17) (-5902958103587057) (by norm_num) (by norm_num [abs_of_neg])
      (by norm_num [abs_of_neg]) (by norm_num)]
    norm_num
  rw [isFeeTransaction_iff]
  refine ⟨⟨999985000, 1000000000, rfl, rfl, ?_⟩, rfl, rfl⟩
  have hfee : ((thresholdFeeRecord.fee : ℕ) : ℚ) = 5000 := by
    norm_num [thresholdFeeRecord]
  rw [hfee, feeThreshold_eq]
  unfold jsAdd jsDiv jsSub
  rw [e, h0, h1, h2, h3]
  norm_num [abs_lt]

theorem classify_thresholdFeeRecord :
    classify thresholdFeeRecord =
      { transactionType := "Fee Payment", spentAssets := [], receivedAssets := [] } := by
  have hs : (classify thresholdFeeRecord).spentAssets = [] := rfl
  have hr : (classify thresholdFeeRecord).receivedAssets = [] := rfl
  refine classified_eq _ _ _ _ ?_ hs hr
  rw [classify_transactionType, hs, hr, isFeeTransaction_thresholdFeeRecord]
  simp

/-- The binary64 numbers of 0.4 and 0.1 and their JavaScript difference. -/
theorem toDouble_four_tenths : toDouble (4 / 10) = 7205759403792794 / 2 ^ 54 := by
  rw [toDouble_eval _ (-2) 7205759403792794 (by norm_num) (by norm_num [abs_of_pos])
    (by norm_num [abs_of_pos]) (by norm_num [abs_lt])]
  norm_num

theorem toDouble_one_tenth : toDouble (1 / 10) = 7205759403792794 / 2 ^ 56 := by
  rw [toDouble_eval _ (-4) 7205759403792794 (by norm_num) (by norm_num [abs_of_pos])
    (by norm_num [abs_of_pos]) (by norm_num [abs_lt])]
  norm_num

theorem toDouble_three_tenths : toDouble (3 / 10) = 5404319552844595 / 2 ^ 54 := by
  rw [toDouble_eval _ (-2) 5404319552844595 (by norm_num) (by norm_num [abs_of_pos])
    (by norm_num [abs_of_pos]) (by norm_num [abs_lt])]
  norm_num

theorem jsSub_one_tenth_four_tenths :
    jsSub (7205759403792794 / 2 ^ 56) (7205759403792794 / 2 ^ 54) =
      -(5404319552844596 / 2 ^ 54) := by
  unfold jsSub
  rw [toDouble_eval_tie _ (-2) (-5404319552844596) (by norm_num) (by norm_num [abs_of_neg])
    (by norm_num [abs_of_neg]) (by norm_num)]
  norm_num

theorem classify_decimalAmountsRecord :
    classify decimalAmountsRecord =
      { transactionType := "Transfer",
        spentAssets := [{ mint := USDC_MINT, amount := 5404319552844596 / 2 ^ 54 }],
        receivedAssets := [] } := by
  have hsplit : splitAssets
      (trackTokenChanges decimalAmountsRecord.preTokenBalances
        decimalAmountsRecord.postTokenBalances) [] [] =
      ([{ mint := USDC_MINT, amount := 5404319552844596 / 2 ^ 54 }], []) := by
    simp only [decimalAmountsRecord, trackTokenChanges, splitAssets, setChange, setPost,
      uiAmountOrZero, List.foldl_cons, List.foldl_nil, Option.getD_some, if_true,
      toDouble_four_tenths, toDouble_one_tenth, jsSub_one_tenth_four_tenths]
    norm_num
  have hs : (classify decimalAmountsRecord).spentAssets =
      [{ mint := USDC_MINT, amount := 5404319552844596 / 2 ^ 54 }] := by
    rw [classify_spentAssets, hsplit]
  have hr : (classify decimalAmountsRecord).receivedAssets = [] := by
    rw [classify_receivedAssets, hsplit]
  have hfee : isFeeTransaction decimalAmountsRecord
      [{ mint := USDC_MINT, amount := 5404319552844596 / 2 ^ 54 }] [] = false :=
    isFeeTransaction_false_of_ne_nil _ _ _ (Or.inl (by simp))
  refine classified_eq _ _ _ _ ?_ hs hr
  rw [classify_transactionType, hs, hr, hfee]
  simp

/-! ## Transaction classifier -/

/-- C4 fails on the code: with spent = [USDC 100] and received = [SOL 0.5] the
transaction type is "Sell SOL", not "Buy SOL". -/
theorem usdc_spent_sol_received_is_not_buy :
    (classify usdcToSolSwap).spentAssets = [{ mint := USDC_MINT, amount := 100 }] ∧
    (classify usdcToSolSwap).receivedAssets = [{ mint := SOL_MINT, amount := 1 / 2 }] ∧
    (classify usdcToSolSwap).transactionType = "Sell SOL" ∧
    (classify usdcToSolSwap).transactionType ≠ "Buy SOL" := by
  rw [classify_usdcToSolSwap]
  exact ⟨rfl, rfl, rfl, by decide⟩

/-- C5 fails on the code: with spent = [SOL 0.5] and received = [USDC 95] the
transaction type is "Buy SOL", not "Sell SOL". -/
theorem sol_spent_usdc_received_is_not_sell :
    (classify solToUsdcSwap).spentAssets = [{ mint := SOL_MINT, amount := 1 / 2 }] ∧
    (classify solToUsdcSwap).receivedAssets = [{ mint := USDC_MINT, amount := 95 }] ∧
    (classify solToUsdcSwap).transactionType = "Buy SOL" ∧
    (classify solToUsdcSwap).transactionType ≠ "Sell SOL" := by
  rw [classify_solToUsdcSwap]
  exact ⟨rfl, rfl, rfl, by decide⟩

/-- C6, as stated, fails: with pre-native 1,000,000,000, post-native
999,985,000 and fee 5,000 lamports and no token deltas,
`|post - pre + fee|` is 10,000 lamports, not below 10,000, and the type is
"Fee Payment". -/
theorem threshold_delta_is_fee_payment :
    thresholdFeeRecord.postBalances.head? = some 999985000 ∧
    thresholdFeeRecord.preBalances.head? = some 1000000000 ∧
    thresholdFeeRecord.fee = 5000 ∧
    |(999985000 : ℤ) - 1000000000 + 5000| = 10000 ∧
    ¬ |(999985000 : ℤ) - 1000000000 + 5000| < 10000 ∧
    (classify thresholdFeeRecord).spentAssets = [] ∧
    (classify thresholdFeeRecord).receivedAssets = [] ∧
    (classify thresholdFeeRecord).transactionType = "Fee Payment" := by
  rw [classify_thresholdFeeRecord]
  exact ⟨rfl, rfl, rfl, by decide, by decide, rfl, rfl, rfl⟩

/-- C6, amended. For every transaction record whose native balances of account
0 and fee are below `2^50` lamports: if the type is "Fee Payment" then both
native balances of account 0 are present with
`|postBalances[0] - preBalances[0] + fee| ≤ 10,000` lamports and both the spent
and the received list are empty; if they are present with
`|postBalances[0] - preBalances[0] + fee| < 10,000` lamports and both lists are
empty, the type is "Fee Payment"; in particular pre-native = 1.00000000,
post-native = 0.99999500, fee = 0.000005 with no token deltas is
"Fee Payment". -/
theorem fee_payment_iff_off_threshold (m : TxMeta)
    (hpost : ∀ post0, m.postBalances.head? = some post0 → post0 < 2 ^ 50)
    (hpre : ∀ pre0, m.preBalances.head? = some pre0 → pre0 < 2 ^ 50)
    (hfee : m.fee < 2 ^ 50) :
    ((classify m).transactionType = "Fee Payment" →
      (∃ post0 pre0 : ℕ, m.postBalances.head? = some post0 ∧
        m.preBalances.head? = some pre0 ∧
        |(post0 : ℤ) - (pre0 : ℤ) + (m.fee : ℤ)| ≤ 10000) ∧
      (classify m).spentAssets = [] ∧ (classify m).receivedAssets = []) ∧
    ((∃ post0 pre0 : ℕ, m.postBalances.head? = some post0 ∧
        m.preBalances.head? = some pre0 ∧
        |(post0 : ℤ) - (pre0 : ℤ) + (m.fee : ℤ)| < 10000) ∧
      (classify m).spentAssets = [] ∧ (classify m).receivedAssets = [] →
      (classify m).transactionType = "Fee Payment") ∧
    (classify feeOnlyPayment).transactionType = "Fee Payment" := by
  have h := isFeeTransaction_lamports m (classify m).spentAssets (classify m).receivedAssets
    hpost hpre hfee
  refine ⟨fun ht => h.1 ((transactionType_eq_fee_iff m).1 ht),
    fun hc => (transactionType_eq_fee_iff m).2 (h.2 hc), ?_⟩
  rw [classify_feeOnlyPayment]

/-- C6, amended, at the record with pre-native 1.00000000, post-native
0.99999500 and fee 0.000005. -/
theorem fee_payment_iff_off_threshold_witness :
    ((classify feeOnlyPayment).transactionType = "Fee Payment" →
      (∃ post0 pre0 : ℕ, feeOnlyPayment.postBalances.head? = some post0 ∧
        feeOnlyPayment.preBalances.head? = some pre0 ∧
        |(post0 : ℤ) - (pre0 : ℤ) + (feeOnlyPayment.fee : ℤ)| ≤ 10000) ∧
      (classify feeOnlyPayment).spentAssets = [] ∧
      (classify feeOnlyPayment).receivedAssets = []) ∧
    ((∃ post0 pre0 : ℕ, feeOnlyPayment.postBalances.head? = some post0 ∧
        feeOnlyPayment.preBalances.head? = some pre0 ∧
        |(post0 : ℤ) - (pre0 : ℤ) + (feeOnlyPayment.fee : ℤ)| < 10000) ∧
      (classify feeOnlyPayment).spentAssets = [] ∧
      (classify feeOnlyPayment).receivedAssets = [] →
      (classify feeOnlyPayment).transactionType = "Fee Payment") ∧
    (classify feeOnlyPayment).transactionType = "Fee Payment" :=
  fee_payment_iff_off_threshold feeOnlyPayment
    (fun x hx => by
      simp only [feeOnlyPayment, List.head?_cons, Option.some.injEq] at hx
      subst hx
      norm_num)
    (fun x hx => by
      simp only [feeOnlyPayment, List.head?_cons, Option.some.injEq] at hx
      subst hx
      norm_num)
    (by norm_num [feeOnlyPayment])

/-- C7. For every transaction record with at least one spent asset and at
least one received asset the type is not "Fee Payment", whatever the native
balances and the fee are. -/
theorem swap_is_never_fee_payment (m : TxMeta)
    (hs : 1 ≤ (classify m).spentAssets.length) (hr : 1 ≤ (classify m).receivedAssets.length) :
    (classify m).transactionType ≠ "Fee Payment" := by
  have hs0 : (classify m).spentAssets ≠ [] := by
    intro e
    rw [e] at hs
    simp at hs
  have hr0 : (classify m).receivedAssets ≠ [] := by
    intro e
    rw [e] at hr
    simp at hr
  rw [classify_transactionType]
  simp only [hs0, hr0, ne_eq, not_false_eq_true, and_self, if_true]
  split_ifs <;> decide

/-- C7 at a USDC → SOL swap whose native delta is exactly minus the fee. -/
theorem swap_is_never_fee_payment_witness :
    (classify usdcToSolSwap).transactionType ≠ "Fee Payment" :=
  swap_is_never_fee_payment usdcToSolSwap
    (by rw [classify_usdcToSolSwap]; simp) (by rw [classify_usdcToSolSwap]; simp)

/-- C8, as stated, fails: a mint that occurs only in the post set, with the
positive amount 0.5, is not listed in the received assets. -/
theorem post_only_mint_is_not_received :
    lastAmount postOnlyReceipt.preTokenBalances SOL_MINT = none ∧
    lastAmount postOnlyReceipt.postTokenBalances SOL_MINT = some (1 / 2) ∧
    (classify postOnlyReceipt).receivedAssets = [] ∧
    { mint := SOL_MINT, amount := 1 / 2 } ∉ (classify postOnlyReceipt).receivedAssets := by
  rw [classify_postOnlyReceipt]
  refine ⟨rfl, ?_, rfl, by simp⟩
  simp only [postOnlyReceipt, lastAmount, uiAmountOrZero, if_true, Option.getD_some,
    toDouble_one_half]

/-- C8, amended. For every transaction record the classifier computes a delta
`post - pre` for every mint that occurs in the pre set, and for no other mint:
`tokenChanges` has an entry for exactly these mints, holding the amount of a
pre entry of the mint as `pre` and the amount of a post entry of the mint as
`post`, or 0 when the mint is missing from the post set (`lastAmount` names the
entry).  The mint is listed in the spent assets with the absolute value of the
JavaScript difference `post - pre` exactly when that difference is negative,
that is when `post < pre`, and in the received assets with the difference
exactly when it is positive, that is when `pre < post`; a mint that occurs
only in the post set is listed in neither. -/
theorem delta_for_every_pre_mint (m : TxMeta) :
    (∀ mint : String,
      (∃ c, getChange (trackTokenChanges m.preTokenBalances m.postTokenBalances) mint = some c) ↔
        ∃ b ∈ m.preTokenBalances, b.mint = mint) ∧
    (∀ (mint : String) (c : Change),
      getChange (trackTokenChanges m.preTokenBalances m.postTokenBalances) mint = some c →
      lastAmount m.preTokenBalances mint = some c.pre ∧
      c.post = (lastAmount m.postTokenBalances mint).getD 0 ∧
      (∃ b ∈ m.preTokenBalances, b.mint = mint ∧ c.pre = uiAmountOrZero b) ∧
      ((∀ b ∈ m.postTokenBalances, b.mint ≠ mint) → c.post = 0) ∧
      (jsSub c.post c.pre < 0 ↔ c.post < c.pre) ∧ (jsSub c.post c.pre > 0 ↔ c.pre < c.post)) ∧
    (∀ a : Asset, a ∈ (classify m).spentAssets ↔
      ∃ p, lastAmount m.preTokenBalances a.mint = some p ∧
        jsSub ((lastAmount m.postTokenBalances a.mint).getD 0) p < 0 ∧
        a.amount = |jsSub ((lastAmount m.postTokenBalances a.mint).getD 0) p|) ∧
    (∀ a : Asset, a ∈ (classify m).receivedAssets ↔
      ∃ p, lastAmount m.preTokenBalances a.mint = some p ∧
        jsSub ((lastAmount m.postTokenBalances a.mint).getD 0) p > 0 ∧
        a.amount = jsSub ((lastAmount m.postTokenBalances a.mint).getD 0) p) ∧
    (∀ a : Asset, (∀ b ∈ m.preTokenBalances, b.mint ≠ a.mint) →
      a ∉ (classify m).spentAssets ∧ a ∉ (classify m).receivedAssets) := by
  refine ⟨?_, ?_, mem_spentAssets_iff m, mem_receivedAssets_iff m, ?_⟩
  · intro mint
    rw [getChange_trackTokenChanges]
    cases h : lastAmount m.preTokenBalances mint with
    | none =>
      have hn := (lastAmount_eq_none_iff _ _).1 h
      constructor
      · rintro ⟨c, hc⟩
        cases hc
      · rintro ⟨b, hb, hm⟩
        exact absurd hm (hn b hb)
    | some p =>
      obtain ⟨b, hb, hm, -⟩ := lastAmount_eq_some _ _ _ h
      exact ⟨fun _ => ⟨b, hb, hm⟩, fun _ => ⟨_, rfl⟩⟩
  · intro mint c hc
    rw [getChange_trackTokenChanges] at hc
    cases h : lastAmount m.preTokenBalances mint with
    | none =>
      rw [h] at hc
      cases hc
    | some p =>
      rw [h] at hc
      simp only [Option.some.injEq] at hc
      subst hc
      have hp := toDouble_lastAmount _ _ _ h
      have hq := toDouble_lastAmount_getD m.postTokenBalances mint
      refine ⟨rfl, rfl, ?_, ?_, jsSub_neg_iff _ _ hq hp, jsSub_pos_iff _ _ hq hp⟩
      · obtain ⟨b, hb, hm, hpb⟩ := lastAmount_eq_some _ _ _ h
        exact ⟨b, hb, hm, hpb⟩
      · intro hall
        rw [(lastAmount_eq_none_iff _ _).2 hall]
        rfl
  · intro a ha
    have hn := (lastAmount_eq_none_iff _ _).2 ha
    constructor
    · rw [mem_spentAssets_iff, hn]
      simp
    · rw [mem_receivedAssets_iff, hn]
      simp

/-- C24. For every transaction record with at least one spent and at least one
received asset that is neither (USDC spent and SOL received) nor (SOL spent and
USDC received), the transaction type is the generic "Swap". -/
theorem other_pair_is_generic_swap (m : TxMeta)
    (hs : 1 ≤ (classify m).spentAssets.length) (hr : 1 ≤ (classify m).receivedAssets.length)
    (h1 : ¬ ((∃ a ∈ (classify m).spentAssets, a.mint = USDC_MINT) ∧
      (∃ b ∈ (classify m).receivedAssets, b.mint = SOL_MINT)))
    (h2 : ¬ ((∃ a ∈ (classify m).spentAssets, a.mint = SOL_MINT) ∧
      (∃ b ∈ (classify m).receivedAssets, b.mint = USDC_MINT))) :
    (classify m).transactionType = "Swap" := by
  have hs0 : (classify m).spentAssets ≠ [] := by
    intro e
    rw [e] at hs
    simp at hs
  have hr0 : (classify m).receivedAssets ≠ [] := by
    intro e
    rw [e] at hr
    simp at hr
  rw [← hasMint_iff, ← hasMint_iff] at h1 h2
  rw [classify_transactionType]
  simp only [hs0, hr0, ne_eq, not_false_eq_true, and_self, if_true, h1, h2, if_false]

/-- C24 at a record with spent = [USDC 100] and received = [1000 of another token]. -/
theorem other_pair_is_generic_swap_witness :
    (classify usdcToOtherSwap).transactionType = "Swap" :=
  other_pair_is_generic_swap usdcToOtherSwap
    (by rw [classify_usdcToOtherSwap]; simp) (by rw [classify_usdcToOtherSwap]; simp)
    (by rw [classify_usdcToOtherSwap]; simp; decide)
    (by rw [classify_usdcToOtherSwap]; simp; decide)

/-- C25. For every transaction record that passes neither the fee-only test nor
the swap test (the spent or the received list is empty, and the fee test
`isFeeTransaction` of the code is false) the transaction type is "Transfer": so
it is with exactly one spent asset and none received, in the default case, and
when the spent or the received list is empty and the native delta without the
fee is above 10,000 lamports (balances and fee below `2^50` lamports) or a
native balance of account 0 is missing; the type is never "Token Transfer". -/
theorem neither_fee_nor_swap_is_transfer :
    (∀ m : TxMeta,
      ((classify m).spentAssets = [] ∨ (classify m).receivedAssets = []) →
      isFeeTransaction m (classify m).spentAssets (classify m).receivedAssets = false →
      (classify m).transactionType = "Transfer") ∧
    (∀ m : TxMeta, (classify m).spentAssets.length = 1 → (classify m).receivedAssets = [] →
      (classify m).transactionType = "Transfer") ∧
    (∀ (m : TxMeta) (post0 pre0 : ℕ),
      ((classify m).spentAssets = [] ∨ (classify m).receivedAssets = []) →
      m.postBalances.head? = some post0 → m.preBalances.head? = some pre0 →
      post0 < 2 ^ 50 → pre0 < 2 ^ 50 → m.fee < 2 ^ 50 →
      10000 < |(post0 : ℤ) - (pre0 : ℤ) + (m.fee : ℤ)| →
      (classify m).transactionType = "Transfer") ∧
    (∀ m : TxMeta,
      ((classify m).spentAssets = [] ∨ (classify m).receivedAssets = []) →
      (m.postBalances.head? = none ∨ m.preBalances.head? = none) →
      (classify m).transactionType = "Transfer") ∧
    (∀ m : TxMeta, (classify m).transactionType ≠ "Token Transfer") ∧
    (∀ m : TxMeta, (classify m).transactionType = "Transfer" ∨
      (classify m).transactionType = "Fee Payment" ∨
      (classify m).transactionType = "Sell SOL" ∨
      (classify m).transactionType = "Buy SOL" ∨
      (classify m).transactionType = "Swap") ∧
    (classify closedAccountRecord).transactionType = "Transfer" ∧
    (classify nativeTransferRecord).transactionType = "Transfer" := by
  have hvalues : ∀ m : TxMeta, (classify m).transactionType = "Transfer" ∨
      (classify m).transactionType = "Fee Payment" ∨
      (classify m).transactionType = "Sell SOL" ∨
      (classify m).transactionType = "Buy SOL" ∨
      (classify m).transactionType = "Swap" := by
    intro m
    rw [classify_transactionType]
    split_ifs <;> simp
  have hgeneral : ∀ m : TxMeta,
      ((classify m).spentAssets = [] ∨ (classify m).receivedAssets = []) →
      isFeeTransaction m (classify m).spentAssets (classify m).receivedAssets = false →
      (classify m).transactionType = "Transfer" := by
    intro m hempty hfee
    have hno : ¬ ((classify m).spentAssets ≠ [] ∧ (classify m).receivedAssets ≠ []) := by
      rintro ⟨h1, h2⟩
      rcases hempty with h | h
      · exact h1 h
      · exact h2 h
    rw [classify_transactionType]
    simp only [hno, if_false, hfee, Bool.false_eq_true]
  refine ⟨hgeneral, ?_, ?_, ?_, ?_, hvalues, by rw [classify_closedAccountRecord],
    by rw [classify_nativeTransferRecord]⟩
  · intro m hs hr
    have hs0 : (classify m).spentAssets ≠ [] := by
      intro e
      rw [e] at hs
      simp at hs
    exact hgeneral m (Or.inr hr)
      (isFeeTransaction_false_of_ne_nil m (classify m).spentAssets
        (classify m).receivedAssets (Or.inl hs0))
  · intro m post0 pre0 hempty hpost hpre hb1 hb2 hfee hgt
    exact hgeneral m hempty
      ((isFeeTransaction_of_heads m _ _ post0 pre0 hpost hpre hb1 hb2 hfee).2 hgt)
  · intro m hempty hmissing
    refine hgeneral m hempty ?_
    by_contra hn
    rw [Bool.not_eq_false, isFeeTransaction_iff] at hn
    obtain ⟨⟨p, q, h1, h2, -⟩, -, -⟩ := hn
    rcases hmissing with h | h
    · rw [h] at h1
      cases h1
    · rw [h] at h2
      cases h2
  · intro m h
    rcases hvalues m with e | e | e | e | e <;> rw [e] at h <;> exact absurd h (by decide)

/-- C28, as stated, fails: with the USDC amounts 0.4 before and 0.1 after, the
spent amount is `5404319552844596 / 2^54` (0.30000000000000004): it is not the
difference 0.3 of the two amounts, not the binary64 number of 0.3, and not the
exact difference of the binary64 numbers of 0.4 and 0.1. -/
theorem decimal_delta_amount_is_rounded :
    decimalAmountsRecord.preTokenBalances = [⟨1, USDC_MINT, "owner", some (4 / 10)⟩] ∧
    decimalAmountsRecord.postTokenBalances = [⟨1, USDC_MINT, "owner", some (1 / 10)⟩] ∧
    (classify decimalAmountsRecord).spentAssets =
      [{ mint := USDC_MINT, amount := 5404319552844596 / 2 ^ 54 }] ∧
    (5404319552844596 / 2 ^ 54 : ℚ) ≠ |(1 / 10 : ℚ) - 4 / 10| ∧
    (5404319552844596 / 2 ^ 54 : ℚ) ≠ toDouble |(1 / 10 : ℚ) - 4 / 10| ∧
    (5404319552844596 / 2 ^ 54 : ℚ) ≠ |toDouble (1 / 10) - toDouble (4 / 10)| := by
  rw [classify_decimalAmountsRecord, toDouble_one_tenth, toDouble_four_tenths]
  have h3 : toDouble |(1 / 10 : ℚ) - 4 / 10| = 5404319552844595 / 2 ^ 54 := by
    have e : |(1 / 10 : ℚ) - 4 / 10| = 3 / 10 := by norm_num [abs_of_neg]
    rw [e, toDouble_three_tenths]
  rw [h3]
  refine ⟨rfl, rfl, rfl, ?_, ?_, ?_⟩
  · norm_num [abs_of_neg]
  · norm_num
  · norm_num [abs_of_neg]

/-- C28, amended. For every transaction record every entry of the spent and of
the received assets has a strictly positive amount, equal to the absolute value
of the JavaScript (binary64) difference `post - pre` for its mint (`pre` and
`post` as recorded in `tokenChanges`), which is the exact `|post - pre|` rounded
to the nearest binary64 number; each mint occurs at most once in the two lists
together; a mint with zero delta occurs in neither list. -/
theorem asset_lists_are_positive_and_distinct (m : TxMeta) :
    (∀ a ∈ (classify m).spentAssets ++ (classify m).receivedAssets,
      0 < a.amount ∧
      ∃ p, lastAmount m.preTokenBalances a.mint = some p ∧
        a.amount = |jsSub ((lastAmount m.postTokenBalances a.mint).getD 0) p| ∧
        a.amount = toDouble |(lastAmount m.postTokenBalances a.mint).getD 0 - p| ∧
        |a.amount - abs ((lastAmount m.postTokenBalances a.mint).getD 0 - p)| ≤
          abs ((lastAmount m.postTokenBalances a.mint).getD 0 - p) / 2 ^ 53 + 1 / 2 ^ 100) ∧
    (((classify m).spentAssets ++ (classify m).receivedAssets).map Asset.mint).Nodup ∧
    (∀ a ∈ (classify m).spentAssets ++ (classify m).receivedAssets,
      ∀ p, lastAmount m.preTokenBalances a.mint = some p →
        (lastAmount m.postTokenBalances a.mint).getD 0 - p ≠ 0) := by
  have habs : ∀ x : ℚ, |toDouble x| = toDouble |x| := by
    intro x
    rcases le_total 0 x with hx | hx
    · rw [abs_of_nonneg hx, abs_of_nonneg (toDouble_nonneg x hx)]
    · rw [abs_of_nonpos hx, abs_of_nonpos (toDouble_nonpos x hx), toDouble_neg]
  have hfacts : ∀ (q p amount : ℚ), amount = |jsSub q p| →
      amount = toDouble |q - p| ∧
        |amount - abs (q - p)| ≤ abs (q - p) / 2 ^ 53 + 1 / 2 ^ 100 := by
    intro q p amount h
    have e : amount = toDouble |q - p| := by rw [h, jsSub, habs]
    refine ⟨e, ?_⟩
    rw [e]
    have := abs_toDouble_sub_le_pow |q - p|
    rwa [abs_abs] at this
  have hzero : ∀ (q p : ℚ), jsSub q p ≠ 0 → q - p ≠ 0 := by
    intro q p h e
    apply h
    rw [jsSub, e, toDouble_zero]
  refine ⟨?_, ?_, ?_⟩
  · intro a ha
    rcases List.mem_append.1 ha with h | h
    · obtain ⟨p, hp, hneg, hamt⟩ := (mem_spentAssets_iff m a).1 h
      obtain ⟨h1, h2⟩ := hfacts _ _ _ hamt
      exact ⟨by rw [hamt]; exact abs_pos.2 hneg.ne, p, hp, hamt, h1, h2⟩
    · obtain ⟨p, hp, hpos, hamt⟩ := (mem_receivedAssets_iff m a).1 h
      have hamt2 : a.amount = |jsSub ((lastAmount m.postTokenBalances a.mint).getD 0) p| := by
        rw [hamt, abs_of_pos hpos]
      obtain ⟨h1, h2⟩ := hfacts _ _ _ hamt2
      exact ⟨by rw [hamt]; exact hpos, p, hp, hamt2, h1, h2⟩
  · rw [List.map_append, List.nodup_append]
    refine ⟨(nodup_mints m).1, (nodup_mints m).2, ?_⟩
    intro x hx hy
    obtain ⟨a, ha, rfl⟩ := List.mem_map.1 hx
    obtain ⟨b, hb, hab⟩ := List.mem_map.1 hy
    exact spent_received_disjoint m a b ha hb hab.symm
  · intro a ha p hp
    rcases List.mem_append.1 ha with h | h
    · obtain ⟨q, hq, hneg, -⟩ := (mem_spentAssets_iff m a).1 h
      rw [hp] at hq
      cases hq
      exact hzero _ _ hneg.ne
    · obtain ⟨q, hq, hpos, -⟩ := (mem_receivedAssets_iff m a).1 h
      rw [hp] at hq
      cases hq
      exact hzero _ _ hpos.ne'

/-- C29. For every transaction record, a mint whose (last) pre entry has the
positive amount `p` and that does not occur in the post token balances is taken
with post balance 0 and listed in the spent assets with amount `p`; a `null`
`uiAmount` counts as 0 on its side: with a `null` last post entry the mint is
spent with amount `p`, and with a `null` last pre entry and a positive post
amount `q` it is received with amount `q`. -/
theorem vanished_mint_is_spent (m : TxMeta) (mint : String) :
    (∀ p, lastAmount m.preTokenBalances mint = some p → 0 < p →
      (∀ b ∈ m.postTokenBalances, b.mint ≠ mint) →
      getChange (trackTokenChanges m.preTokenBalances m.postTokenBalances) mint =
        some { pre := p, post := 0 } ∧
      { mint := mint, amount := p } ∈ (classify m).spentAssets) ∧
    (∀ p front b back, lastAmount m.preTokenBalances mint = some p → 0 < p →
      m.postTokenBalances = front ++ b :: back → b.mint = mint →
      (∀ c ∈ back, c.mint ≠ mint) → b.uiAmount = none →
      { mint := mint, amount := p } ∈ (classify m).spentAssets) ∧
    (∀ q front b back, m.preTokenBalances = front ++ b :: back → b.mint = mint →
      (∀ c ∈ back, c.mint ≠ mint) → b.uiAmount = none →
      lastAmount m.postTokenBalances mint = some q → 0 < q →
      { mint := mint, amount := q } ∈ (classify m).receivedAssets) ∧
    { mint := USDC_MINT, amount := 100 } ∈ (classify closedAccountRecord).spentAssets ∧
    { mint := USDC_MINT, amount := 100 } ∈ (classify nullPostAmountRecord).spentAssets := by
  have hspent : ∀ (m : TxMeta) (mint : String) (p : ℚ),
      lastAmount m.preTokenBalances mint = some p → 0 < p →
      (lastAmount m.postTokenBalances mint).getD 0 = 0 →
      { mint := mint, amount := p } ∈ (classify m).spentAssets := by
    intro m mint p hpre hp hpost
    have hd := toDouble_lastAmount _ _ _ hpre
    rw [mem_spentAssets_iff]
    refine ⟨p, hpre, ?_, ?_⟩
    · simp only [hpost, jsSub_zero_left p hd]
      linarith
    · simp only [hpost, jsSub_zero_left p hd, abs_neg]
      exact (abs_of_pos hp).symm
  refine ⟨?_, ?_, ?_, ?_, ?_⟩
  · intro p hpre hp hpost
    have hnone := (lastAmount_eq_none_iff m.postTokenBalances mint).2 hpost
    refine ⟨?_, hspent m mint p hpre hp (by rw [hnone]; rfl)⟩
    rw [getChange_trackTokenChanges, hpre, hnone]
    rfl
  · intro p front b back hpre hp hlist hb hback hnull
    refine hspent m mint p hpre hp ?_
    rw [hlist, lastAmount_append_cons front back b mint hb hback]
    simp [uiAmountOrZero, hnull]
  · intro q front b back hlist hb hback hnull hpost hq
    have hd := toDouble_lastAmount _ _ _ hpost
    rw [mem_receivedAssets_iff]
    refine ⟨0, ?_, ?_, ?_⟩
    · rw [hlist, lastAmount_append_cons front back b mint hb hback]
      simp [uiAmountOrZero, hnull]
    · simp only [hpost, Option.getD_some, jsSub_zero_right q hd]
      exact hq
    · simp only [hpost, Option.getD_some, jsSub_zero_right q hd]
  · exact (hspent closedAccountRecord USDC_MINT 100
      (by simp [closedAccountRecord, lastAmount, uiAmountOrZero, toDouble_one_hundred])
      (by norm_num) (by simp [closedAccountRecord, lastAmount]))
  · exact (hspent nullPostAmountRecord USDC_MINT 100
      (by simp [nullPostAmountRecord, lastAmount, uiAmountOrZero, toDouble_one_hundred])
      (by norm_num) (by simp [nullPostAmountRecord, lastAmount, uiAmountOrZero]))

/-! ## What the classifier reads -/

/-- The object `tokenChanges` depends on the mint and the `uiAmount` of the
entries only. -/
theorem trackTokenChanges_congr (pre post pre2 post2 : List TokenBalance)
    (hpre : pre.map (fun b => (b.mint, b.uiAmount)) = pre2.map (fun b => (b.mint, b.uiAmount)))
    (hpost : post.map (fun b => (b.mint, b.uiAmount)) =
      post2.map (fun b => (b.mint, b.uiAmount))) :
    trackTokenChanges pre post = trackTokenChanges pre2 post2 := by
  have h1 : ∀ (l : List TokenBalance) (tc : TokenChanges),
      l.foldl (fun tc b => setChange tc b.mint { pre := uiAmountOrZero b, post := 0 }) tc =
        (l.map (fun b => (b.mint, b.uiAmount))).foldl
          (fun tc p => setChange tc p.1 { pre := toDouble (p.2.getD 0), post := 0 }) tc := by
    intro l tc
    rw [List.foldl_map]
    rfl
  have h2 : ∀ (l : List TokenBalance) (tc : TokenChanges),
      l.foldl (fun tc b => setPost tc b.mint (uiAmountOrZero b)) tc =
        (l.map (fun b => (b.mint, b.uiAmount))).foldl
          (fun tc p => setPost tc p.1 (toDouble (p.2.getD 0))) tc := by
    intro l tc
    rw [List.foldl_map]
    rfl
  unfold trackTokenChanges
  simp only [h1, h2, hpre, hpost]

/-- The fee test depends on the native balances of account 0 and the fee only. -/
theorem isFeeTransaction_congr (m m2 : TxMeta) (s r : List Asset)
    (hpre : m.preBalances.head? = m2.preBalances.head?)
    (hpost : m.postBalances.head? = m2.postBalances.head?) (hfee : m.fee = m2.fee) :
    isFeeTransaction m s r = isFeeTransaction m2 s r := by
  unfold isFeeTransaction
  rw [hpre, hpost, hfee]

/-- The classifier depends on the mint and the `uiAmount` of the token entries,
the native balances of account 0 and the fee only. -/
theorem classify_congr (m m2 : TxMeta)
    (hpre : m.preTokenBalances.map (fun b => (b.mint, b.uiAmount)) =
      m2.preTokenBalances.map (fun b => (b.mint, b.uiAmount)))
    (hpost : m.postTokenBalances.map (fun b => (b.mint, b.uiAmount)) =
      m2.postTokenBalances.map (fun b => (b.mint, b.uiAmount)))
    (hnpre : m.preBalances.head? = m2.preBalances.head?)
    (hnpost : m.postBalances.head? = m2.postBalances.head?) (hfee : m.fee = m2.fee) :
    classify m = classify m2 := by
  unfold classify
  rw [trackTokenChanges_congr _ _ _ _ hpre hpost]
  simp only [isFeeTransaction_congr m m2 _ _ hnpre hnpost hfee]

/-- C27, as stated, fails: two records with the same entries of the owner, the
same native balances and the same fee, one of which also has the USDC account
of another owner, have different received assets and transaction types. -/
theorem other_owners_entries_change_the_result :
    ownerAndPoolRecord.preTokenBalances.filter (fun b => b.owner = "owner") =
      ownerOnlyRecord.preTokenBalances ∧
    ownerAndPoolRecord.postTokenBalances.filter (fun b => b.owner = "owner") =
      ownerOnlyRecord.postTokenBalances ∧
    ownerAndPoolRecord.preBalances = ownerOnlyRecord.preBalances ∧
    ownerAndPoolRecord.postBalances = ownerOnlyRecord.postBalances ∧
    ownerAndPoolRecord.fee = ownerOnlyRecord.fee ∧
    (classify ownerOnlyRecord).receivedAssets = [] ∧
    (classify ownerAndPoolRecord).receivedAssets = [{ mint := USDC_MINT, amount := 100 }] ∧
    (classify ownerOnlyRecord).transactionType = "Fee Payment" ∧
    (classify ownerAndPoolRecord).transactionType = "Transfer" := by
  rw [classify_ownerOnlyRecord, classify_ownerAndPoolRecord]
  refine ⟨by decide, by decide, rfl, rfl, rfl, rfl, rfl, rfl, rfl⟩

/-- C27, amended. The classifier reads the mint and the `uiAmount` of every
token-balance entry, whatever its owner, the native balances of account 0 and
the fee: for every two records that agree on these, differing in the owner or
the account index of entries or in the native balances of other accounts, the
spent assets, the received assets and the transaction type are the same. -/
theorem classifier_ignores_owner_fields (m m2 : TxMeta)
    (hpre : m.preTokenBalances.map (fun b => (b.mint, b.uiAmount)) =
      m2.preTokenBalances.map (fun b => (b.mint, b.uiAmount)))
    (hpost : m.postTokenBalances.map (fun b => (b.mint, b.uiAmount)) =
      m2.postTokenBalances.map (fun b => (b.mint, b.uiAmount)))
    (hnpre : m.preBalances.head? = m2.preBalances.head?)
    (hnpost : m.postBalances.head? = m2.postBalances.head?) (hfee : m.fee = m2.fee) :
    (classify m).spentAssets = (classify m2).spentAssets ∧
    (classify m).receivedAssets = (classify m2).receivedAssets ∧
    (classify m).transactionType = (classify m2).transactionType := by
  rw [classify_congr m m2 hpre hpost hnpre hnpost hfee]
  exact ⟨rfl, rfl, rfl⟩

/-- C27, amended, at a swap record and its copy with other owners, account
indices and a second native account. -/
theorem classifier_ignores_owner_fields_witness :
    (classify usdcToSolSwap).spentAssets = (classify relabelledSwap).spentAssets ∧
    (classify usdcToSolSwap).receivedAssets = (classify relabelledSwap).receivedAssets ∧
    (classify usdcToSolSwap).transactionType = (classify relabelledSwap).transactionType :=
  classifier_ignores_owner_fields usdcToSolSwap relabelledSwap rfl rfl rfl rfl rfl

/-! ## Validation and trade size -/

/-- A quote request in the handler's trace is the request for the trade built
from the balances just read. -/
theorem handler_quote_mem (w : World) (indicator : Indicator) (i o : String) (amount : ℤ)
    (slippage : ℕ) (h : Call.quote i o amount slippage ∈ (handler w indicator).2) :
    ∃ balances trade, (fetchBalances w).1 = .ok balances ∧
      buildTrade indicator balances = .ok trade ∧
      i = trade.fromToken ∧ o = trade.toToken ∧ amount = trade.amount ∧ slippage = 50 := by
  unfold handler at h
  by_cases ht : indicator.truthy = true
  · simp only [ht, Bool.not_true, Bool.false_eq_true, if_false] at h
    have htr := fetchBalances_trace w
    rcases hfb : fetchBalances w with ⟨r, t⟩
    rw [hfb] at h htr
    have hnt : Call.quote i o amount slippage ∉ t := by
      intro hm
      rcases htr _ hm with e | e <;> cases e
    cases r with
    | error e => exact absurd h hnt
    | ok balances =>
      dsimp only at h
      cases hb : buildTrade indicator balances with
      | error response =>
        rw [hb] at h
        exact absurd h hnt
      | ok trade =>
        rw [hb] at h
        dsimp only at h
        obtain ⟨extra, he, hall⟩ := executeTrade_trace w trade t
        rw [he] at h
        simp only [List.mem_append, List.mem_singleton] at h
        rcases h with (h | h) | h
        · exact absurd h hnt
        · injection h with h1 h2 h3 h4
          exact ⟨balances, trade, rfl, hb, h1, h2, h3, h4⟩
        · have := hall _ h
          simp [Call.isQuote] at this
  · simp [ht] at h

/-- C11. For every request whose body has no indicator (absent, `null` or the
empty string) the response status is 400 and the handler makes no outbound
call at all. -/
theorem missing_indicator_is_rejected_without_calls (w : World) :
    ((handler w .absent).1.status = 400 ∧ (handler w .absent).2 = []) ∧
    ((handler w .null).1.status = 400 ∧ (handler w .null).2 = []) ∧
    ((handler w (.str "")).1.status = 400 ∧ (handler w (.str "")).2 = []) ∧
    ∀ indicator : Indicator, indicator.truthy = false →
      (handler w indicator).1.status = 400 ∧ (handler w indicator).2 = [] := by
  have key : ∀ indicator : Indicator, indicator.truthy = false →
      (handler w indicator).1.status = 400 ∧ (handler w indicator).2 = [] := by
    intro indicator h
    simp [handler, h]
  exact ⟨key _ rfl, key _ rfl, key _ (by decide), key⟩

/-- C12 fails on the code for "bullish": with no USDC token account the amount
is `⌊0 * 10^6⌋ = 0`, and the handler still sends the quote request, with
amount 0; the refusal of the quote service is answered with 500. -/
theorem bullish_zero_amount_reaches_quote :
    (fetchBalances emptyWalletWorld).1 = .ok { sol := ((50000000 : ℕ) : ℚ) / 10 ^ 9, usdc := 0 } ∧
    (handler emptyWalletWorld (.str "bullish")).2 =
      [.getBalance, .getParsedTokenAccountsByOwner, .quote USDC_MINT SOL_MINT 0 50] ∧
    (handler emptyWalletWorld (.str "bullish")).1.status = 500 := by
  have hf : fetchBalances emptyWalletWorld =
      (.ok { sol := ((50000000 : ℕ) : ℚ) / 10 ^ 9, usdc := 0 },
        [.getBalance, .getParsedTokenAccountsByOwner]) := rfl
  have hb : buildTrade (.str "bullish") { sol := ((50000000 : ℕ) : ℚ) / 10 ^ 9, usdc := 0 } =
      .ok { fromToken := USDC_MINT, toToken := SOL_MINT, amount := 0 } := by
    simp [buildTrade, bullishAmount_zero]
  have ht : (Indicator.str "bullish").truthy = true := by decide
  have hh : handler emptyWalletWorld (.str "bullish") =
      executeTrade emptyWalletWorld { fromToken := USDC_MINT, toToken := SOL_MINT, amount := 0 }
        [.getBalance, .getParsedTokenAccountsByOwner] := by
    simp only [handler, ht, hf, hb]
    rfl
  rw [hh]
  refine ⟨by rw [hf], ?_, ?_⟩ <;>
    simp [executeTrade, emptyWalletWorld, caught]

/-- C13, as stated, fails: with a native balance of `2^53` lamports the trade
built and quoted for "bearish" has the amount 9,007,199,244,740,993, one more
than `(sol - 0.01) * 10^9`, so that 9,999,999 lamports are left. -/
theorem large_balance_trade_cuts_into_reserve :
    (fetchBalances largeBalanceWorld).1 =
        .ok { sol := ((9007199254740992 : ℕ) : ℚ) / 10 ^ 9, usdc := 7 / 2 } ∧
    buildTrade (.str "bearish") { sol := ((9007199254740992 : ℕ) : ℚ) / 10 ^ 9, usdc := 7 / 2 } =
        .ok { fromToken := SOL_MINT, toToken := USDC_MINT, amount := 9007199244740993 } ∧
    (((9007199254740992 : ℕ) : ℚ) / 10 ^ 9 - 1 / 100) * 10 ^ 9 = 9007199244740992 ∧
    ¬ ((9007199244740993 : ℤ) : ℚ) ≤ (((9007199254740992 : ℕ) : ℚ) / 10 ^ 9 - 1 / 100) * 10 ^ 9 ∧
    ((9007199254740992 : ℕ) : ℚ) / 10 ^ 9 * 10 ^ 9 - ((9007199244740993 : ℤ) : ℚ) = 9999999 ∧
    Call.quote SOL_MINT USDC_MINT 9007199244740993 50 ∈
      (handler largeBalanceWorld (.str "bearish")).2 := by
  have h := (handler_bearish largeBalanceWorld
    { sol := ((9007199254740992 : ℕ) : ℚ) / 10 ^ 9, usdc := 7 / 2 } rfl).1
    (by rw [bearishAmount_large]; norm_num)
  rw [bearishAmount_large] at h
  refine ⟨rfl, h.1, by norm_num, by norm_num, by norm_num, ?_⟩
  have hm : Call.quote SOL_MINT USDC_MINT 9007199244740993 50 ∈
      (handler largeBalanceWorld (.str "bearish")).2.filter Call.isQuote := by
    rw [h.2]
    exact List.mem_singleton.2 rfl
  exact (List.mem_filter.1 hm).1

/-- C13, amended. For every signal and every balance snapshot of `units` USDC
base units and `lamports` lamports, both below `2^50`, for which a trade is
built, the amount does not exceed the balance just read: for "bullish" it is
at most `usdc * 10^6`, for "bearish" at most `(sol - 0.01) * 10^9`, so that at
least 10,000,000 lamports stay untouched; every quote request of the handler
carries such an amount. -/
theorem trade_never_exceeds_balance_below_bound (w : World) (indicator : Indicator)
    (balances : Balances) (units lamports : ℕ)
    (hbal : (fetchBalances w).1 = .ok balances)
    (husdc : balances.usdc = (units : ℚ) / 10 ^ 6)
    (hsol : balances.sol = (lamports : ℚ) / 10 ^ 9)
    (hunits : units < 2 ^ 50) (hlamports : lamports < 2 ^ 50) :
    (∀ trade, buildTrade indicator balances = .ok trade →
      (indicator = .str "bullish" ∧ trade.fromToken = USDC_MINT ∧
        (trade.amount : ℚ) ≤ balances.usdc * 10 ^ 6) ∨
      (indicator = .str "bearish" ∧ trade.fromToken = SOL_MINT ∧
        (trade.amount : ℚ) ≤ (balances.sol - 1 / 100) * 10 ^ 9 ∧
        (10000000 : ℚ) ≤ balances.sol * 10 ^ 9 - (trade.amount : ℚ))) ∧
    (∀ i o amount slippage, Call.quote i o amount slippage ∈ (handler w indicator).2 →
      (indicator = .str "bullish" ∧ i = USDC_MINT ∧ (amount : ℚ) ≤ balances.usdc * 10 ^ 6) ∨
      (indicator = .str "bearish" ∧ i = SOL_MINT ∧
        (amount : ℚ) ≤ (balances.sol - 1 / 100) * 10 ^ 9)) := by
  have hbull : ((bullishAmount balances.usdc : ℤ) : ℚ) ≤ balances.usdc * 10 ^ 6 := by
    have e : balances.usdc * 10 ^ 6 = ((units : ℤ) : ℚ) := by
      rw [husdc]
      push_cast
      field_simp
    rw [e, husdc]
    have h := bullishAmount_base_units units hunits
    have h2 : bullishAmount ((units : ℚ) / 10 ^ 6) ≤ (units : ℤ) := by
      rcases h with h | h <;> omega
    exact_mod_cast h2
  have hbear : ((bearishAmount balances.sol : ℤ) : ℚ) ≤ (balances.sol - 1 / 100) * 10 ^ 9 := by
    have e : (balances.sol - 1 / 100) * 10 ^ 9 = (((lamports : ℤ) - 10000000 : ℤ) : ℚ) := by
      rw [hsol]
      push_cast
      field_simp
      ring
    rw [e, hsol]
    have h := bearishAmount_lamports lamports hlamports
    have h2 : bearishAmount ((lamports : ℚ) / 10 ^ 9) ≤ (lamports : ℤ) - 10000000 := by
      rcases h with h | h <;> omega
    exact_mod_cast h2
  have key : ∀ trade, buildTrade indicator balances = .ok trade →
      (indicator = .str "bullish" ∧ trade.fromToken = USDC_MINT ∧
        (trade.amount : ℚ) ≤ balances.usdc * 10 ^ 6) ∨
      (indicator = .str "bearish" ∧ trade.fromToken = SOL_MINT ∧
        (trade.amount : ℚ) ≤ (balances.sol - 1 / 100) * 10 ^ 9 ∧
        (10000000 : ℚ) ≤ balances.sol * 10 ^ 9 - (trade.amount : ℚ)) := by
    intro trade h
    unfold buildTrade at h
    by_cases h1 : indicator = .str "bullish"
    · simp only [h1, if_true, Except.ok.injEq] at h
      subst h
      exact Or.inl ⟨h1, rfl, hbull⟩
    · simp only [h1, if_false] at h
      by_cases h2 : indicator = .str "bearish"
      · simp only [h2, if_true] at h
        by_cases h3 : bearishAmount balances.sol ≤ 0
        · simp [h3] at h
        · simp only [h3, if_false, Except.ok.injEq] at h
          subst h
          refine Or.inr ⟨h2, rfl, hbear, ?_⟩
          have e : (balances.sol - 1 / 100) * 10 ^ 9 = balances.sol * 10 ^ 9 - 10000000 := by
            ring
          rw [e] at hbear
          dsimp only
          linarith
      · simp [h2] at h
  refine ⟨key, ?_⟩
  intro i o amount slippage hm
  obtain ⟨b, trade, hb, ht, hi, -, ha, -⟩ := handler_quote_mem w indicator i o amount slippage hm
  rw [hbal] at hb
  simp only [Except.ok.injEq] at hb
  subst hb
  rcases key trade ht with ⟨h1, h2, h3⟩ | ⟨h1, h2, h3, -⟩
  · exact Or.inl ⟨h1, hi.trans h2, by rw [ha]; exact h3⟩
  · exact Or.inr ⟨h1, hi.trans h2, by rw [ha]; exact h3⟩

/-- C13, amended, at `quietWorld` (3,500,000 USDC base units, 50,000,000
lamports) with the indicator "bearish". -/
theorem trade_never_exceeds_balance_below_bound_witness :
    (∀ trade, buildTrade (.str "bearish")
        { sol := ((50000000 : ℕ) : ℚ) / 10 ^ 9, usdc := 7 / 2 } = .ok trade →
      (Indicator.str "bearish" = .str "bullish" ∧ trade.fromToken = USDC_MINT ∧
        (trade.amount : ℚ) ≤ (7 / 2 : ℚ) * 10 ^ 6) ∨
      (Indicator.str "bearish" = .str "bearish" ∧ trade.fromToken = SOL_MINT ∧
        (trade.amount : ℚ) ≤ (((50000000 : ℕ) : ℚ) / 10 ^ 9 - 1 / 100) * 10 ^ 9 ∧
        (10000000 : ℚ) ≤ ((50000000 : ℕ) : ℚ) / 10 ^ 9 * 10 ^ 9 - (trade.amount : ℚ))) ∧
    (∀ i o amount slippage,
      Call.quote i o amount slippage ∈ (handler quietWorld (.str "bearish")).2 →
      (Indicator.str "bearish" = .str "bullish" ∧ i = USDC_MINT ∧
        (amount : ℚ) ≤ (7 / 2 : ℚ) * 10 ^ 6) ∨
      (Indicator.str "bearish" = .str "bearish" ∧ i = SOL_MINT ∧
        (amount : ℚ) ≤ (((50000000 : ℕ) : ℚ) / 10 ^ 9 - 1 / 100) * 10 ^ 9)) :=
  trade_never_exceeds_balance_below_bound quietWorld (.str "bearish")
    { sol := ((50000000 : ℕ) : ℚ) / 10 ^ 9, usdc := 7 / 2 } 3500000 50000000 rfl
    (by norm_num) rfl (by norm_num) (by norm_num)

/-! ## The confirmation loop, one iteration at a time -/

/-- The loop in terms of `pollBody`: an iteration either returns `true` or
passes to the next attempt number, with its queries added to the trace. -/
theorem confirmLoop_step (w : World) (signature : String) (attempts : Nat)
    (trace : List Call) :
    confirmLoop w signature attempts trace =
      if attempts < maxAttempts then
        if (pollBody w signature attempts).1 = true then
          (true, trace ++ (pollBody w signature attempts).2)
        else
          confirmLoop w signature (attempts + 1) (trace ++ (pollBody w signature attempts).2)
      else (false, trace) := by
  rw [confirmLoop]
  unfold pollBody
  by_cases hlt : attempts < maxAttempts
  · simp only [hlt, if_true]
    cases w.getSignatureStatus attempts with
    | error e => simp
    | ok status =>
      dsimp only
      by_cases hf : statusFinalized status = true
      · simp [hf]
      · simp only [hf]
        cases w.getConfirmedTransaction attempts with
        | error e => simp
        | ok confirmation =>
          dsimp only
          by_cases hc : lookupConfirmed confirmation = true
          · simp [hc]
          · simp [hc]
  · simp [hlt]

/-- Every iteration issues exactly one status query. -/
theorem pollBody_statusQueries (w : World) (signature : String) (attempts : Nat) :
    (pollBody w signature attempts).2.countP Call.isStatusQuery = 1 := by
  unfold pollBody
  cases w.getSignatureStatus attempts with
  | error e => rfl
  | ok status =>
    dsimp only
    by_cases hf : statusFinalized status = true
    · simp [hf, Call.isStatusQuery]
    · simp only [hf]
      cases w.getConfirmedTransaction attempts <;> rfl

/-- Every iteration issues at most one full lookup. -/
theorem pollBody_lookups (w : World) (signature : String) (attempts : Nat) :
    (pollBody w signature attempts).2.countP Call.isLookup ≤ 1 := by
  unfold pollBody
  cases w.getSignatureStatus attempts with
  | error e => simp [Call.isLookup]
  | ok status =>
    dsimp only
    by_cases hf : statusFinalized status = true
    · simp [hf, Call.isLookup]
    · simp only [hf]
      cases w.getConfirmedTransaction attempts <;> simp [Call.isLookup]

/-- From attempt number `attempts` on, the loop issues at most one status query
and one lookup per remaining attempt. -/
theorem confirmLoop_bounds (w : World) (signature : String) :
    ∀ (k attempts : Nat) (trace : List Call), maxAttempts - attempts ≤ k →
      (confirmLoop w signature attempts trace).2.countP Call.isStatusQuery ≤
        trace.countP Call.isStatusQuery + k ∧
      (confirmLoop w signature attempts trace).2.countP Call.isLookup ≤
        trace.countP Call.isLookup + k := by
  intro k
  induction k with
  | zero =>
    intro attempts trace h
    have hn : ¬ attempts < maxAttempts := by omega
    rw [confirmLoop_step]
    simp [hn]
  | succ k ih =>
    intro attempts trace h
    rw [confirmLoop_step]
    have h1 := pollBody_statusQueries w signature attempts
    have h2 := pollBody_lookups w signature attempts
    by_cases hlt : attempts < maxAttempts
    · simp only [hlt, if_true]
      by_cases hb : (pollBody w signature attempts).1 = true
      · simp only [hb, if_true, List.countP_append]
        omega
      · simp only [hb]
        obtain ⟨i1, i2⟩ := ih (attempts + 1) (trace ++ (pollBody w signature attempts).2)
          (by omega)
        simp only [List.countP_append] at i1 i2
        constructor <;> simp only [Bool.false_eq_true, if_false] <;> omega
    · simp only [hlt, if_false]
      omega

/-- When the iterations `attempts`, ..., `attempts + j - 1` all fail, the loop
reaches attempt number `attempts + j` having issued `j` status queries and at
most `j` lookups. -/
theorem confirmLoop_skip (w : World) (signature : String) :
    ∀ (j attempts : Nat) (trace : List Call), attempts + j ≤ maxAttempts →
      (∀ i, attempts ≤ i → i < attempts + j → (pollBody w signature i).1 = false) →
      ∃ extra, confirmLoop w signature attempts trace =
          confirmLoop w signature (attempts + j) (trace ++ extra) ∧
        extra.countP Call.isStatusQuery = j ∧ extra.countP Call.isLookup ≤ j := by
  intro j
  induction j with
  | zero =>
    intro attempts trace _ _
    exact ⟨[], by simp, rfl, by simp⟩
  | succ j ih =>
    intro attempts trace hle hfail
    have hlt : attempts < maxAttempts := by omega
    have hb := hfail attempts (le_refl _) (by omega)
    obtain ⟨extra, he, hs, hl⟩ := ih (attempts + 1)
      (trace ++ (pollBody w signature attempts).2) (by omega)
      (fun i h1 h2 => hfail i (by omega) (by omega))
    refine ⟨(pollBody w signature attempts).2 ++ extra, ?_, ?_, ?_⟩
    · rw [confirmLoop_step]
      simp only [hlt, if_true, hb, Bool.false_eq_true, if_false]
      rw [he, List.append_assoc]
      congr 1
      omega
    · rw [List.countP_append, hs, pollBody_statusQueries]
      omega
    · have := pollBody_lookups w signature attempts
      rw [List.countP_append]
      omega

theorem statusFinalized_eq_false_iff (status : Option SignatureStatus) :
    statusFinalized status = false ↔
      ∀ s, status = some s → s.confirmationStatus ≠ some "finalized" := by
  cases status with
  | none => simp [statusFinalized]
  | some s => simp [statusFinalized]

theorem lookupConfirmed_eq_true_iff (confirmation : Option ConfirmedTransaction) :
    lookupConfirmed confirmation = true ↔
      ∃ tx m, confirmation = some tx ∧ tx.meta = some m ∧ m.err = none := by
  cases confirmation with
  | none => simp [lookupConfirmed]
  | some tx =>
    cases hm : tx.meta with
    | none => simp [lookupConfirmed, hm]
    | some m => simp [lookupConfirmed, hm]

/-! ## Confirmation monitor: budget, success paths and errors -/

/-- C14. For every node behaviour `confirmTransactionReliable` issues at most 10
status queries and at most 10 full lookups, one status query per iteration; an
iteration that does not return passes from attempt number `attempts` to
`attempts + 1`, and the loop stops as soon as the number reaches 10. -/
theorem confirm_stays_within_attempt_budget (w : World) (signature : String) :
    (confirmTransactionReliable w signature).2.countP Call.isStatusQuery ≤ 10 ∧
    (confirmTransactionReliable w signature).2.countP Call.isLookup ≤ 10 ∧
    (∀ attempts, (pollBody w signature attempts).2.countP Call.isStatusQuery = 1) ∧
    (∀ attempts trace, attempts < maxAttempts → (pollBody w signature attempts).1 = false →
      attempts < attempts + 1 ∧
      confirmLoop w signature attempts trace =
        confirmLoop w signature (attempts + 1) (trace ++ (pollBody w signature attempts).2)) ∧
    (∀ attempts trace, attempts < maxAttempts → (pollBody w signature attempts).1 = true →
      confirmLoop w signature attempts trace =
        (true, trace ++ (pollBody w signature attempts).2)) ∧
    (∀ attempts trace, maxAttempts ≤ attempts →
      confirmLoop w signature attempts trace = (false, trace)) := by
  obtain ⟨h1, h2⟩ := confirmLoop_bounds w signature 10 0 [] (by simp [maxAttempts])
  refine ⟨by simpa [confirmTransactionReliable] using h1,
    by simpa [confirmTransactionReliable] using h2,
    pollBody_statusQueries w signature, ?_, ?_, ?_⟩
  · intro attempts trace hlt hb
    refine ⟨Nat.lt_succ_self _, ?_⟩
    rw [confirmLoop_step]
    simp [hlt, hb]
  · intro attempts trace hlt hb
    rw [confirmLoop_step]
    simp [hlt, hb]
  · intro attempts trace hge
    rw [confirmLoop_step]
    simp [not_lt.2 hge]

/-- C15. For every node behaviour and every `k` in 1..10, if the `k`-th poll is
the first whose status reports "finalized" and no earlier poll succeeded through
the fallback lookup, `confirmTransactionReliable` returns `true` with exactly
`k` status queries, the last call being the `k`-th status query: no lookup in
the `k`-th poll and no query after it. -/
theorem finalized_status_stops_polling (w : World) (signature : String) (k : ℕ)
    (hk1 : 1 ≤ k) (hk : k ≤ 10) (s : SignatureStatus)
    (hkth : w.getSignatureStatus (k - 1) = .ok (some s))
    (hfin : s.confirmationStatus = some "finalized")
    (hstatus : ∀ i, i < k - 1 → ∀ s', w.getSignatureStatus i = .ok (some s') →
      s'.confirmationStatus ≠ some "finalized")
    (hlookup : ∀ i, i < k - 1 → ∀ tx m, w.getConfirmedTransaction i = .ok (some tx) →
      tx.meta = some m → m.err ≠ none) :
    (confirmTransactionReliable w signature).1 = true ∧
    (confirmTransactionReliable w signature).2.countP Call.isStatusQuery = k ∧
    ∃ earlier, (confirmTransactionReliable w signature).2 =
        earlier ++ [.getSignatureStatus signature] ∧
      earlier.countP Call.isStatusQuery = k - 1 ∧
      earlier.countP Call.isLookup ≤ k - 1 := by
  have hfail : ∀ i, 0 ≤ i → i < 0 + (k - 1) → (pollBody w signature i).1 = false := by
    intro i _ hi
    have hi' : i < k - 1 := by omega
    unfold pollBody
    cases hst : w.getSignatureStatus i with
    | error e => rfl
    | ok status =>
      have hnf : statusFinalized status = false :=
        (statusFinalized_eq_false_iff status).2
          (fun s' e => hstatus i hi' s' (by rw [hst, e]))
      simp only [hnf, Bool.false_eq_true, if_false]
      cases hl : w.getConfirmedTransaction i with
      | error e => rfl
      | ok confirmation =>
        dsimp only
        by_contra hc
        rw [Bool.not_eq_false, lookupConfirmed_eq_true_iff] at hc
        obtain ⟨tx, m, e1, e2, e3⟩ := hc
        exact hlookup i hi' tx m (by rw [hl, e1]) e2 e3
  obtain ⟨extra, he, hs, hl⟩ := confirmLoop_skip w signature (k - 1) 0 []
    (by simp only [maxAttempts]; omega) hfail
  have hbody : pollBody w signature (k - 1) = (true, [.getSignatureStatus signature]) := by
    unfold pollBody
    simp [hkth, statusFinalized, hfin]
  have hlt : k - 1 < maxAttempts := by simp only [maxAttempts]; omega
  have hres : confirmTransactionReliable w signature =
      (true, extra ++ [.getSignatureStatus signature]) := by
    rw [confirmTransactionReliable, he, confirmLoop_step]
    simp [hlt, hbody]
  rw [hres]
  refine ⟨rfl, ?_, extra, rfl, hs, hl⟩
  simp only [List.countP_append, hs]
  simp [Call.isStatusQuery]
  omega

/-- C15 at a node that reports "finalized" for the first time on the third poll. -/
theorem finalized_status_stops_polling_witness :
    (confirmTransactionReliable finalizedAtThirdPollWorld "signature").1 = true ∧
    (confirmTransactionReliable finalizedAtThirdPollWorld "signature").2.countP
      Call.isStatusQuery = 3 ∧
    ∃ earlier, (confirmTransactionReliable finalizedAtThirdPollWorld "signature").2 =
        earlier ++ [.getSignatureStatus "signature"] ∧
      earlier.countP Call.isStatusQuery = 3 - 1 ∧
      earlier.countP Call.isLookup ≤ 3 - 1 :=
  finalized_status_stops_polling finalizedAtThirdPollWorld "signature" 3 (by decide)
    (by decide) { confirmationStatus := some "finalized", err := none } rfl rfl
    (fun i hi s' h => by
      have hi2 : i < 2 := hi
      simp only [finalizedAtThirdPollWorld, hi2, if_true, Except.ok.injEq,
        Option.some.injEq] at h
      subst h
      decide)
    (fun i _ tx m h => by simp [finalizedAtThirdPollWorld, quietWorld] at h)

/-- C16. In every poll where the status query returns without error and does not
report "finalized", the full lookup is made; if it returns a transaction with
`meta` present and `meta.err` equal to `null` the function returns `true` at
once; if it returns nothing, or a transaction without `meta` or with `meta.err`
not `null`, the poll does not succeed and polling continues with the next
attempt. -/
theorem lookup_fallback_decides_poll (w : World) (signature : String) (attempts : ℕ)
    (trace : List Call) (hlt : attempts < maxAttempts) (status : Option SignatureStatus)
    (hst : w.getSignatureStatus attempts = .ok status)
    (hnf : ∀ s, status = some s → s.confirmationStatus ≠ some "finalized") :
    (∀ r, w.getConfirmedTransaction attempts = .ok r →
      (pollBody w signature attempts).2 =
        [.getSignatureStatus signature, .getConfirmedTransaction signature]) ∧
    (∀ tx m, w.getConfirmedTransaction attempts = .ok (some tx) → tx.meta = some m →
      m.err = none →
      confirmLoop w signature attempts trace =
        (true, trace ++ [.getSignatureStatus signature, .getConfirmedTransaction signature])) ∧
    (w.getConfirmedTransaction attempts = .ok none →
      confirmLoop w signature attempts trace =
        confirmLoop w signature (attempts + 1)
          (trace ++ [.getSignatureStatus signature, .getConfirmedTransaction signature])) ∧
    (∀ tx, w.getConfirmedTransaction attempts = .ok (some tx) →
      (tx.meta = none ∨ ∃ m e, tx.meta = some m ∧ m.err = some e) →
      confirmLoop w signature attempts trace =
        confirmLoop w signature (attempts + 1)
          (trace ++ [.getSignatureStatus signature, .getConfirmedTransaction signature])) := by
  have hf : statusFinalized status = false := (statusFinalized_eq_false_iff status).2 hnf
  refine ⟨?_, ?_, ?_, ?_⟩
  · intro r hr
    simp [pollBody, hst, hf, hr]
  · intro tx m hl hm he
    rw [confirmLoop]
    simp [hlt, hst, hf, hl, lookupConfirmed, hm, he]
  · intro hl
    rw [confirmLoop]
    simp [hlt, hst, hf, hl, lookupConfirmed]
  · intro tx hl hcase
    rw [confirmLoop]
    rcases hcase with hm | ⟨m, e, hm, he⟩
    · simp [hlt, hst, hf, hl, lookupConfirmed, hm]
    · simp [hlt, hst, hf, hl, lookupConfirmed, hm, he]

/-- C16 at a node whose status is "confirmed" and whose lookup returns the
transaction with `meta.err` equal to `null`: the first poll returns `true`. -/
theorem lookup_fallback_decides_poll_witness :
    (∀ r, lookupConfirmsWorld.getConfirmedTransaction 0 = .ok r →
      (pollBody lookupConfirmsWorld "signature" 0).2 =
        [.getSignatureStatus "signature", .getConfirmedTransaction "signature"]) ∧
    (∀ tx m, lookupConfirmsWorld.getConfirmedTransaction 0 = .ok (some tx) →
      tx.meta = some m → m.err = none →
      confirmLoop lookupConfirmsWorld "signature" 0 [] =
        (true, [] ++ [.getSignatureStatus "signature",
          .getConfirmedTransaction "signature"])) ∧
    (lookupConfirmsWorld.getConfirmedTransaction 0 = .ok none →
      confirmLoop lookupConfirmsWorld "signature" 0 [] =
        confirmLoop lookupConfirmsWorld "signature" (0 + 1)
          ([] ++ [.getSignatureStatus "signature", .getConfirmedTransaction "signature"])) ∧
    (∀ tx, lookupConfirmsWorld.getConfirmedTransaction 0 = .ok (some tx) →
      (tx.meta = none ∨ ∃ m e, tx.meta = some m ∧ m.err = some e) →
      confirmLoop lookupConfirmsWorld "signature" 0 [] =
        confirmLoop lookupConfirmsWorld "signature" (0 + 1)
          ([] ++ [.getSignatureStatus "signature", .getConfirmedTransaction "signature"])) :=
  lookup_fallback_decides_poll lookupConfirmsWorld "signature" 0 [] (by decide)
    (some { confirmationStatus := some "confirmed", err := none }) rfl
    (fun s h => by
      simp only [Option.some.injEq] at h
      subst h
      decide)

/-- C17. For every node behaviour a poll in which the status query or the lookup
throws uses one attempt and polling continues with the next attempt number; no
error leaves the function, whose result is a Boolean.  A node that throws on
every status query gives `false` after exactly 10 status queries and nothing
else. -/
theorem query_errors_are_absorbed (w : World) (signature : String) :
    (∀ attempts trace e, attempts < maxAttempts → w.getSignatureStatus attempts = .error e →
      confirmLoop w signature attempts trace =
        confirmLoop w signature (attempts + 1) (trace ++ [.getSignatureStatus signature])) ∧
    (∀ attempts trace status e, attempts < maxAttempts →
      w.getSignatureStatus attempts = .ok status →
      (∀ s, status = some s → s.confirmationStatus ≠ some "finalized") →
      w.getConfirmedTransaction attempts = .error e →
      confirmLoop w signature attempts trace =
        confirmLoop w signature (attempts + 1)
          (trace ++ [.getSignatureStatus signature, .getConfirmedTransaction signature])) ∧
    ((∀ i, ∃ e, w.getSignatureStatus i = .error e) →
      confirmTransactionReliable w signature =
        (false, List.replicate 10 (.getSignatureStatus signature))) ∧
    confirmTransactionReliable throwingNodeWorld signature =
      (false, List.replicate 10 (.getSignatureStatus signature)) := by
  have hthrow : ∀ w' : World, (∀ i, ∃ e, w'.getSignatureStatus i = .error e) →
      confirmTransactionReliable w' signature =
        (false, List.replicate 10 (.getSignatureStatus signature)) := by
    intro w' hall
    have hrun : ∀ (j attempts : ℕ) (trace : List Call), attempts + j = maxAttempts →
        confirmLoop w' signature attempts trace =
          (false, trace ++ List.replicate j (.getSignatureStatus signature)) := by
      intro j
      induction j with
      | zero =>
        intro attempts trace h
        rw [confirmLoop]
        have : ¬ attempts < maxAttempts := by omega
        simp [this]
      | succ j ih =>
        intro attempts trace h
        obtain ⟨e, he⟩ := hall attempts
        have hlt : attempts < maxAttempts := by omega
        rw [confirmLoop]
        simp only [hlt, if_true, he]
        rw [ih (attempts + 1) _ (by omega), List.append_assoc]
        rfl
    have := hrun 10 0 [] rfl
    simpa [confirmTransactionReliable] using this
  refine ⟨?_, ?_, hthrow w, hthrow throwingNodeWorld (fun i => ⟨_, rfl⟩)⟩
  · intro attempts trace e hlt he
    rw [confirmLoop]
    simp [hlt, he]
  · intro attempts trace status e hlt hst hnf hl
    have hf : statusFinalized status = false := (statusFinalized_eq_false_iff status).2 hnf
    rw [confirmLoop]
    simp [hlt, hst, hf, hl]

/-- C18 fails on the code: when the node reports the transaction "finalized"
with a non-null execution error, in the status and in the lookup, the first
status check returns `true` without reading `err`, and the handler answers 200
"Transaction successful". -/
theorem finalized_failed_transaction_is_reported_confirmed :
    finalizedFailureWorld.getSignatureStatus 0 =
      .ok (some { confirmationStatus := some "finalized", err := some "InstructionError" }) ∧
    finalizedFailureWorld.getConfirmedTransaction 0 =
      .ok (some { meta := some { err := some "InstructionError" } }) ∧
    confirmTransactionReliable finalizedFailureWorld "signature" =
      (true, [.getSignatureStatus "signature"]) ∧
    (handler finalizedFailureWorld (.str "bullish")).1 =
      { status := 200,
        body := { message := some "Transaction successful", signature := some "signature" } } := by
  have hc : confirmTransactionReliable finalizedFailureWorld "signature" =
      (true, [.getSignatureStatus "signature"]) := by
    rw [confirmTransactionReliable, confirmLoop]
    simp [maxAttempts, finalizedFailureWorld, statusFinalized]
  refine ⟨rfl, rfl, hc, ?_⟩
  have hf : fetchBalances finalizedFailureWorld =
      (.ok { sol := ((50000000 : ℕ) : ℚ) / 10 ^ 9, usdc := 7 / 2 },
        [.getBalance, .getParsedTokenAccountsByOwner]) := rfl
  have hb : buildTrade (.str "bullish") { sol := ((50000000 : ℕ) : ℚ) / 10 ^ 9, usdc := 7 / 2 } =
      .ok { fromToken := USDC_MINT, toToken := SOL_MINT, amount := bullishAmount (7 / 2) } := by
    simp [buildTrade]
  have ht : (Indicator.str "bullish").truthy = true := by decide
  simp only [handler, ht, hf, hb]
  have hq : finalizedFailureWorld.quote USDC_MINT SOL_MINT (bullishAmount (7 / 2)) =
      .ok "quote" := rfl
  have hsw : finalizedFailureWorld.swap "quote" = .ok "swapTransaction" := rfl
  have hd : finalizedFailureWorld.deserialize "swapTransaction" = .ok "swapTransaction" := rfl
  have hsg : finalizedFailureWorld.sign "swapTransaction" = .ok "swapTransaction" := rfl
  have hsend : finalizedFailureWorld.sendRawTransaction "swapTransaction" = .ok "signature" :=
    rfl
  simp [executeTrade, hq, hsw, hd, hsg, hsend, hc]

/-! ## The pipeline after the trade is built -/

/-- A request whose balances were read and whose trade was built goes on to the
pipeline, with the two balance calls in its trace. -/
theorem handler_eq_executeTrade (w : World) (indicator : Indicator) (balances : Balances)
    (trade : Trade) (hbal : (fetchBalances w).1 = .ok balances)
    (hb : buildTrade indicator balances = .ok trade) :
    handler w indicator =
      executeTrade w trade [.getBalance, .getParsedTokenAccountsByOwner] := by
  have ht : indicator.truthy = true := by
    unfold buildTrade at hb
    by_cases h1 : indicator = .str "bullish"
    · rw [h1]; decide
    · by_cases h2 : indicator = .str "bearish"
      · rw [h2]; decide
      · simp [h1, h2] at hb
  have hf := fetchBalances_ok w balances hbal
  simp only [handler, ht, hf, hb]
  rfl

/-- C19. For every request in which the broadcast succeeds and returns the
signature `sig`: the response is 200 with the body `message`, `signature: sig`
if the confirmation monitor returns `true`, and otherwise the response is 500
with an error body that carries the same `sig`. -/
theorem broadcast_outcome_carries_signature (w : World) (indicator : Indicator)
    (balances : Balances) (trade : Trade) (quoteResponse swapTransaction transaction : String)
    (bytes sig : String)
    (hbal : (fetchBalances w).1 = .ok balances)
    (hb : buildTrade indicator balances = .ok trade)
    (hq : w.quote trade.fromToken trade.toToken trade.amount = .ok quoteResponse)
    (hsw : w.swap quoteResponse = .ok swapTransaction)
    (hd : w.deserialize swapTransaction = .ok transaction)
    (hsg : w.sign transaction = .ok bytes)
    (hsend : w.sendRawTransaction bytes = .ok sig) :
    ((confirmTransactionReliable w sig).1 = true →
      (handler w indicator).1 =
        { status := 200,
          body := { message := some "Transaction successful", signature := some sig } }) ∧
    ((confirmTransactionReliable w sig).1 = false →
      (handler w indicator).1 =
        { status := 500,
          body := { error := some "Transaction confirmation failed",
                    signature := some sig } }) := by
  rw [handler_eq_executeTrade w indicator balances trade hbal hb]
  constructor <;> intro hc <;> simp [executeTrade, hq, hsw, hd, hsg, hsend, hc]

/-- C19 at `quietWorld` with the indicator "bullish": the node never confirms,
and the 500 response carries the signature. -/
theorem broadcast_outcome_carries_signature_witness :
    ((confirmTransactionReliable quietWorld "signature").1 = true →
      (handler quietWorld (.str "bullish")).1 =
        { status := 200,
          body := { message := some "Transaction successful",
                    signature := some "signature" } }) ∧
    ((confirmTransactionReliable quietWorld "signature").1 = false →
      (handler quietWorld (.str "bullish")).1 =
        { status := 500,
          body := { error := some "Transaction confirmation failed",
                    signature := some "signature" } }) :=
  broadcast_outcome_carries_signature quietWorld (.str "bullish")
    { sol := ((50000000 : ℕ) : ℚ) / 10 ^ 9, usdc := 7 / 2 }
    { fromToken := USDC_MINT, toToken := SOL_MINT, amount := bullishAmount (7 / 2) }
    "quote" "swapTransaction" "swapTransaction" "swapTransaction" "signature"
    rfl (by simp [buildTrade]) rfl rfl rfl rfl rfl

/-- C20. Each pipeline stage gates the next: for every request whose trade was
built, a failing quote request is the last call; a failing swap-build request
is the last call, after the one quote request; a failing decoding or signing
ends the pipeline without a broadcast; a failing broadcast is the last call, so
that no poll of the confirmation monitor is made; in each case the response is
the 500 of the `catch` block. -/
theorem failed_stage_stops_pipeline (w : World) (indicator : Indicator)
    (balances : Balances) (trade : Trade)
    (hbal : (fetchBalances w).1 = .ok balances)
    (hb : buildTrade indicator balances = .ok trade) :
    (∀ e, w.quote trade.fromToken trade.toToken trade.amount = .error e →
      handler w indicator =
        (caught e, [.getBalance, .getParsedTokenAccountsByOwner,
          .quote trade.fromToken trade.toToken trade.amount 50])) ∧
    (∀ q e, w.quote trade.fromToken trade.toToken trade.amount = .ok q →
      w.swap q = .error e →
      handler w indicator =
        (caught e, [.getBalance, .getParsedTokenAccountsByOwner,
          .quote trade.fromToken trade.toToken trade.amount 50, .swap q])) ∧
    (∀ q tx e, w.quote trade.fromToken trade.toToken trade.amount = .ok q →
      w.swap q = .ok tx → w.deserialize tx = .error e →
      handler w indicator =
        (caught e, [.getBalance, .getParsedTokenAccountsByOwner,
          .quote trade.fromToken trade.toToken trade.amount 50, .swap q])) ∧
    (∀ q tx t e, w.quote trade.fromToken trade.toToken trade.amount = .ok q →
      w.swap q = .ok tx → w.deserialize tx = .ok t → w.sign t = .error e →
      handler w indicator =
        (caught e, [.getBalance, .getParsedTokenAccountsByOwner,
          .quote trade.fromToken trade.toToken trade.amount 50, .swap q, .sign t])) ∧
    (∀ q tx t bytes e, w.quote trade.fromToken trade.toToken trade.amount = .ok q →
      w.swap q = .ok tx → w.deserialize tx = .ok t → w.sign t = .ok bytes →
      w.sendRawTransaction bytes = .error e →
      handler w indicator =
        (caught e, [.getBalance, .getParsedTokenAccountsByOwner,
          .quote trade.fromToken trade.toToken trade.amount 50, .swap q, .sign t,
          .sendRawTransaction bytes])) ∧
    (∀ e, (caught e).status = 500) := by
  rw [handler_eq_executeTrade w indicator balances trade hbal hb]
  refine ⟨?_, ?_, ?_, ?_, ?_, fun e => rfl⟩
  · intro e hq
    simp [executeTrade, hq]
  · intro q e hq hsw
    simp [executeTrade, hq, hsw]
  · intro q tx e hq hsw hd
    simp [executeTrade, hq, hsw, hd]
  · intro q tx t e hq hsw hd hsg
    simp [executeTrade, hq, hsw, hd, hsg]
  · intro q tx t bytes e hq hsw hd hsg hsend
    simp [executeTrade, hq, hsw, hd, hsg, hsend]

/-- C20 at `emptyWalletWorld` with the indicator "bullish", where the quote
request for the amount 0 fails. -/
theorem failed_stage_stops_pipeline_witness :
    handler emptyWalletWorld (.str "bullish") =
      (caught { message := "Request failed with status code 400" },
        [.getBalance, .getParsedTokenAccountsByOwner, .quote USDC_MINT SOL_MINT 0 50]) :=
  (failed_stage_stops_pipeline emptyWalletWorld (.str "bullish")
    { sol := ((50000000 : ℕ) : ℚ) / 10 ^ 9, usdc := 0 }
    { fromToken := USDC_MINT, toToken := SOL_MINT, amount := 0 }
    rfl (by simp [buildTrade, bullishAmount_zero])).1
    { message := "Request failed with status code 400" } rfl

/-! ## One swap per signal, and the balance read -/

/-- A poll of the confirmation monitor is none of the four pipeline calls. -/
theorem countP_stage_of_polls (polls : List Call) (h : ∀ c ∈ polls, c.isPoll = true) :
    polls.countP Call.isQuote = 0 ∧ polls.countP Call.isSwap = 0 ∧
    polls.countP Call.isSign = 0 ∧ polls.countP Call.isSend = 0 := by
  have key : ∀ c ∈ polls, c.isQuote = false ∧ c.isSwap = false ∧ c.isSign = false ∧
      c.isSend = false := by
    intro c hc
    have := h c hc
    cases c <;> simp_all [Call.isPoll, Call.isStatusQuery, Call.isLookup, Call.isQuote,
      Call.isSwap, Call.isSign, Call.isSend]
  refine ⟨?_, ?_, ?_, ?_⟩ <;> rw [List.countP_eq_zero] <;> intro c hc <;> simp [key c hc]

/-- The shape of the pipeline's trace: the earlier calls, then the stage calls
(one quote request, at most one swap-build request, signing and broadcast),
then the polls of the confirmation monitor. -/
theorem executeTrade_shape (w : World) (trade : Trade) (trace : List Call) :
    ∃ stages polls, (executeTrade w trade trace).2 = trace ++ stages ++ polls ∧
      (∀ c ∈ polls, c.isPoll = true) ∧
      stages.countP Call.isQuote = 1 ∧ stages.countP Call.isSwap ≤ 1 ∧
      stages.countP Call.isSign ≤ 1 ∧ stages.countP Call.isSend ≤ 1 := by
  unfold executeTrade
  dsimp only
  cases w.quote trade.fromToken trade.toToken trade.amount with
  | error e =>
    exact ⟨[.quote trade.fromToken trade.toToken trade.amount 50], [], by simp, by simp,
      by simp [Call.isQuote], by simp [Call.isSwap], by simp [Call.isSign],
      by simp [Call.isSend]⟩
  | ok quoteResponse =>
    dsimp only
    cases w.swap quoteResponse with
    | error e =>
      exact ⟨[.quote trade.fromToken trade.toToken trade.amount 50, .swap quoteResponse], [],
        by simp, by simp, by simp [Call.isQuote], by simp [Call.isSwap], by simp [Call.isSign],
        by simp [Call.isSend]⟩
    | ok swapTransaction =>
      dsimp only
      cases w.deserialize swapTransaction with
      | error e =>
        exact ⟨[.quote trade.fromToken trade.toToken trade.amount 50, .swap quoteResponse], [],
          by simp, by simp, by simp [Call.isQuote], by simp [Call.isSwap],
          by simp [Call.isSign], by simp [Call.isSend]⟩
      | ok transaction =>
        dsimp only
        cases w.sign transaction with
        | error e =>
          exact ⟨[.quote trade.fromToken trade.toToken trade.amount 50, .swap quoteResponse,
            .sign transaction], [], by simp, by simp, by simp [Call.isQuote],
            by simp [Call.isSwap], by simp [Call.isSign], by simp [Call.isSend]⟩
        | ok bytes =>
          dsimp only
          cases w.sendRawTransaction bytes with
          | error e =>
            exact ⟨[.quote trade.fromToken trade.toToken trade.amount 50, .swap quoteResponse,
              .sign transaction, .sendRawTransaction bytes], [], by simp, by simp,
              by simp [Call.isQuote], by simp [Call.isSwap], by simp [Call.isSign],
              by simp [Call.isSend]⟩
          | ok signature =>
            refine ⟨[.quote trade.fromToken trade.toToken trade.amount 50,
              .swap quoteResponse, .sign transaction, .sendRawTransaction bytes],
              (confirmTransactionReliable w signature).2, ?_,
              confirmTransactionReliable_trace w signature,
              by simp [Call.isQuote], by simp [Call.isSwap], by simp [Call.isSign],
              by simp [Call.isSend]⟩
            by_cases hc : (confirmTransactionReliable w signature).1 = true <;> simp [hc]

/-- The balance read contains none of the four pipeline calls. -/
theorem fetchBalances_no_stage (w : World) :
    (fetchBalances w).2.countP Call.isQuote = 0 ∧ (fetchBalances w).2.countP Call.isSwap = 0 ∧
    (fetchBalances w).2.countP Call.isSign = 0 ∧ (fetchBalances w).2.countP Call.isSend = 0 := by
  have key : ∀ c ∈ (fetchBalances w).2, c.isQuote = false ∧ c.isSwap = false ∧
      c.isSign = false ∧ c.isSend = false := by
    intro c hc
    rcases fetchBalances_trace w c hc with rfl | rfl <;> exact ⟨rfl, rfl, rfl, rfl⟩
  refine ⟨?_, ?_, ?_, ?_⟩ <;> rw [List.countP_eq_zero] <;> intro c hc <;> simp [key c hc]

/-- C21. For every request and every behaviour of the external services the
handler makes at most one quote request, at most one swap-build request, at
most one signing operation and at most one `sendRawTransaction` call. -/
theorem at_most_one_swap_per_signal (w : World) (indicator : Indicator) :
    (handler w indicator).2.countP Call.isQuote ≤ 1 ∧
    (handler w indicator).2.countP Call.isSwap ≤ 1 ∧
    (handler w indicator).2.countP Call.isSign ≤ 1 ∧
    (handler w indicator).2.countP Call.isSend ≤ 1 := by
  unfold handler
  by_cases ht : indicator.truthy = true
  · simp only [ht, Bool.not_true, Bool.false_eq_true, if_false]
    obtain ⟨f1, f2, f3, f4⟩ := fetchBalances_no_stage w
    rcases hfb : fetchBalances w with ⟨r, t⟩
    rw [hfb] at f1 f2 f3 f4
    dsimp only at f1 f2 f3 f4
    cases r with
    | error e =>
      dsimp only
      omega
    | ok balances =>
      dsimp only
      cases buildTrade indicator balances with
      | error response =>
        dsimp only
        omega
      | ok trade =>
        dsimp only
        obtain ⟨stages, polls, he, hp, s1, s2, s3, s4⟩ := executeTrade_shape w trade t
        obtain ⟨p1, p2, p3, p4⟩ := countP_stage_of_polls polls hp
        rw [he]
        simp only [List.countP_append]
        omega
  · simp [ht]

/-- C22. For every successful node response `fetchBalances` returns
`sol = lamports / 10^9` and `usdc` = the `uiAmount` of the first USDC token
account; with no USDC token account, or a first `uiAmount` that is `null` or 0,
it returns `usdc = 0` and does not fail. -/
theorem fetchBalances_reads_first_usdc_account (w : World) (lamports : ℕ)
    (accounts : List (Option ℚ)) (hget : w.getBalance = .ok lamports)
    (htok : w.getParsedTokenAccountsByOwner = .ok accounts) :
    (∃ usdc, (fetchBalances w).1 = .ok { sol := (lamports : ℚ) / 10 ^ 9, usdc := usdc } ∧
      (∀ x rest, accounts = some x :: rest → usdc = x) ∧
      (accounts = [] → usdc = 0) ∧
      (∀ rest, accounts = none :: rest → usdc = 0) ∧
      (∀ rest, accounts = some 0 :: rest → usdc = 0)) := by
  refine ⟨firstUiAmountOrZero accounts, ?_, ?_, ?_, ?_, ?_⟩
  · simp [fetchBalances, hget, htok]
  · intro x rest h
    rw [h]
    rfl
  · intro h
    rw [h]
    rfl
  · intro rest h
    rw [h]
    rfl
  · intro rest h
    rw [h]
    rfl

/-- C22 at `emptyWalletWorld`, whose owner has no USDC token account. -/
theorem fetchBalances_reads_first_usdc_account_witness :
    (∃ usdc, (fetchBalances emptyWalletWorld).1 =
        .ok { sol := ((50000000 : ℕ) : ℚ) / 10 ^ 9, usdc := usdc } ∧
      (∀ x rest, ([] : List (Option ℚ)) = some x :: rest → usdc = x) ∧
      (([] : List (Option ℚ)) = [] → usdc = 0) ∧
      (∀ rest, ([] : List (Option ℚ)) = none :: rest → usdc = 0) ∧
      (∀ rest, ([] : List (Option ℚ)) = some 0 :: rest → usdc = 0)) :=
  fetchBalances_reads_first_usdc_account emptyWalletWorld 50000000 [] rfl rfl

/-- C23. For every request with a non-empty indicator, if either node call of
the balance read fails with error `e`, `fetchBalances` fails with `e`, the
handler answers with the 500 of the `catch` block, and its trace ends with the
failing node call: no quote, swap-build or broadcast call is made. -/
theorem failed_balance_read_is_500 (w : World) (indicator : Indicator)
    (hp : indicator.truthy = true) :
    (∀ e, w.getBalance = .error e →
      (fetchBalances w).1 = .error e ∧
      handler w indicator = (caught e, [.getBalance]) ∧ (caught e).status = 500) ∧
    (∀ lamports e, w.getBalance = .ok lamports →
      w.getParsedTokenAccountsByOwner = .error e →
      (fetchBalances w).1 = .error e ∧
      handler w indicator = (caught e, [.getBalance, .getParsedTokenAccountsByOwner]) ∧
      (caught e).status = 500) := by
  constructor
  · intro e he
    have hf : fetchBalances w = (.error e, [.getBalance]) := by
      simp [fetchBalances, he]
    refine ⟨by rw [hf], ?_, rfl⟩
    simp only [handler, hp, hf]
    rfl
  · intro lamports e hl he
    have hf : fetchBalances w = (.error e, [.getBalance, .getParsedTokenAccountsByOwner]) := by
      simp [fetchBalances, hl, he]
    refine ⟨by rw [hf], ?_, rfl⟩
    simp only [handler, hp, hf]
    rfl

/-- C23 at `unreachableNodeWorld` with the indicator "bullish". -/
theorem failed_balance_read_is_500_witness :
    handler unreachableNodeWorld (.str "bullish") =
      (caught { message := "failed to get balance" }, [.getBalance]) :=
  ((failed_balance_read_is_500 unreachableNodeWorld (.str "bullish") (by decide)).1
    { message := "failed to get balance" } rfl).2.1

/-! ## History endpoint -/

/-- A processed transaction carries the signature it was looked up with and the
classification of the `meta` returned by its lookup. -/
theorem processTransaction_eq_some (signature : String)
    (reply : Except JsError (Option TransactionDetails)) (tx : ProcessedTransaction)
    (h : processTransaction signature reply = some tx) :
    tx.signature = signature ∧
    ∃ d m, reply = .ok (some d) ∧ d.meta = some m ∧
      tx.transactionType = (classify m).transactionType ∧
      tx.spentAssets = (classify m).spentAssets ∧
      tx.receivedAssets = (classify m).receivedAssets := by
  unfold processTransaction at h
  cases reply with
  | error e => simp at h
  | ok r =>
    cases r with
    | none => simp at h
    | some d =>
      cases hm : d.meta with
      | none => simp [hm] at h
      | some m =>
        simp only [hm, Option.some.injEq] at h
        subst h
        exact ⟨rfl, d, m, rfl, hm, rfl, rfl, rfl⟩

/-- The signatures of the kept results form a subsequence of the signatures
looked up. -/
theorem filterMap_signature_sublist (l : List (ℕ × String))
    (f : ℕ × String → Option ProcessedTransaction)
    (hf : ∀ p tx, f p = some tx → tx.signature = p.2) :
    ((l.filterMap f).map ProcessedTransaction.signature).Sublist (l.map Prod.snd) := by
  induction l with
  | nil => simp
  | cons p rest ih =>
    cases hp : f p with
    | none =>
      rw [List.filterMap_cons_none hp, List.map_cons]
      exact ih.cons _
    | some tx =>
      rw [List.filterMap_cons_some hp, List.map_cons, List.map_cons, hf p tx hp]
      exact ih.cons₂ _

/-- The list returned for a list of signatures: the processed results, in the
order of the signatures, of the lookups that returned a `meta`. -/
theorem processSignatures_eq (w : HistoryWorld) (signatures : List String) :
    processSignatures w signatures =
      signatures.enum.filterMap (fun p => processTransaction p.2 (w.getTransaction p.1 p.2)) := by
  unfold processSignatures
  rw [List.filterMap_map]
  rfl

/-- C30. For every list of signatures returned by the node the history route
answers 200 with exactly the processed results of the signatures whose lookup
returned a transaction with `meta`, each classified from that `meta`, in the
order of the signatures: their signatures form a subsequence of the list, there
are at most as many as signatures, a signature whose lookup threw or returned no
`meta` is dropped without failing the request, and an empty list gives 200 with
an empty transactions list. -/
theorem history_returns_classified_subsequence (w : HistoryWorld) (q : HistoryQuery)
    (address key : String) (limit : ℚ) (signatures : List String)
    (haddr : q.address = some address) (hne : address ≠ "")
    (hlim : transactionLimit q = some limit) (hkey : w.publicKey address = .ok key)
    (hsigs : w.getSignaturesForAddress key limit = .ok (some signatures)) :
    (history w q).status = 200 ∧
    (history w q).transactions =
      some (signatures.enum.filterMap
        (fun p => processTransaction p.2 (w.getTransaction p.1 p.2))) ∧
    (∀ txs, (history w q).transactions = some txs →
      (txs.map ProcessedTransaction.signature).Sublist signatures ∧
      txs.length ≤ signatures.length ∧
      (∀ tx ∈ txs, ∃ i d m, signatures[i]? = some tx.signature ∧
        w.getTransaction i tx.signature = .ok (some d) ∧ d.meta = some m ∧
        tx.transactionType = (classify m).transactionType ∧
        tx.spentAssets = (classify m).spentAssets ∧
        tx.receivedAssets = (classify m).receivedAssets) ∧
      (∀ i s d m, signatures[i]? = some s → w.getTransaction i s = .ok (some d) →
        d.meta = some m →
        ∃ tx ∈ txs, tx.signature = s ∧
          tx.transactionType = (classify m).transactionType ∧
          tx.spentAssets = (classify m).spentAssets ∧
          tx.receivedAssets = (classify m).receivedAssets) ∧
      (∀ i s, signatures[i]? = some s →
        (∃ e, w.getTransaction i s = .error e) ∨ w.getTransaction i s = .ok none ∨
          (∃ d, w.getTransaction i s = .ok (some d) ∧ d.meta = none) →
        processTransaction s (w.getTransaction i s) = none)) ∧
    (signatures = [] → (history w q).transactions = some []) := by
  have hres : history w q =
      { status := 200,
        transactions := some (signatures.enum.filterMap
          (fun p => processTransaction p.2 (w.getTransaction p.1 p.2))) } := by
    unfold history
    simp only [haddr, hne, if_false, hlim, hkey, hsigs]
    by_cases h0 : signatures.length = 0
    · have : signatures = [] := List.length_eq_zero.1 h0
      subst this
      simp
    · simp only [h0, if_false, processSignatures_eq]
  rw [hres]
  refine ⟨rfl, rfl, ?_, ?_⟩
  · intro txs htxs
    simp only [Option.some.injEq] at htxs
    subst htxs
    refine ⟨?_, ?_, ?_, ?_, ?_⟩
    · have := filterMap_signature_sublist signatures.enum
        (fun p => processTransaction p.2 (w.getTransaction p.1 p.2))
        (fun p tx h => (processTransaction_eq_some _ _ tx h).1)
      rwa [List.enum_map_snd] at this
    · calc (signatures.enum.filterMap _).length ≤ signatures.enum.length :=
            List.length_filterMap_le _ _
        _ = signatures.length := List.enum_length
    · intro tx htx
      obtain ⟨p, hp, hf⟩ := List.mem_filterMap.1 htx
      obtain ⟨hsig, d, m, hreply, hm, h1, h2, h3⟩ := processTransaction_eq_some _ _ tx hf
      have hidx := List.mem_enum_iff_getElem?.1 hp
      exact ⟨p.1, d, m, by rw [hsig]; exact hidx, by rw [hsig]; exact hreply, hm, h1, h2, h3⟩
    · intro i s d m hidx hreply hm
      have hp : (i, s) ∈ signatures.enum := List.mk_mem_enum_iff_getElem?.2 hidx
      cases hx : processTransaction s (w.getTransaction i s) with
      | none => simp [processTransaction, hreply, hm] at hx
      | some tx =>
        obtain ⟨hsig, d2, m2, hreply2, hm2, h1, h2, h3⟩ := processTransaction_eq_some _ _ tx hx
        rw [hreply] at hreply2
        simp only [Except.ok.injEq, Option.some.injEq] at hreply2
        subst hreply2
        rw [hm] at hm2
        simp only [Option.some.injEq] at hm2
        subst hm2
        exact ⟨tx, List.mem_filterMap.2 ⟨(i, s), hp, hx⟩, hsig, h1, h2, h3⟩
    · intro i s _ hcase
      rcases hcase with ⟨e, he⟩ | he | ⟨d, he, hm⟩
      · simp [processTransaction, he]
      · simp [processTransaction, he]
      · simp [processTransaction, he, hm]
  · intro h
    rw [h]
    rfl

/-- C30 at a node with three signatures, of which the second lookup throws and
the third returns no `meta`: the one transaction kept is that of the first. -/
theorem history_returns_classified_subsequence_witness :
    (history sampleHistoryWorld sampleHistoryQuery).status = 200 ∧
    ((history sampleHistoryWorld sampleHistoryQuery).transactions.map
      (fun txs => txs.map ProcessedTransaction.signature)) = some ["sigA"] :=
  have h := history_returns_classified_subsequence sampleHistoryWorld sampleHistoryQuery
    "9xQeWvG816bUx9EPjHmaT23yvVM2ZWbrrpZb9PusVFin"
    "9xQeWvG816bUx9EPjHmaT23yvVM2ZWbrrpZb9PusVFin" 30 ["sigA", "sigB", "sigC"]
    rfl (by decide) rfl rfl rfl
  ⟨h.1, by rw [h.2.1]; rfl⟩

end Avaris
